import Mathlib

/-!
Verification development for the TTG propositional truth-table generator.

The definitions below are a shallow embedding of the repository's source:
  - src/types.ts       : Sentence AST, string renderings, parser, layout
  - src/truth_table.ts : LetterSet, evaluate, generate_truth_table
  - src/main.ts        : getSubformulaDependencies, subformulaToCell,
                         cellDependencies (dependency machinery of renderTruthTable)

JavaScript strings are modelled as Lean String / List Char; JS Map objects as
insertion-ordered association lists with update-in-place set; thrown exceptions
as Option (none = the call threw); the parsimmon combinator grammar as a
fuel-indexed backtracking recursive-descent parser over the remaining input.
-/

set_option maxHeartbeats 1000000
set_option linter.unusedVariables false

namespace TTG

/-- Letter record: the payload of the 'letter' variant of Sentence in src/types.ts
(id and numeric index); identity is the (id, index) pair. -/
structure Letter where
  id : String
  index : Nat
deriving DecidableEq

/-- Sentence AST from src/types.ts: tagged union with one constant, one atom,
one unary and six binary connective variants, in source declaration order. -/
inductive Sentence where
  | value (v : Bool)
  | letter (l : Letter)
  | negation (s : Sentence)
  | disjunction (left right : Sentence)
  | conjunction (left right : Sentence)
  | conditional (left right : Sentence)
  | biconditional (left right : Sentence)
  | xor (left right : Sentence)
  | nand (left right : Sentence)
deriving DecidableEq

/-- letter_string from src/types.ts: display a letter, appending the index
only when it is positive. -/
def letter_string (l : Letter) : String :=
  l.id ++ (if l.index > 0 then toString l.index else "")

/-- sentence_to_string from src/types.ts: spaced display form, constants as
⊤/⊥, binary operands wrapped when they are not constants, letters or
negations.  The body of the helper wrap_if_needed is inlined at each operand
so that the recursion is structural (hence kernel-computable); the standalone
wrap_if_needed below and the equation lemmas recover the source's shape. -/
def sentence_to_string : Sentence → String
  | .value v => if v then "⊤" else "⊥"
  | .letter l => letter_string l
  | .negation s => "~" ++
    (match s with
     | .value v1 => sentence_to_string (.value v1)
     | .letter l1 => sentence_to_string (.letter l1)
     | .negation s1 => sentence_to_string (.negation s1)
     | s1 => "(" ++ sentence_to_string s1 ++ ")")
  | .conjunction l r =>
    (match l with
     | .value v1 => sentence_to_string (.value v1)
     | .letter l1 => sentence_to_string (.letter l1)
     | .negation s1 => sentence_to_string (.negation s1)
     | s1 => "(" ++ sentence_to_string s1 ++ ")") ++ " & " ++
    (match r with
     | .value v1 => sentence_to_string (.value v1)
     | .letter l1 => sentence_to_string (.letter l1)
     | .negation s1 => sentence_to_string (.negation s1)
     | s1 => "(" ++ sentence_to_string s1 ++ ")")
  | .disjunction l r =>
    (match l with
     | .value v1 => sentence_to_string (.value v1)
     | .letter l1 => sentence_to_string (.letter l1)
     | .negation s1 => sentence_to_string (.negation s1)
     | s1 => "(" ++ sentence_to_string s1 ++ ")") ++ " ∨ " ++
    (match r with
     | .value v1 => sentence_to_string (.value v1)
     | .letter l1 => sentence_to_string (.letter l1)
     | .negation s1 => sentence_to_string (.negation s1)
     | s1 => "(" ++ sentence_to_string s1 ++ ")")
  | .conditional l r =>
    (match l with
     | .value v1 => sentence_to_string (.value v1)
     | .letter l1 => sentence_to_string (.letter l1)
     | .negation s1 => sentence_to_string (.negation s1)
     | s1 => "(" ++ sentence_to_string s1 ++ ")") ++ " → " ++
    (match r with
     | .value v1 => sentence_to_string (.value v1)
     | .letter l1 => sentence_to_string (.letter l1)
     | .negation s1 => sentence_to_string (.negation s1)
     | s1 => "(" ++ sentence_to_string s1 ++ ")")
  | .biconditional l r =>
    (match l with
     | .value v1 => sentence_to_string (.value v1)
     | .letter l1 => sentence_to_string (.letter l1)
     | .negation s1 => sentence_to_string (.negation s1)
     | s1 => "(" ++ sentence_to_string s1 ++ ")") ++ " ↔ " ++
    (match r with
     | .value v1 => sentence_to_string (.value v1)
     | .letter l1 => sentence_to_string (.letter l1)
     | .negation s1 => sentence_to_string (.negation s1)
     | s1 => "(" ++ sentence_to_string s1 ++ ")")
  | .xor l r =>
    (match l with
     | .value v1 => sentence_to_string (.value v1)
     | .letter l1 => sentence_to_string (.letter l1)
     | .negation s1 => sentence_to_string (.negation s1)
     | s1 => "(" ++ sentence_to_string s1 ++ ")") ++ " ⊕ " ++
    (match r with
     | .value v1 => sentence_to_string (.value v1)
     | .letter l1 => sentence_to_string (.letter l1)
     | .negation s1 => sentence_to_string (.negation s1)
     | s1 => "(" ++ sentence_to_string s1 ++ ")")
  | .nand l r =>
    (match l with
     | .value v1 => sentence_to_string (.value v1)
     | .letter l1 => sentence_to_string (.letter l1)
     | .negation s1 => sentence_to_string (.negation s1)
     | s1 => "(" ++ sentence_to_string s1 ++ ")") ++ " | " ++
    (match r with
     | .value v1 => sentence_to_string (.value v1)
     | .letter l1 => sentence_to_string (.letter l1)
     | .negation s1 => sentence_to_string (.negation s1)
     | s1 => "(" ++ sentence_to_string s1 ++ ")")

/-- wrap_if_needed from src/types.ts: parenthesize everything except
constants, letters and negations. -/
def wrap_if_needed (s : Sentence) : String :=
  match s with
  | .value v => sentence_to_string (.value v)
  | .letter l => sentence_to_string (.letter l)
  | .negation s1 => sentence_to_string (.negation s1)
  | s => "(" ++ sentence_to_string s ++ ")"

/-- sentence_to_string_compact from src/types.ts: compact display form with no
spaces, constants as T/F; the body of wrap_compact is inlined at each binary
case so that the recursion is structural, and the standalone wrap_compact
below is definitionally what each case computes (the isTopLevel argument
defaults to true at every call site of the source). -/
def sentence_to_string_compact (s : Sentence) (isTopLevel : Bool) : String :=
  match s with
  | .value v => if v then "T" else "F"
  | .letter l => letter_string l
  | .negation s1 => "~" ++ sentence_to_string_compact s1 false
  | .conjunction l r =>
    let inner := sentence_to_string_compact l false ++ "&" ++ sentence_to_string_compact r false
    if isTopLevel then inner else "(" ++ inner ++ ")"
  | .disjunction l r =>
    let inner := sentence_to_string_compact l false ++ "∨" ++ sentence_to_string_compact r false
    if isTopLevel then inner else "(" ++ inner ++ ")"
  | .conditional l r =>
    let inner := sentence_to_string_compact l false ++ "→" ++ sentence_to_string_compact r false
    if isTopLevel then inner else "(" ++ inner ++ ")"
  | .biconditional l r =>
    let inner := sentence_to_string_compact l false ++ "↔" ++ sentence_to_string_compact r false
    if isTopLevel then inner else "(" ++ inner ++ ")"
  | .xor l r =>
    let inner := sentence_to_string_compact l false ++ "⊕" ++ sentence_to_string_compact r false
    if isTopLevel then inner else "(" ++ inner ++ ")"
  | .nand l r =>
    let inner := sentence_to_string_compact l false ++ "|" ++ sentence_to_string_compact r false
    if isTopLevel then inner else "(" ++ inner ++ ")"

/-- wrap_compact from src/types.ts: render both operands compactly at nested
level, join with the operator, and parenthesize unless at top level. -/
def wrap_compact (left right : Sentence) (op : String) (isTopLevel : Bool) : String :=
  let inner := sentence_to_string_compact left false ++ op ++ sentence_to_string_compact right false
  if isTopLevel then inner else "(" ++ inner ++ ")"

/-- evaluate from src/truth_table.ts applied to a total assignment function:
structural recursion over the eight variants, using the Lean boolean
operations that the JavaScript operators compute on boolean values. -/
def evaluate (assignment : Letter → Bool) : Sentence → Bool
  | .value v => v
  | .letter l => assignment l
  | .negation s => !evaluate assignment s
  | .conjunction l r => evaluate assignment l && evaluate assignment r
  | .disjunction l r => evaluate assignment l || evaluate assignment r
  | .conditional l r => !evaluate assignment l || evaluate assignment r
  | .biconditional l r => evaluate assignment l == evaluate assignment r
  | .xor l r => evaluate assignment l != evaluate assignment r
  | .nand l r => !(evaluate assignment l && evaluate assignment r)

/-- evaluate from src/truth_table.ts applied to an assignment closure that may
throw (as the lookup built in generate_truth_table does): none models a thrown
UnboundLetter error.  The JS operators are modelled exactly: && and || evaluate
their right operand only when the left one does not already decide the result,
=== and !== evaluate both, and in the conditional and nand cases the negation
applies after the left (respectively the conjunction) is computed. -/
def evaluateOpt (assignment : Letter → Option Bool) : Sentence → Option Bool
  | .value v => some v
  | .letter l => assignment l
  | .negation s => (evaluateOpt assignment s).map (!·)
  | .conjunction l r =>
    match evaluateOpt assignment l with
    | none => none
    | some false => some false
    | some true => evaluateOpt assignment r
  | .disjunction l r =>
    match evaluateOpt assignment l with
    | none => none
    | some true => some true
    | some false => evaluateOpt assignment r
  | .conditional l r =>
    match evaluateOpt assignment l with
    | none => none
    | some false => some true
    | some true => evaluateOpt assignment r
  | .biconditional l r =>
    match evaluateOpt assignment l with
    | none => none
    | some a => (evaluateOpt assignment r).map (fun b => a == b)
  | .xor l r =>
    match evaluateOpt assignment l with
    | none => none
    | some a => (evaluateOpt assignment r).map (fun b => a != b)
  | .nand l r =>
    match evaluateOpt assignment l with
    | none => none
    | some false => some true
    | some true => (evaluateOpt assignment r).map (!·)

/-- LetterSet.add from src/truth_table.ts, acting on the insertion-ordered
element list: append the letter unless an equal (id, index) pair is present. -/
def letterSetAdd (ls : List Letter) (l : Letter) : List Letter :=
  if ls.contains l then ls else ls ++ [l]

/-- Worker of collect_letters from src/truth_table.ts: preorder traversal
adding every letter node into the accumulated set. -/
def collect_letters_aux (acc : List Letter) : Sentence → List Letter
  | .value _ => acc
  | .letter l => letterSetAdd acc l
  | .negation s => collect_letters_aux acc s
  | .disjunction l r | .conjunction l r | .conditional l r
  | .biconditional l r | .xor l r | .nand l r =>
    collect_letters_aux (collect_letters_aux acc l) r

/-- collect_letters from src/truth_table.ts: all letters of a sentence as a
deduplicated insertion-ordered list. -/
def collect_letters (s : Sentence) : List Letter :=
  collect_letters_aux [] s

/-- Lexicographic comparison of character lists by code point, modelling the
result of localeCompare on the identifiers in use (it agrees with code-point
order on the single uppercase ASCII identifiers the parser produces). -/
def cmp_char_list : List Char → List Char → Ordering
  | [], [] => .eq
  | [], _ :: _ => .lt
  | _ :: _, [] => .gt
  | a :: as, b :: bs =>
    if a.toNat < b.toNat then .lt
    else if b.toNat < a.toNat then .gt
    else cmp_char_list as bs

/-- comp_letters from src/truth_table.ts: order letters by id and then by
index. -/
def comp_letters (a b : Letter) : Ordering :=
  match cmp_char_list a.id.data b.id.data with
  | .eq =>
    if a.index < b.index then .lt
    else if b.index < a.index then .gt
    else .eq
  | o => o

/-- Insertion step for the sort applied to the letter array in
generate_truth_table (the comparator is a strict total order on the
deduplicated letters, so any comparison sort yields this result). -/
def insert_letter (l : Letter) : List Letter → List Letter
  | [] => [l]
  | x :: xs => if comp_letters l x == .gt then x :: insert_letter l xs else l :: x :: xs

/-- Sort of the letter array in generate_truth_table by comp_letters. -/
def sort_letters (ls : List Letter) : List Letter :=
  ls.foldr insert_letter []

/-- Implementation of natToBin on explicit fuel so that the recursion is
structural; the fuel only needs to dominate the number of halving steps. -/
def natToBinAux : Nat → Nat → List Char
  | 0, n => [if n % 2 == 0 then '0' else '1']
  | fuel + 1, n =>
    if n < 2 then [if n == 0 then '0' else '1']
    else natToBinAux fuel (n / 2) ++ [if n % 2 == 0 then '0' else '1']

/-- Binary digits of a natural number, most significant first, as produced by
the JavaScript expression n.toString(2) (so 0 renders as "0"). -/
def natToBin (n : Nat) : List Char :=
  natToBinAux n n

/-- padStart of JavaScript strings: left-pad with the given character up to
the requested width (no change when already at least that wide). -/
def padStart (s : List Char) (width : Nat) (c : Char) : List Char :=
  List.replicate (width - s.length) c ++ s

/-- to_bin_str from src/truth_table.ts: the state index as a binary string of
the given width; (n >>> 0) truncates the number to an unsigned 32-bit integer
before taking its binary digits, modelled by n % 2 ^ 32. -/
def to_bin_str (n width : Nat) : List Char :=
  padStart (natToBin (n % 2 ^ 32)) width '0'

/-- JavaScript Map.set on an insertion-ordered association list: replace the
value in place when the key is present, append otherwise. -/
def jsMapSet {α : Type} (m : List (String × α)) (k : String) (v : α) : List (String × α) :=
  match m with
  | [] => [(k, v)]
  | (k1, v1) :: rest => if k1 = k then (k, v) :: rest else (k1, v1) :: jsMapSet rest k v

/-- JavaScript Map.get on an insertion-ordered association list. -/
def jsMapGet {α : Type} (m : List (String × α)) (k : String) : Option α :=
  match m with
  | [] => none
  | (k1, v1) :: rest => if k1 = k then some v1 else jsMapGet rest k

/-- TruthTableRow from src/truth_table.ts: one assignment Map (keyed by
letter_string) and the evaluated value of every formula of the batch. -/
structure TruthTableRow where
  assignment : List (String × Bool)
  values : List Bool
deriving DecidableEq

/-- TruthTableResult from src/truth_table.ts. -/
structure TruthTableResult where
  letters : List Letter
  formulas : List Sentence
  rows : List TruthTableRow
deriving DecidableEq

/-- Steps 1 and 2 of generate_truth_table: the union of all letters across the
batch, in first-occurrence order, then sorted with comp_letters. -/
def table_letters (formulas : List Sentence) : List Letter :=
  sort_letters (formulas.foldl (fun acc f => (collect_letters f).foldl letterSetAdd acc) [])

/-- Row count of generate_truth_table: 1 when no letters occur, else 2^n. -/
def n_states (letters : List Letter) : Nat :=
  if letters.length = 0 then 1 else 2 ^ letters.length

/-- Assignment Map built inside the state loop of generate_truth_table:
for each position i, set the display string of letters[i] to the boolean
(bin[i] === '0'). -/
def build_assignment (letters : List Letter) (bin : List Char) : List (String × Bool) :=
  (List.range letters.length).foldl
    (fun m i => jsMapSet m (letter_string (letters.getD i ⟨"", 0⟩)) (bin.getD i 'x' == '0')) []

/-- Lookup closure built inside generate_truth_table: consult the assignment
Map by display string, none modelling the thrown "not found" error. -/
def table_lookup (assignment : List (String × Bool)) (l : Letter) : Option Bool :=
  jsMapGet assignment (letter_string l)

/-- Body of the state loop of generate_truth_table: build the row's assignment
and evaluate every formula against it (none if any evaluation threw). -/
def make_row (letters : List Letter) (formulas : List Sentence) (state : Nat) :
    Option TruthTableRow :=
  let bin := to_bin_str state letters.length
  let assignment := build_assignment letters bin
  (formulas.mapM (fun f => evaluateOpt (table_lookup assignment) f)).map
    (fun values => ⟨assignment, values⟩)

/-- generate_truth_table from src/truth_table.ts: sorted letter union, one row
per state in increasing order; none models an escaped exception. -/
def generate_truth_table (formulas : List Sentence) : Option TruthTableResult :=
  let letters := table_letters formulas
  ((List.range (n_states letters)).mapM (make_row letters formulas)).map
    (fun rows => ⟨letters, formulas, rows⟩)

/-- FormulaToken from src/types.ts: plain display text, or an evaluation point
carrying its sub-formula and the main-connective flag. -/
inductive FormulaToken where
  | text (text : String)
  | value (text : String) (subformula : Sentence) (isMain : Bool)
deriving DecidableEq

/-- FormulaLayout from src/types.ts. -/
structure FormulaLayout where
  tokens : List FormulaToken
deriving DecidableEq

/-- Inner layout function of layoutFormula from src/types.ts: emit tokens in
display order; below top level every binary node is wrapped in text parens;
operands are laid out with both flags false. -/
def layout_tokens : Sentence → Bool → Bool → List FormulaToken
  | .value v, isMain, _ => [.value (if v then "⊤" else "⊥") (.value v) isMain]
  | .letter l, isMain, _ => [.value (letter_string l) (.letter l) isMain]
  | .negation s, isMain, _ =>
    .value "~" (.negation s) isMain :: layout_tokens s false false
  | .conjunction l r, isMain, isTop =>
    (if isTop then [] else [.text "("]) ++ layout_tokens l false false
      ++ [.value "&" (.conjunction l r) isMain] ++ layout_tokens r false false
      ++ (if isTop then [] else [.text ")"])
  | .disjunction l r, isMain, isTop =>
    (if isTop then [] else [.text "("]) ++ layout_tokens l false false
      ++ [.value "∨" (.disjunction l r) isMain] ++ layout_tokens r false false
      ++ (if isTop then [] else [.text ")"])
  | .conditional l r, isMain, isTop =>
    (if isTop then [] else [.text "("]) ++ layout_tokens l false false
      ++ [.value " → " (.conditional l r) isMain] ++ layout_tokens r false false
      ++ (if isTop then [] else [.text ")"])
  | .biconditional l r, isMain, isTop =>
    (if isTop then [] else [.text "("]) ++ layout_tokens l false false
      ++ [.value " ↔ " (.biconditional l r) isMain] ++ layout_tokens r false false
      ++ (if isTop then [] else [.text ")"])
  | .xor l r, isMain, isTop =>
    (if isTop then [] else [.text "("]) ++ layout_tokens l false false
      ++ [.value "⊕" (.xor l r) isMain] ++ layout_tokens r false false
      ++ (if isTop then [] else [.text ")"])
  | .nand l r, isMain, isTop =>
    (if isTop then [] else [.text "("]) ++ layout_tokens l false false
      ++ [.value "|" (.nand l r) isMain] ++ layout_tokens r false false
      ++ (if isTop then [] else [.text ")"])

/-- layoutFormula from src/types.ts: the token sequence of a sentence, laid
out at top level with the root marked as main connective. -/
def layoutFormula (s : Sentence) : FormulaLayout :=
  ⟨layout_tokens s true true⟩

/-- Result entries of evaluateLayout from src/types.ts. -/
structure LayoutValue where
  text : String
  value : Bool
  isMain : Bool
deriving DecidableEq

/-- evaluateLayout from src/types.ts: evaluate every value token's
sub-formula under the assignment, keeping text and main flag. -/
def evaluateLayout (layout : FormulaLayout) (assignment : Letter → Bool) :
    List LayoutValue :=
  layout.tokens.filterMap fun t =>
    match t with
    | .text _ => none
    | .value txt sub m => some ⟨txt, evaluate assignment sub, m⟩

/-- Atomicity test used throughout src/main.ts: letters and constants are
atomic. -/
def is_atomic : Sentence → Bool
  | .letter _ => true
  | .value _ => true
  | _ => false

/-- getSubformulaDependencies from src/main.ts: the immediate operands that
are not atomic, left before right. -/
def getSubformulaDependencies : Sentence → List Sentence
  | .value _ => []
  | .letter _ => []
  | .negation s => if is_atomic s then [] else [s]
  | .disjunction l r | .conjunction l r | .conditional l r
  | .biconditional l r | .xor l r | .nand l r =>
    (if is_atomic l then [] else [l]) ++ (if is_atomic r then [] else [r])

/-- Enumeration order of the nested forEach loops over layouts and tokens in
renderTruthTable (src/main.ts): formula index, token index, token. -/
def token_entries (layouts : List FormulaLayout) : List (Nat × Nat × FormulaToken) :=
  layouts.enum.flatMap fun p => p.2.tokens.enum.map fun q => (p.1, q.1, q.2)

/-- subformulaToCell from src/main.ts: one batch-wide Map from the compact
rendering of each non-atomic value token's sub-formula to that token's
(formulaIdx, tokenIdx) position, built over all tokens in enumeration order. -/
def subformulaToCell (layouts : List FormulaLayout) : List (String × Nat × Nat) :=
  (token_entries layouts).foldl
    (fun m e =>
      match e.2.2 with
      | .value _ sub _ =>
        if is_atomic sub then m
        else jsMapSet m (sentence_to_string_compact sub true) (e.1, e.2.1)
      | _ => m) []

/-- Cell key format of src/main.ts: formulaIdx-tokenIdx. -/
def cell_key (formulaIdx tokenIdx : Nat) : String :=
  toString formulaIdx ++ "-" ++ toString tokenIdx

/-- cellDependencies from src/main.ts: for every non-atomic value token, the
cell keys of its direct dependencies, each resolved through subformulaToCell
by compact rendering (dependencies whose key is absent are dropped). -/
def cellDependencies (layouts : List FormulaLayout) : List (String × List String) :=
  (token_entries layouts).foldl
    (fun m e =>
      match e.2.2 with
      | .value _ sub _ =>
        if is_atomic sub then m
        else
          jsMapSet m (cell_key e.1 e.2.1)
            ((getSubformulaDependencies sub).filterMap fun dep =>
              (jsMapGet (subformulaToCell layouts) (sentence_to_string_compact dep true)).map
                fun c => cell_key c.1 c.2)
      | _ => m) []

/-- Character class of the JavaScript regular expression \s (whitespace), as
used by parsimmon's optWhitespace and by String.prototype.trim. -/
def is_ws (c : Char) : Bool :=
  c.toNat == 0x20 || c.toNat == 0x9 || c.toNat == 0xA || c.toNat == 0xD ||
  c.toNat == 0xB || c.toNat == 0xC ||
  c.toNat == 0xA0 || c.toNat == 0x1680 ||
  (0x2000 ≤ c.toNat && c.toNat ≤ 0x200A) ||
  c.toNat == 0x2028 || c.toNat == 0x2029 || c.toNat == 0x202F ||
  c.toNat == 0x205F || c.toNat == 0x3000 || c.toNat == 0xFEFF

/-- P.string of parsimmon: consume exactly the given literal or fail. -/
def pString : List Char → List Char → Option (List Char)
  | [], cs => some cs
  | p :: ps, c :: cs => if p = c then pString ps cs else none
  | _ :: _, [] => none

/-- P.optWhitespace of parsimmon: consume any run of whitespace. -/
def skipWs (cs : List Char) : List Char :=
  cs.dropWhile is_ws

/-- String.prototype.trim of JavaScript: strip leading and trailing
whitespace. -/
def jsTrim (cs : List Char) : List Char :=
  ((cs.dropWhile is_ws).reverse.dropWhile is_ws).reverse

/-- Character class of the Letter rule's regular expression [A-Z]. -/
def is_upper (c : Char) : Bool :=
  'A' ≤ c && c ≤ 'Z'

/-- Letter rule of SentenceLang (src/parse.ts): one uppercase ASCII character,
producing letter(id, 0). -/
def pLetter : List Char → Option (Sentence × List Char)
  | [] => none
  | c :: cs => if is_upper c then some (.letter ⟨String.singleton c, 0⟩, cs) else none

/-- P.alt of parsimmon restricted to two alternatives: the first success wins,
and a failure backtracks to the same position (both alternatives read from the
same input). -/
def pAlt {α : Type} (x y : Option α) : Option α :=
  match x with
  | some r => some r
  | none => y

/-- Backtracking step of parsimmon's many/sepBy: when the attempted piece
fails, succeed with the fallback (the state from before the attempt). -/
def pTry {α β : Type} (x : Option α) (fallback : β) (g : α → Option β) : Option β :=
  match x with
  | none => some fallback
  | some a => g a

/-- Assert of the Wrapped rule: reject a bare letter or a negation inside the
brackets. -/
def wrapAssert (p : Sentence × List Char) : Option (Sentence × List Char) :=
  match p.1 with
  | .negation _ => none
  | .letter _ => none
  | _ => some p

mutual

/-- Sentence rule of SentenceLang: ordered alternation Iff, Imp, Or, And, Xor,
Nand, Factor; first success wins (parsimmon alt backtracks to the same
position on failure).  The Nat argument is recursion fuel; every parse of the
grammar consumes input at each cycle, so any sufficiently large fuel computes
the same result as the source combinators. -/
def pSentence : Nat → List Char → Option (Sentence × List Char)
  | 0, _ => none
  | f + 1, cs =>
    pAlt (pBinary f ['<', '-', '>'] Sentence.biconditional cs)
      (pAlt (pBinary f ['-', '>'] Sentence.conditional cs)
        (pAlt (pBinary f ['v'] Sentence.disjunction cs)
          (pAlt (pBinary f ['&'] Sentence.conjunction cs)
            (pAlt (pBinary f ['+'] Sentence.xor cs)
              (pAlt (pBinary f ['|'] Sentence.nand cs)
                (pFactor f cs))))))

/-- Common shape of the six binary rules of SentenceLang: Factor.sepBy(the
connective surrounded by optional whitespace), asserted to have exactly two
operands, mapped onto the connective's constructor. -/
def pBinary : Nat → List Char → (Sentence → Sentence → Sentence) → List Char →
    Option (Sentence × List Char)
  | 0, _, _, _ => none
  | f + 1, sym, mk, cs =>
    match pSepBy f sym cs with
    | some ([l, r], rest) => some (mk l r, rest)
    | _ => none

/-- parsimmon sepBy: zero or more Factors separated by the symbol; an empty
result consumes nothing. -/
def pSepBy : Nat → List Char → List Char → Option (List Sentence × List Char)
  | 0, _, _ => none
  | f + 1, sym, cs =>
    pTry (pFactor f cs) ([], cs) fun p =>
      (pSepRest f sym p.2).bind fun q => some (p.1 :: q.1, q.2)

/-- parsimmon many over (separator then Factor): collect further operands,
backtracking the whole iteration when the separator or the Factor fails. -/
def pSepRest : Nat → List Char → List Char → Option (List Sentence × List Char)
  | 0, _, _ => none
  | f + 1, sym, cs =>
    pTry (pString sym (skipWs cs)) ([], cs) fun cs2 =>
      pTry (pFactor f (skipWs cs2)) ([], cs) fun p =>
        (pSepRest f sym p.2).bind fun q => some (p.1 :: q.1, q.2)

/-- Factor rule of SentenceLang: Not, then Wrapped, then Letter. -/
def pFactor : Nat → List Char → Option (Sentence × List Char)
  | 0, _ => none
  | f + 1, cs =>
    pAlt (pNot f cs) (pAlt (pWrapped f cs) (pLetter cs))

/-- Not rule of SentenceLang: a tilde, optional whitespace, then a Factor. -/
def pNot : Nat → List Char → Option (Sentence × List Char)
  | 0, _ => none
  | f + 1, cs =>
    (pString ['~'] cs).bind fun cs1 =>
      (pFactor f (skipWs cs1)).bind fun p => some (.negation p.1, p.2)

/-- Wrapped rule of SentenceLang: one of the three bracket pairs around a
Sentence, then the assert rejecting a bare letter or a negation inside. -/
def pWrapped : Nat → List Char → Option (Sentence × List Char)
  | 0, _ => none
  | f + 1, cs =>
    (pAlt (pWrappedWith f '(' ')' cs)
      (pAlt (pWrappedWith f '[' ']' cs)
        (pWrappedWith f '\x7b' '\x7d' cs))).bind wrapAssert

/-- One bracket alternative of the Wrapped rule: opening character, optional
whitespace, Sentence, optional whitespace, closing character. -/
def pWrappedWith : Nat → Char → Char → List Char → Option (Sentence × List Char)
  | 0, _, _, _ => none
  | f + 1, op, cl, cs =>
    (pString [op] cs).bind fun cs1 =>
      (pSentence f (skipWs cs1)).bind fun p =>
        (pString [cl] (skipWs p.2)).bind fun cs3 => some (p.1, cs3)

end

/-- Res from src/utils.ts: [true, S] | [false, F]. -/
inductive Res (S : Type) (F : Type) where
  | ok (s : S)
  | err (f : F)
deriving DecidableEq

/-- parse_sentence from src/parse.ts: trim the input, run the Sentence rule
over the whole of it (parsimmon .parse requires full consumption), and on
failure report the single generic diagnostic of diagnoseError.  The fuel
8 * length + 32 exceeds the recursion depth of the grammar on any input,
since every cycle through the rules consumes at least one character. -/
def parse_sentence (input : String) : Res Sentence String :=
  let t := jsTrim input.data
  match pSentence (8 * t.length + 32) t with
  | some (s, []) => .ok s
  | _ => .err "Syntax error (not a wff)."

/-- Shape invariant of every Sentence the parser can produce: no constant
nodes, and every letter is a single uppercase ASCII character with index 0. -/
def good_sentence : Sentence → Bool
  | .value _ => false
  | .letter l => (match l.id.data with | [c] => is_upper c | _ => false) && l.index == 0
  | .negation s => good_sentence s
  | .disjunction l r | .conjunction l r | .conditional l r
  | .biconditional l r | .xor l r | .nand l r =>
    good_sentence l && good_sentence r

/-- Fragment of Sentences whose display operator symbols coincide with the
parser's input symbols: letters, negation (~), conjunction (&) and nand (|).
Disjunction, conditional, biconditional and xor display as ∨ → ↔ ⊕ while the
parser reads v, ->, <-> and +, so they fall outside this fragment. -/
def roundtrip_fragment : Sentence → Bool
  | .letter _ => true
  | .negation s => roundtrip_fragment s
  | .conjunction l r => roundtrip_fragment l && roundtrip_fragment r
  | .nand l r => roundtrip_fragment l && roundtrip_fragment r
  | _ => false

/-- Continuations after a complete rendered Sentence at which every separator
lookahead of the sepBy rules fails: end of input or a closing parenthesis. -/
def rest_ok (rest : List Char) : Prop :=
  rest = [] ∨ ∃ rest2, rest = ')' :: rest2

/-- Fuel sufficient for pFactor to consume the rendering wrap_if_needed of a
good Sentence of the round-trip fragment. -/
def factor_fuel : Sentence → Nat
  | .value _ => 1
  | .letter _ => 1
  | .negation s => factor_fuel s + 2
  | .disjunction l r | .conjunction l r | .conditional l r
  | .biconditional l r | .xor l r | .nand l r =>
    max (factor_fuel l) (factor_fuel r + 1) + 6

/-- Fuel sufficient for pSentence to consume the rendering sentence_to_string
of a good Sentence of the round-trip fragment. -/
def sentence_fuel : Sentence → Nat
  | .disjunction l r | .conjunction l r | .conditional l r
  | .biconditional l r | .xor l r | .nand l r =>
    max (factor_fuel l) (factor_fuel r + 1) + 3
  | s => factor_fuel s + 3

/-- Inverse mapping of compact operator symbols, used only to prove that the
compact rendering is injective on parser-image Sentences. -/
def compact_op : Char → Option (Sentence → Sentence → Sentence)
  | '&' => some .conjunction
  | '∨' => some .disjunction
  | '→' => some .conditional
  | '↔' => some .biconditional
  | '⊕' => some .xor
  | '|' => some .nand
  | _ => none

/-- Reader for the nested-level compact rendering of parser-image Sentences,
used only as a proof device to invert sentence_to_string_compact. -/
def compact_read : Nat → List Char → Option (Sentence × List Char)
  | 0, _ => none
  | _ + 1, [] => none
  | f + 1, c :: cs =>
    if c = '~' then (compact_read f cs).map (fun p => (.negation p.1, p.2))
    else if c = '(' then
      match compact_read f cs with
      | none => none
      | some (l, cs1) =>
        match cs1 with
        | [] => none
        | op :: cs2 =>
          match compact_op op with
          | none => none
          | some mk =>
            match compact_read f cs2 with
            | none => none
            | some (r, cs3) =>
              match cs3 with
              | ')' :: cs4 => some (mk l r, cs4)
              | _ => none
    else if is_upper c then some (.letter ⟨String.singleton c, 0⟩, cs)
    else none

/-- Reader for the top-level compact rendering (where the outermost binary
node carries no parentheses), used only to prove injectivity. -/
def compact_read_top (f : Nat) (cs : List Char) : Option Sentence :=
  match compact_read f cs with
  | none => none
  | some (s, []) => some s
  | some (l, op :: cs2) =>
    match compact_op op with
    | none => none
    | some mk =>
      match compact_read f cs2 with
      | some (r, []) => some (mk l r)
      | _ => none

/-- Fuel sufficient for compact_read on the compact rendering of a Sentence. -/
def compact_fuel : Sentence → Nat
  | .value _ => 1
  | .letter _ => 1
  | .negation s => compact_fuel s + 1
  | .disjunction l r | .conjunction l r | .conditional l r
  | .biconditional l r | .xor l r | .nand l r =>
    max (compact_fuel l) (compact_fuel r) + 1

/-- Test for a value token flagged as main connective. -/
def is_main_tok : FormulaToken → Bool
  | .value _ _ m => m
  | .text _ => false

/-- Display text that layoutFormula attaches to the root token of each
Sentence variant (the emitValue text of the corresponding case). -/
def main_text : Sentence → String
  | .value v => if v then "⊤" else "⊥"
  | .letter l => letter_string l
  | .negation _ => "~"
  | .conjunction _ _ => "&"
  | .disjunction _ _ => "∨"
  | .conditional _ _ => " → "
  | .biconditional _ _ => " ↔ "
  | .xor _ _ => "⊕"
  | .nand _ _ => "|"

/-- All token positions of a batch whose non-atomic value token renders
compactly to the given key, in enumeration order. -/
def compact_occurrences (layouts : List FormulaLayout) (key : String) : List (Nat × Nat) :=
  (token_entries layouts).filterMap fun e =>
    match e.2.2 with
    | .value _ sub _ =>
      if is_atomic sub = false ∧ sentence_to_string_compact sub true = key
      then some (e.1, e.2.1) else none
    | _ => none

/-- One JavaScript Map.set step driven by an optional key-value pair (none
performs no update), the common shape of the subformulaToCell and
cellDependencies folds. -/
def jsMapUpdate {α : Type} (m : List (String × α)) (u : Option (String × α)) : List (String × α) :=
  match u with
  | some (k, v) => jsMapSet m k v
  | none => m

/-- Project an optional key-value pair onto its value when its key is the one
sought. -/
def key_match {α : Type} (key : String) (u : Option (String × α)) : Option α :=
  match u with
  | some (k, v) => if k = key then some v else none
  | none => none

/-- Update performed by the subformulaToCell fold for one token entry. -/
def cell_update (e : Nat × Nat × FormulaToken) : Option (String × (Nat × Nat)) :=
  match e.2.2 with
  | .value _ sub _ =>
    if is_atomic sub then none
    else some (sentence_to_string_compact sub true, (e.1, e.2.1))
  | _ => none

/-- State index whose row of generate_truth_table carries a given vector of
boolean values (most significant letter first), used to prove that the rows
cover every combination. -/
def state_of_vec : List Bool → Nat
  | [] => 0
  | b :: v => (if b then 0 else 2 ^ v.length) + state_of_vec v

/-! ### Helper lemmas -/

theorem jsMapGet_set_self {α : Type} (m : List (String × α)) (k : String) (v : α) :
    jsMapGet (jsMapSet m k v) k = some v := by
  induction m with
  | nil => simp [jsMapSet, jsMapGet]
  | cons p rest ih =>
    obtain ⟨k1, v1⟩ := p
    by_cases h : k1 = k <;> simp [jsMapSet, jsMapGet, h, ih]

theorem jsMapGet_set_other {α : Type} (m : List (String × α)) (k k' : String) (v : α)
    (h : k' ≠ k) : jsMapGet (jsMapSet m k' v) k = jsMapGet m k := by
  induction m with
  | nil => simp [jsMapSet, jsMapGet, h]
  | cons p rest ih =>
    obtain ⟨k1, v1⟩ := p
    by_cases h1 : k1 = k'
    · subst h1
      simp [jsMapSet, jsMapGet, h]
    · by_cases h2 : k1 = k <;> simp [jsMapSet, jsMapGet, h1, h2, ih, h, Ne.symm h]

theorem getLast?_cons_eq {α : Type} (a : α) (l : List α) :
    (a :: l).getLast? = match l.getLast? with | some v => some v | none => some a := by
  induction l generalizing a with
  | nil => rfl
  | cons b rest ih =>
    rw [List.getLast?_cons_cons]
    rcases hr : rest.getLast? with _ | v
    · cases rest <;> simp_all [List.getLast?_cons_cons]
    · rw [ih b, hr]

theorem foldl_jsMapSet_get {α : Type} (upd : List (Option (String × α))) :
    ∀ (m : List (String × α)) (key : String),
      jsMapGet (upd.foldl jsMapUpdate m) key
        = match (upd.filterMap (key_match key)).getLast? with
          | some v => some v
          | none => jsMapGet m key := by
  induction upd with
  | nil => intro m key; rfl
  | cons u rest ih =>
    intro m key
    rcases u with _ | ⟨k, v⟩
    · simpa [List.filterMap_cons, jsMapUpdate, key_match] using ih m key
    · by_cases hk : k = key
      · subst hk
        have hkm : key_match k (some (k, v)) = some v := by simp [key_match]
        simp only [List.foldl_cons, List.filterMap_cons, hkm, jsMapUpdate]
        rw [ih (jsMapSet m k v) k, getLast?_cons_eq]
        rcases (rest.filterMap _).getLast? with _ | w
        · simp [jsMapGet_set_self]
        · simp
      · have hkm : key_match key (some (k, v)) = none := by simp [key_match, hk]
        simp only [List.foldl_cons, List.filterMap_cons, hkm, jsMapUpdate]
        rw [ih (jsMapSet m k v) key]
        rcases (rest.filterMap _).getLast? with _ | w
        · simp [jsMapGet_set_other _ _ _ _ hk]
        · simp

theorem subCell_get (layouts : List FormulaLayout) (key : String) :
    jsMapGet (subformulaToCell layouts) key = (compact_occurrences layouts key).getLast? := by
  have hfold : subformulaToCell layouts =
      ((token_entries layouts).map cell_update).foldl jsMapUpdate [] := by
    rw [List.foldl_map]
    show List.foldl _ _ _ = _
    congr 1
    funext m e
    obtain ⟨fi, ti, tok⟩ := e
    cases tok with
    | text x => rfl
    | value txt sub mn =>
      by_cases hat : is_atomic sub <;> simp [hat, cell_update, jsMapUpdate]
  have hocc : compact_occurrences layouts key =
      ((token_entries layouts).map cell_update).filterMap (key_match key) := by
    rw [List.filterMap_map]
    show List.filterMap _ _ = _
    congr 1
    funext e
    obtain ⟨fi, ti, tok⟩ := e
    cases tok with
    | text x => rfl
    | value txt sub mn =>
      by_cases hat : is_atomic sub
      · simp [hat, cell_update, key_match]
      · by_cases hkey : sentence_to_string_compact sub true = key <;>
          simp [hat, hkey, cell_update, key_match]
  rw [hfold, hocc, foldl_jsMapSet_get]
  rcases (List.filterMap _ _).getLast? with _ | w <;> rfl

theorem mem_letterSetAdd (acc : List Letter) (x l : Letter) :
    l ∈ letterSetAdd acc x ↔ l ∈ acc ∨ l = x := by
  unfold letterSetAdd
  split
  next h =>
    have hx : x ∈ acc := by simpa using h
    exact ⟨fun hl => Or.inl hl, fun hl => hl.elim id (fun he => he ▸ hx)⟩
  next h => simp

theorem mem_collect_letters_aux (l : Letter) :
    ∀ s acc, l ∈ collect_letters_aux acc s ↔ l ∈ acc ∨ l ∈ collect_letters_aux [] s := by
  intro s
  induction s with
  | value v => intro acc; simp [collect_letters_aux]
  | letter x => intro acc; simp [collect_letters_aux, mem_letterSetAdd]
  | negation s ih => intro acc; simp only [collect_letters_aux]; exact ih acc
  | disjunction a b iha ihb | conjunction a b iha ihb | conditional a b iha ihb
  | biconditional a b iha ihb | xor a b iha ihb | nand a b iha ihb =>
    intro acc
    simp only [collect_letters_aux]
    rw [ihb, iha, ihb (collect_letters_aux [] a)]
    simp [or_assoc]

theorem evaluateOpt_total (f : Letter → Bool) (pa : Letter → Option Bool) :
    ∀ s : Sentence, (∀ l, l ∈ collect_letters s → pa l = some (f l)) →
      evaluateOpt pa s = some (evaluate f s) := by
  intro s
  induction s with
  | value v => intro hb; rfl
  | letter x =>
    intro hb
    have hx : x ∈ collect_letters (.letter x) := by
      simp [collect_letters, collect_letters_aux, letterSetAdd]
    exact hb x hx
  | negation s ih =>
    intro hb
    have hs := ih (fun l hl => hb l (by
      simpa [collect_letters, collect_letters_aux] using hl))
    simp [evaluateOpt, evaluate, hs]
  | disjunction a b iha ihb | conjunction a b iha ihb | conditional a b iha ihb
  | biconditional a b iha ihb | xor a b iha ihb | nand a b iha ihb =>
    intro hb
    have hmema : ∀ l, l ∈ collect_letters a →
        l ∈ collect_letters_aux (collect_letters_aux [] a) b := by
      intro l hl
      rw [mem_collect_letters_aux]
      exact Or.inl ((mem_collect_letters_aux l a []).mpr (Or.inr hl))
    have hmemb : ∀ l, l ∈ collect_letters b →
        l ∈ collect_letters_aux (collect_letters_aux [] a) b := by
      intro l hl
      rw [mem_collect_letters_aux]
      exact Or.inr hl
    have ha := iha (fun l hl => hb l (hmema l hl))
    have hbv := ihb (fun l hl => hb l (hmemb l hl))
    simp only [evaluateOpt, evaluate, ha, hbv]
    cases ha' : evaluate f a <;> cases evaluate f b <;> simp [ha, hbv, ha']

theorem evaluateOpt_none_unbound (pa : Letter → Option Bool) :
    ∀ s : Sentence, evaluateOpt pa s = none → ∃ l, l ∈ collect_letters s ∧ pa l = none := by
  intro s
  induction s with
  | value v => intro h; simp [evaluateOpt] at h
  | letter x =>
    intro h
    exact ⟨x, by simp [collect_letters, collect_letters_aux, letterSetAdd], h⟩
  | negation s ih =>
    intro h
    simp only [evaluateOpt] at h
    rcases hs : evaluateOpt pa s with _ | v
    · obtain ⟨l, hl, hn⟩ := ih hs
      exact ⟨l, by simpa [collect_letters, collect_letters_aux] using hl, hn⟩
    · rw [hs] at h; simp at h
  | disjunction a b iha ihb | conjunction a b iha ihb | conditional a b iha ihb
  | biconditional a b iha ihb | xor a b iha ihb | nand a b iha ihb =>
    intro h
    simp only [evaluateOpt] at h
    have hmem : ∀ l, (l ∈ collect_letters a ∨ l ∈ collect_letters b) →
        l ∈ collect_letters_aux (collect_letters_aux [] a) b := by
      intro l hl
      rw [mem_collect_letters_aux]
      rcases hl with hl | hl
      · exact Or.inl ((mem_collect_letters_aux l a []).mpr (Or.inr hl))
      · exact Or.inr hl
    rcases ha : evaluateOpt pa a with _ | av
    · obtain ⟨l, hl, hn⟩ := iha ha
      exact ⟨l, hmem l (Or.inl hl), hn⟩
    · rw [ha] at h
      rcases hb : evaluateOpt pa b with _ | bv
      · obtain ⟨l, hl, hn⟩ := ihb hb
        exact ⟨l, hmem l (Or.inr hl), hn⟩
      · rw [hb] at h
        cases av <;> simp_all

theorem no_main_tokens : ∀ s : Sentence,
    (layout_tokens s false false).filter is_main_tok = [] := by
  intro s
  induction s with
  | value v => simp [layout_tokens, is_main_tok]
  | letter l => simp [layout_tokens, is_main_tok]
  | negation s ih => simp [layout_tokens, is_main_tok, ih]
  | disjunction a b iha ihb | conjunction a b iha ihb | conditional a b iha ihb
  | biconditional a b iha ihb | xor a b iha ihb | nand a b iha ihb =>
    simp [layout_tokens, is_main_tok, List.filter_append, iha, ihb]

theorem main_filter : ∀ s : Sentence,
    (layoutFormula s).tokens.filter is_main_tok = [.value (main_text s) s true] := by
  intro s
  cases s with
  | value v => simp [layoutFormula, layout_tokens, is_main_tok, main_text]
  | letter l => simp [layoutFormula, layout_tokens, is_main_tok, main_text]
  | negation s => simp [layoutFormula, layout_tokens, is_main_tok, main_text, no_main_tokens]
  | disjunction a b | conjunction a b | conditional a b
  | biconditional a b | xor a b | nand a b =>
    simp [layoutFormula, layout_tokens, is_main_tok, main_text, List.filter_append,
      no_main_tokens]

theorem eval_layout_filter (toks : List FormulaToken) (a : Letter → Bool) :
    (evaluateLayout ⟨toks⟩ a).filter (fun e => e.isMain) =
      (toks.filter is_main_tok).filterMap (fun t =>
        match t with
        | .value txt sub m => some ⟨txt, evaluate a sub, m⟩
        | .text _ => none) := by
  induction toks with
  | nil => rfl
  | cons t rest ih =>
    cases t with
    | text x => simpa [evaluateLayout, is_main_tok, List.filter_cons] using ih
    | value txt sub m =>
      cases m <;>
        simpa [evaluateLayout, is_main_tok, List.filter_cons, List.filterMap_cons] using ih

/-! ### Claim theorems -/

/-- C4: for every total assignment and all operand values, evaluate matches
the standard truth table of each of the eight variants: value(v) returns v,
letter returns the assigned value, negation negates, conjunction is logical
and, disjunction is logical or, conditional(a,b) equals (not a) or b (so
conditional(false,false) = true), biconditional is equality, xor is
inequality (xor(true,true) = false), and nand(a,b) equals not(a and b)
(nand(true,true) = false, nand(true,false) = true). -/
theorem C4_evaluate_standard_tables :
    (∀ (a : Letter → Bool) v, evaluate a (.value v) = v) ∧
    (∀ (a : Letter → Bool) l, evaluate a (.letter l) = a l) ∧
    (∀ (a : Letter → Bool) s, evaluate a (.negation s) = !evaluate a s) ∧
    (∀ (a : Letter → Bool) s t, evaluate a (.conjunction s t)
      = (evaluate a s && evaluate a t)) ∧
    (∀ (a : Letter → Bool) s t, evaluate a (.disjunction s t)
      = (evaluate a s || evaluate a t)) ∧
    (∀ (a : Letter → Bool) s t, evaluate a (.conditional s t)
      = (!evaluate a s || evaluate a t)) ∧
    (∀ (a : Letter → Bool) s t, evaluate a (.biconditional s t)
      = (evaluate a s == evaluate a t)) ∧
    (∀ (a : Letter → Bool) s t, evaluate a (.xor s t)
      = (evaluate a s != evaluate a t)) ∧
    (∀ (a : Letter → Bool) s t, evaluate a (.nand s t)
      = !(evaluate a s && evaluate a t)) ∧
    (∀ (a : Letter → Bool), evaluate a (.conditional (.value false) (.value false)) = true) ∧
    (∀ (a : Letter → Bool), evaluate a (.xor (.value true) (.value true)) = false) ∧
    (∀ (a : Letter → Bool), evaluate a (.nand (.value true) (.value true)) = false) ∧
    (∀ (a : Letter → Bool), evaluate a (.nand (.value true) (.value false)) = true) :=
  by refine ⟨?_, ?_, ?_, ?_, ?_, ?_, ?_, ?_, ?_, ?_, ?_, ?_, ?_⟩ <;> intros <;> rfl

/-- C6: parse_sentence rejects three operands chained by the same binary
connective without grouping ("A & B & C" fails), accepts "A & (B & C)", and
the result evaluates identically to the parse of "(A & B) & C" under every
assignment. -/
theorem C6_explicit_grouping_required :
    parse_sentence "A & B & C" = .err "Syntax error (not a wff)." ∧
    parse_sentence "A & (B & C)" =
      .ok (.conjunction (.letter ⟨"A", 0⟩)
        (.conjunction (.letter ⟨"B", 0⟩) (.letter ⟨"C", 0⟩))) ∧
    parse_sentence "(A & B) & C" =
      .ok (.conjunction (.conjunction (.letter ⟨"A", 0⟩) (.letter ⟨"B", 0⟩))
        (.letter ⟨"C", 0⟩)) ∧
    ∀ a : Letter → Bool,
      evaluate a (.conjunction (.letter ⟨"A", 0⟩)
          (.conjunction (.letter ⟨"B", 0⟩) (.letter ⟨"C", 0⟩)))
        = evaluate a (.conjunction (.conjunction (.letter ⟨"A", 0⟩) (.letter ⟨"B", 0⟩))
          (.letter ⟨"C", 0⟩)) :=
  ⟨by decide, by decide, by decide, fun a => by simp [evaluate, Bool.and_assoc]⟩

/-- C7: parse_sentence rejects brackets wrapped directly around a bare letter
or a negation ("(A)" and "(~A)" fail) and accepts the unwrapped forms ("A"
and "~A" succeed). -/
theorem C7_wrapped_atom_rejected :
    parse_sentence "(A)" = .err "Syntax error (not a wff)." ∧
    parse_sentence "(~A)" = .err "Syntax error (not a wff)." ∧
    parse_sentence "A" = .ok (.letter ⟨"A", 0⟩) ∧
    parse_sentence "~A" = .ok (.negation (.letter ⟨"A", 0⟩)) :=
  ⟨by decide, by decide, by decide, by decide⟩

/-- C8: for every Sentence, layoutFormula yields exactly one value token with
isMain = true, that token carries the root node itself, its evaluateLayout
value equals evaluate of the whole sentence under every assignment, and for
the parse of "A -> B" the tokens are value(A), value(" → ", isMain) carrying
the conditional, value(B), in that order. -/
theorem C8_main_connective_token :
    (∀ s : Sentence,
      (layoutFormula s).tokens.filter is_main_tok = [.value (main_text s) s true]) ∧
    (∀ (s : Sentence) (a : Letter → Bool),
      (evaluateLayout (layoutFormula s) a).filter (fun e => e.isMain)
        = [⟨main_text s, evaluate a s, true⟩]) ∧
    parse_sentence "A -> B" = .ok (.conditional (.letter ⟨"A", 0⟩) (.letter ⟨"B", 0⟩)) ∧
    (layoutFormula (.conditional (.letter ⟨"A", 0⟩) (.letter ⟨"B", 0⟩))).tokens =
      [.value "A" (.letter ⟨"A", 0⟩) false,
       .value " → " (.conditional (.letter ⟨"A", 0⟩) (.letter ⟨"B", 0⟩)) true,
       .value "B" (.letter ⟨"B", 0⟩) false] := by
  refine ⟨main_filter, fun s a => ?_, by decide, by decide⟩
  rw [show layoutFormula s = ⟨(layoutFormula s).tokens⟩ from rfl, eval_layout_filter,
    main_filter s]
  rfl

/-- C9: the direct dependencies of a non-atomic value token are exactly its
immediate operands that are themselves non-atomic (letters and constants are
never dependencies); for the parse of "(A & B) v C" the token of the outer
disjunction depends on the token of A & B and on nothing else. -/
theorem C9_direct_dependencies :
    (∀ v, getSubformulaDependencies (.value v) = []) ∧
    (∀ l, getSubformulaDependencies (.letter l) = []) ∧
    (∀ s, getSubformulaDependencies (.negation s) = if is_atomic s then [] else [s]) ∧
    (∀ l r, getSubformulaDependencies (.disjunction l r)
      = (if is_atomic l then [] else [l]) ++ (if is_atomic r then [] else [r])) ∧
    (∀ l r, getSubformulaDependencies (.conjunction l r)
      = (if is_atomic l then [] else [l]) ++ (if is_atomic r then [] else [r])) ∧
    (∀ l r, getSubformulaDependencies (.conditional l r)
      = (if is_atomic l then [] else [l]) ++ (if is_atomic r then [] else [r])) ∧
    (∀ l r, getSubformulaDependencies (.biconditional l r)
      = (if is_atomic l then [] else [l]) ++ (if is_atomic r then [] else [r])) ∧
    (∀ l r, getSubformulaDependencies (.xor l r)
      = (if is_atomic l then [] else [l]) ++ (if is_atomic r then [] else [r])) ∧
    (∀ l r, getSubformulaDependencies (.nand l r)
      = (if is_atomic l then [] else [l]) ++ (if is_atomic r then [] else [r])) ∧
    parse_sentence "(A & B) v C" =
      .ok (.disjunction (.conjunction (.letter ⟨"A", 0⟩) (.letter ⟨"B", 0⟩))
        (.letter ⟨"C", 0⟩)) ∧
    getSubformulaDependencies
        (.disjunction (.conjunction (.letter ⟨"A", 0⟩) (.letter ⟨"B", 0⟩))
          (.letter ⟨"C", 0⟩))
      = [.conjunction (.letter ⟨"A", 0⟩) (.letter ⟨"B", 0⟩)] ∧
    (layoutFormula (.disjunction (.conjunction (.letter ⟨"A", 0⟩) (.letter ⟨"B", 0⟩))
        (.letter ⟨"C", 0⟩))).tokens[2]?
      = some (.value "&" (.conjunction (.letter ⟨"A", 0⟩) (.letter ⟨"B", 0⟩)) false) ∧
    (layoutFormula (.disjunction (.conjunction (.letter ⟨"A", 0⟩) (.letter ⟨"B", 0⟩))
        (.letter ⟨"C", 0⟩))).tokens[5]?
      = some (.value "∨"
          (.disjunction (.conjunction (.letter ⟨"A", 0⟩) (.letter ⟨"B", 0⟩))
            (.letter ⟨"C", 0⟩)) true) ∧
    cellDependencies
        [layoutFormula (.disjunction (.conjunction (.letter ⟨"A", 0⟩) (.letter ⟨"B", 0⟩))
          (.letter ⟨"C", 0⟩))]
      = [(cell_key 0 2, []), (cell_key 0 5, [cell_key 0 2])] :=
  ⟨fun _ => rfl, fun _ => rfl, fun _ => rfl, fun _ _ => rfl, fun _ _ => rfl, fun _ _ => rfl,
   fun _ _ => rfl, fun _ _ => rfl, fun _ _ => rfl, by decide, by decide, by decide,
   by decide, by decide⟩

/-- C1 counterexample: the Sentence parsed from "A v B" renders in spaced form
as "A ∨ B", whose re-parse fails, because the renderer prints the display
symbol ∨ while the parser only accepts the input symbol v; so the round-trip
property fails as stated. -/
theorem C1_roundtrip_counterexample :
    parse_sentence "A v B" = .ok (.disjunction (.letter ⟨"A", 0⟩) (.letter ⟨"B", 0⟩)) ∧
    sentence_to_string (.disjunction (.letter ⟨"A", 0⟩) (.letter ⟨"B", 0⟩)) = "A ∨ B" ∧
    parse_sentence (sentence_to_string (.disjunction (.letter ⟨"A", 0⟩) (.letter ⟨"B", 0⟩)))
      = .err "Syntax error (not a wff)." :=
  ⟨by decide, by decide, by decide⟩

/-- C2 counterexample: the structurally distinct Sentences value(true) and
letter("T") both render compactly as "T", so the compact rendering is not
injective on all Sentences. -/
theorem C2_compact_collision_counterexample :
    sentence_to_string_compact (.value true) true = "T" ∧
    sentence_to_string_compact (.letter ⟨"T", 0⟩) true = "T" ∧
    Sentence.value true ≠ Sentence.letter ⟨"T", 0⟩ :=
  ⟨by decide, by decide, by decide⟩

/-- C5 counterexample: for the batch [letter(A, 1), letter(A1, 0)] the two
distinct letters share the display string "A1", so the four generated rows
collapse onto two distinct assignment maps (rows 0 and 2 coincide, as do rows
1 and 3), refuting pairwise distinctness and exact coverage as stated. -/
theorem C5_distinctness_counterexample :
    (generate_truth_table [.letter ⟨"A", 1⟩, .letter ⟨"A1", 0⟩]).map
        (fun res => (res.letters.length, res.rows.map (·.assignment)))
      = some (2, [[("A1", true)], [("A1", false)], [("A1", true)], [("A1", false)]]) := by
  decide

/-- C3 counterexample: evaluate short-circuits; for conjunction(a, b) with a
evaluating to false and b an unbound letter, it returns false instead of
raising the UnboundLetter condition, although the letter b occurs in the
sentence and has no entry in the assignment. -/
theorem C3_short_circuit_counterexample :
    evaluateOpt (fun l => if l = ⟨"A", 0⟩ then some false else none)
        (.conjunction (.letter ⟨"A", 0⟩) (.letter ⟨"B", 0⟩)) = some false ∧
    (fun l : Letter => if l = ⟨"A", 0⟩ then some false else none) ⟨"B", 0⟩ = none ∧
    (⟨"B", 0⟩ : Letter) ∈
      collect_letters (.conjunction (.letter ⟨"A", 0⟩) (.letter ⟨"B", 0⟩)) :=
  ⟨by decide, by decide, by decide⟩

/-- C3 (amended): evaluate short-circuits through the JavaScript boolean
operators: conjunction and nand are decided by a false left operand,
disjunction by a true one and conditional by a false one, without the right
operand being evaluated; when every letter occurring in the sentence is bound
the evaluation succeeds and agrees with the total evaluation; and an
UnboundLetter failure only ever arises from a letter that occurs in the
sentence and is unbound. -/
theorem C3_evaluate_short_circuit_amended :
    (∀ (pa : Letter → Option Bool) (a b : Sentence), evaluateOpt pa a = some false →
        evaluateOpt pa (.conjunction a b) = some false) ∧
    (∀ (pa : Letter → Option Bool) (a b : Sentence), evaluateOpt pa a = some true →
        evaluateOpt pa (.disjunction a b) = some true) ∧
    (∀ (pa : Letter → Option Bool) (a b : Sentence), evaluateOpt pa a = some false →
        evaluateOpt pa (.conditional a b) = some true) ∧
    (∀ (pa : Letter → Option Bool) (a b : Sentence), evaluateOpt pa a = some false →
        evaluateOpt pa (.nand a b) = some true) ∧
    (∀ (f : Letter → Bool) (pa : Letter → Option Bool) (s : Sentence),
        (∀ l, l ∈ collect_letters s → pa l = some (f l)) →
        evaluateOpt pa s = some (evaluate f s)) ∧
    (∀ (pa : Letter → Option Bool) (s : Sentence), evaluateOpt pa s = none →
        ∃ l, l ∈ collect_letters s ∧ pa l = none) := by
  refine ⟨?_, ?_, ?_, ?_, evaluateOpt_total, evaluateOpt_none_unbound⟩ <;>
    · intro pa a b h
      simp [evaluateOpt, h]

/-- Witness for C3 (amended): the short-circuit conjunction clause applied to
the concrete partial assignment binding only A, at conjunction(A, B). -/
theorem C3_evaluate_short_circuit_amended_witness :
    evaluateOpt (fun l => if l = ⟨"A", 0⟩ then some false else none)
        (.conjunction (.letter ⟨"A", 0⟩) (.letter ⟨"B", 0⟩)) = some false :=
  C3_evaluate_short_circuit_amended.1
    (fun l => if l = ⟨"A", 0⟩ then some false else none)
    (.letter ⟨"A", 0⟩) (.letter ⟨"B", 0⟩) (by decide)

theorem natToBinAux_eq : ∀ (f g n : Nat), n ≤ f → n ≤ g → natToBinAux f n = natToBinAux g n := by
  intro f
  induction f with
  | zero =>
    intro g n hf hg
    have hn : n = 0 := Nat.le_zero.mp hf
    subst hn
    cases g with
    | zero => rfl
    | succ h => simp [natToBinAux]
  | succ f ih =>
    intro g n hf hg
    cases g with
    | zero =>
      have hn : n = 0 := Nat.le_zero.mp hg
      subst hn
      simp [natToBinAux]
    | succ h =>
      by_cases h2 : n < 2
      · simp [natToBinAux, h2]
      · simp only [natToBinAux, h2, if_false]
        have hd : n / 2 ≤ f := by omega
        have hd2 : n / 2 ≤ h := by
          have := Nat.div_le_self n 2
          omega
        rw [ih h (n / 2) hd hd2]

theorem natToBin_small {k : Nat} (h : k < 2) : natToBin k = [if k == 0 then '0' else '1'] := by
  unfold natToBin
  interval_cases k <;> rfl

theorem natToBin_step {k : Nat} (h : 2 ≤ k) :
    natToBin k = natToBin (k / 2) ++ [if k % 2 == 0 then '0' else '1'] := by
  unfold natToBin
  obtain ⟨m, rfl⟩ : ∃ m, k = m + 1 := ⟨k - 1, by omega⟩
  show natToBinAux (m + 1) (m + 1) = _
  simp only [natToBinAux]
  rw [if_neg (show ¬ (m + 1 < 2) by omega)]
  congr 1
  have hlt : (m + 1) / 2 < m + 1 := Nat.div_lt_self (by omega) (by omega)
  exact natToBinAux_eq m ((m + 1) / 2) ((m + 1) / 2) (Nat.le_of_lt_succ hlt) le_rfl

theorem natToBin_len_le : ∀ (n k : Nat), k < 2 ^ (n + 1) → (natToBin k).length ≤ n + 1 := by
  intro n
  induction n with
  | zero =>
    intro k hk
    rw [natToBin_small (by simpa using hk)]
    simp
  | succ n ih =>
    intro k hk
    by_cases h2 : k < 2
    · rw [natToBin_small h2]; simp
    · rw [natToBin_step (by omega)]
      have : k / 2 < 2 ^ (n + 1) := by
        rw [Nat.div_lt_iff_lt_mul (by omega)]
        rw [pow_succ] at hk
        exact hk
      have := ih (k / 2) this
      simp [List.length_append]
      omega

theorem natToBin_len_ge : ∀ (n k : Nat), 2 ^ n ≤ k → n + 1 ≤ (natToBin k).length := by
  intro n
  induction n with
  | zero =>
    intro k hk
    by_cases h2 : k < 2
    · rw [natToBin_small h2]; simp
    · rw [natToBin_step (by omega)]; simp
  | succ n ih =>
    intro k hk
    have h2 : 2 ≤ k :=
      le_trans (by simpa using Nat.pow_le_pow_right (show 1 ≤ 2 by omega) (show 1 ≤ n + 1 by omega)) hk
    rw [natToBin_step h2]
    have : 2 ^ n ≤ k / 2 := by
      rw [Nat.le_div_iff_mul_le (by omega)]
      rw [pow_succ] at hk
      exact hk
    have := ih (k / 2) this
    simp [List.length_append]
    omega

theorem bin_pad_map : ∀ (n k : Nat), k < 2 ^ (n + 1) →
    padStart (natToBin k) (n + 1) '0' =
      (List.range (n + 1)).map (fun i => if Nat.testBit k (n - i) then '1' else '0') := by
  intro n
  induction n with
  | zero =>
    intro k hk
    interval_cases k <;> rfl
  | succ n ih =>
    intro k hk
    by_cases hsmall : k < 2 ^ (n + 1)
    · -- leading bit is 0: one more padding zero in front
      have hlen : (natToBin k).length ≤ n + 1 := natToBin_len_le n k hsmall
      have hpad : padStart (natToBin k) (n + 2) '0'
          = '0' :: padStart (natToBin k) (n + 1) '0' := by
        unfold padStart
        rw [show n + 2 - (natToBin k).length = (n + 1 - (natToBin k).length) + 1 by omega]
        simp [List.replicate_succ]
      rw [hpad, ih k hsmall]
      conv_rhs => rw [List.range_succ_eq_map]
      simp only [List.map_cons, List.map_map]
      congr 1
      · have hb : Nat.testBit k (n + 1) = false := Nat.testBit_lt_two_pow hsmall
        simp [hb]
      · apply List.map_congr_left
        intro i hi
        simp only [Function.comp_apply, Nat.succ_eq_add_one]
        rw [show n + 1 - (i + 1) = n - i by omega]
    · -- leading bit is 1: no padding, peel the last digit
      have hk2 : 2 ^ (n + 1) ≤ k := by omega
      have h21 : (2 : Nat) ≤ 2 ^ (n + 1) := by
        simpa using Nat.pow_le_pow_right (show 1 ≤ 2 by omega) (show 1 ≤ n + 1 by omega)
      have h2k : 2 ≤ k := le_trans h21 hk2
      have hdivlt : k / 2 < 2 ^ (n + 1) := by
        rw [Nat.div_lt_iff_lt_mul (by omega)]
        rw [pow_succ] at hk
        exact hk
      have hdivge : 2 ^ n ≤ k / 2 := by
        rw [Nat.le_div_iff_mul_le (by omega)]
        rw [pow_succ] at hk2
        exact hk2
      have hlen_div : (natToBin (k / 2)).length = n + 1 :=
        le_antisymm (natToBin_len_le n (k / 2) hdivlt) (natToBin_len_ge n (k / 2) hdivge)
      have hlen : (natToBin k).length = n + 2 := by
        rw [natToBin_step h2k]
        simp [hlen_div]
      have hnopad : padStart (natToBin k) (n + 2) '0' = natToBin k := by
        unfold padStart
        rw [hlen]
        simp
      have hnopad_div : padStart (natToBin (k / 2)) (n + 1) '0' = natToBin (k / 2) := by
        unfold padStart
        rw [hlen_div]
        simp
      rw [hnopad, natToBin_step h2k, ← hnopad_div, ih (k / 2) hdivlt]
      conv_rhs => rw [List.range_succ]
      rw [List.map_append]
      congr 1
      · apply List.map_congr_left
        intro i hi
        simp only [List.mem_range] at hi
        have hb : Nat.testBit (k / 2) (n - i) = Nat.testBit k (n + 1 - i) := by
          rw [Nat.testBit_div_two]
          congr 1
          omega
        rw [hb]
      · simp only [List.map_cons, List.map_nil]
        rw [show n + 1 - (n + 1) = 0 by omega]
        rcases Nat.mod_two_eq_zero_or_one k with hm | hm <;>
          simp [Nat.testBit_zero, hm]

theorem to_bin_str_map (n k : Nat) (hk : k < 2 ^ (n + 1)) (h32 : n + 1 ≤ 32) :
    to_bin_str k (n + 1) =
      (List.range (n + 1)).map (fun i => if Nat.testBit k (n - i) then '1' else '0') := by
  have hlt : k < 2 ^ 32 := lt_of_lt_of_le hk (Nat.pow_le_pow_right (by omega) h32)
  show padStart (natToBin (k % 2 ^ 32)) (n + 1) '0' = _
  rw [Nat.mod_eq_of_lt hlt]
  exact bin_pad_map n k hk

theorem to_bin_str_getD (n k i : Nat) (hk : k < 2 ^ (n + 1)) (hi : i < n + 1)
    (h32 : n + 1 ≤ 32) :
    (to_bin_str k (n + 1)).getD i 'x' = if Nat.testBit k (n - i) then '1' else '0' := by
  rw [to_bin_str_map n k hk h32, List.getD_eq_getElem?_getD, List.getElem?_map,
    List.getElem?_range hi]
  rfl

theorem filterMap_range_single {α : Type} (v : α) :
    ∀ (n i : Nat), i < n →
      (List.range n).filterMap (fun j => if j = i then some v else none) = [v] := by
  intro n
  induction n with
  | zero => intro i hi; omega
  | succ n ih =>
    intro i hi
    rw [List.range_succ, List.filterMap_append]
    by_cases hin : i < n
    · rw [ih i hin]
      have : (List.filterMap (fun j => if j = i then some v else none) [n]) = [] := by
        simp
        omega
      rw [this]
      simp
    · have hie : i = n := by omega
      subst hie
      have h1 : (List.range i).filterMap (fun j => if j = i then some v else none) = [] := by
        rw [List.filterMap_eq_nil_iff]
        intro a ha
        simp only [List.mem_range] at ha
        simp
        omega
      rw [h1]
      simp

theorem build_assignment_fold (letters : List Letter) (bin : List Char) :
    build_assignment letters bin =
      ((List.range letters.length).map (fun i =>
        some (letter_string (letters.getD i ⟨"", 0⟩), bin.getD i 'x' == '0'))).foldl
        jsMapUpdate [] := by
  rw [List.foldl_map]
  rfl

theorem build_assignment_get_inj (letters : List Letter) (bin : List Char)
    (hinj : ∀ i j, i < letters.length → j < letters.length →
      letter_string (letters.getD i ⟨"", 0⟩) = letter_string (letters.getD j ⟨"", 0⟩) → i = j)
    (i : Nat) (hi : i < letters.length) :
    jsMapGet (build_assignment letters bin) (letter_string (letters.getD i ⟨"", 0⟩))
      = some (bin.getD i 'x' == '0') := by
  rw [build_assignment_fold, foldl_jsMapSet_get, List.filterMap_map]
  have hcong : ∀ j ∈ List.range letters.length,
      (key_match (letter_string (letters.getD i ⟨"", 0⟩)) ∘ fun i =>
        some (letter_string (letters.getD i ⟨"", 0⟩), bin.getD i 'x' == '0')) j
      = (fun j => if j = i then some (bin.getD j 'x' == '0') else none) j := by
    intro j hj
    simp only [List.mem_range] at hj
    simp only [Function.comp_apply, key_match]
    by_cases he : letter_string (letters.getD j ⟨"", 0⟩) = letter_string (letters.getD i ⟨"", 0⟩)
    · rw [if_pos he, if_pos (hinj j i hj hi he)]
    · rw [if_neg he, if_neg (fun hji => he (by rw [hji]))]
  rw [List.filterMap_congr hcong]
  have : (List.range letters.length).filterMap
      (fun j => if j = i then some (bin.getD j 'x' == '0') else none)
      = [bin.getD i 'x' == '0'] := by
    have := filterMap_range_single (bin.getD i 'x' == '0') letters.length i hi
    rw [← this]
    apply List.filterMap_congr
    intro j hj
    by_cases hji : j = i
    · subst hji; simp
    · simp [hji]
  rw [this]
  rfl

theorem match_getLast_some_of_ne_nil {α : Type} (o : List α) (d : Option α) (h : o ≠ []) :
    ∃ b, (match o.getLast? with | some v => some v | none => d) = some b := by
  rcases ho : o.getLast? with _ | w
  · exact absurd (List.getLast?_eq_none_iff.mp ho) h
  · exact ⟨w, rfl⟩

theorem build_assignment_get_mem (letters : List Letter) (bin : List Char) (l : Letter)
    (hl : l ∈ letters) :
    ∃ b, jsMapGet (build_assignment letters bin) (letter_string l) = some b := by
  rw [build_assignment_fold, foldl_jsMapSet_get, List.filterMap_map]
  obtain ⟨i, hi, hil⟩ := List.mem_iff_getElem.mp hl
  have hmem : (bin.getD i 'x' == '0') ∈ (List.range letters.length).filterMap
      (key_match (letter_string l) ∘ fun i =>
        some (letter_string (letters.getD i ⟨"", 0⟩), bin.getD i 'x' == '0')) := by
    rw [List.mem_filterMap]
    refine ⟨i, List.mem_range.mpr hi, ?_⟩
    simp only [Function.comp_apply, key_match]
    rw [if_pos]
    congr 1
    rw [List.getD_eq_getElem?_getD, List.getElem?_eq_getElem hi]
    simp [hil]
  have hne : (List.range letters.length).filterMap
      (key_match (letter_string l) ∘ fun i =>
        some (letter_string (letters.getD i ⟨"", 0⟩), bin.getD i 'x' == '0')) ≠ [] :=
    List.ne_nil_of_mem hmem
  exact match_getLast_some_of_ne_nil _ _ hne

theorem mem_foldl_letterSetAdd_of_mem_acc (x : Letter) :
    ∀ (ls : List Letter) (acc : List Letter), x ∈ acc → x ∈ ls.foldl letterSetAdd acc := by
  intro ls
  induction ls with
  | nil => intro acc h; exact h
  | cons a rest ih =>
    intro acc h
    exact ih _ ((mem_letterSetAdd _ _ _).mpr (Or.inl h))

theorem mem_foldl_letterSetAdd_of_mem (x : Letter) :
    ∀ (ls : List Letter) (acc : List Letter), x ∈ ls → x ∈ ls.foldl letterSetAdd acc := by
  intro ls
  induction ls with
  | nil => intro acc h; cases h
  | cons a rest ih =>
    intro acc h
    rcases List.mem_cons.mp h with rfl | h
    · exact mem_foldl_letterSetAdd_of_mem_acc x rest _
        ((mem_letterSetAdd _ _ _).mpr (Or.inr rfl))
    · exact ih _ h

theorem mem_formulas_foldl_of_mem_acc (x : Letter) :
    ∀ (formulas : List Sentence) (acc : List Letter), x ∈ acc →
      x ∈ formulas.foldl (fun acc g => (collect_letters g).foldl letterSetAdd acc) acc := by
  intro formulas
  induction formulas with
  | nil => intro acc h; exact h
  | cons g rest ih =>
    intro acc h
    exact ih _ (mem_foldl_letterSetAdd_of_mem_acc x _ _ h)

theorem mem_union_letters (x : Letter) (f : Sentence) :
    ∀ (formulas : List Sentence) (acc : List Letter),
      f ∈ formulas → x ∈ collect_letters f →
      x ∈ formulas.foldl (fun acc g => (collect_letters g).foldl letterSetAdd acc) acc := by
  intro formulas
  induction formulas with
  | nil => intro acc h; cases h
  | cons g rest ih =>
    intro acc h hx
    rcases List.mem_cons.mp h with rfl | h
    · exact mem_formulas_foldl_of_mem_acc x rest _
        (mem_foldl_letterSetAdd_of_mem x _ acc hx)
    · exact ih _ h hx

theorem mem_insert_letter (x l : Letter) :
    ∀ ls : List Letter, x ∈ insert_letter l ls ↔ x = l ∨ x ∈ ls := by
  intro ls
  induction ls with
  | nil => simp [insert_letter]
  | cons a rest ih =>
    by_cases h : comp_letters l a == Ordering.gt <;>
      simp [insert_letter, h, ih, List.mem_cons] <;> tauto

theorem mem_sort_letters (x : Letter) :
    ∀ ls : List Letter, x ∈ sort_letters ls ↔ x ∈ ls := by
  intro ls
  induction ls with
  | nil => simp [sort_letters]
  | cons a rest ih =>
    show x ∈ insert_letter a (sort_letters rest) ↔ _
    rw [mem_insert_letter, ih]
    simp [List.mem_cons]

theorem mapM_some_spec {α β : Type} (g : α → Option β) :
    ∀ l : List α, (∀ a ∈ l, g a ≠ none) →
      ∃ r : List β, l.mapM g = some r ∧ r.length = l.length ∧
        ∀ (i : Nat) (da : α) (db : β), i < l.length → g (l.getD i da) = some (r.getD i db) := by
  intro l
  induction l with
  | nil =>
    intro h
    exact ⟨[], rfl, rfl, fun i da db hi => by simp at hi⟩
  | cons a rest ih =>
    intro h
    rcases hga : g a with _ | b
    · exact absurd hga (h a (List.mem_cons_self a rest))
    · obtain ⟨r, hr, hlen, hget⟩ := ih (fun x hx => h x (List.mem_cons_of_mem a hx))
      refine ⟨b :: r, ?_, by simp [hlen], ?_⟩
      · rw [List.mapM_cons, hga, hr]
        rfl
      · intro i da db hi
        cases i with
        | zero => simpa using hga
        | succ i =>
          simp only [List.getD_cons_succ]
          exact hget i da db (by simpa using hi)

theorem state_of_vec_lt : ∀ v : List Bool, state_of_vec v < 2 ^ v.length := by
  intro v
  induction v with
  | nil => simp [state_of_vec]
  | cons b rest ih =>
    simp only [state_of_vec, List.length_cons]
    rw [pow_succ]
    by_cases hb : b <;> simp [hb] <;> omega

theorem state_of_vec_testBit : ∀ (v : List Bool) (i : Nat), i < v.length →
    Nat.testBit (state_of_vec v) (v.length - 1 - i) = !(v.getD i false) := by
  intro v
  induction v with
  | nil => intro i hi; simp at hi
  | cons b rest ih =>
    intro i hi
    have hlt := state_of_vec_lt rest
    cases i with
    | zero =>
      rw [show (b :: rest).length - 1 - 0 = rest.length by simp]
      cases b
      · show Nat.testBit ((if false = true then 0 else 2 ^ rest.length) + state_of_vec rest)
          rest.length = !(List.getD (false :: rest) 0 false)
        rw [if_neg (by decide), Nat.testBit_two_pow_add_eq, Nat.testBit_lt_two_pow hlt]
        rfl
      · show Nat.testBit ((if true = true then 0 else 2 ^ rest.length) + state_of_vec rest)
          rest.length = !(List.getD (true :: rest) 0 false)
        rw [if_pos rfl, Nat.zero_add, Nat.testBit_lt_two_pow hlt]
        rfl
    | succ i =>
      have hi' : i < rest.length := by simpa using hi
      rw [show (b :: rest).length - 1 - (i + 1) = rest.length - 1 - i by
        simp only [List.length_cons]; omega]
      rw [show List.getD (b :: rest) (i + 1) false = rest.getD i false from rfl]
      cases b
      · show Nat.testBit ((if false = true then 0 else 2 ^ rest.length) + state_of_vec rest)
          (rest.length - 1 - i) = !(rest.getD i false)
        rw [if_neg (by decide), Nat.testBit_two_pow_add_gt (by omega)]
        exact ih i hi'
      · show Nat.testBit ((if true = true then 0 else 2 ^ rest.length) + state_of_vec rest)
          (rest.length - 1 - i) = !(rest.getD i false)
        rw [if_pos rfl, Nat.zero_add]
        exact ih i hi'

theorem make_row_some (formulas : List Sentence) (k : Nat) :
    make_row (table_letters formulas) formulas k ≠ none := by
  set L := table_letters formulas with hL
  set bin := to_bin_str k L.length with hbin
  set assignment := build_assignment L bin with hassign
  have hforall : ∀ f ∈ formulas, evaluateOpt (table_lookup assignment) f ≠ none := by
    intro f hf
    have hbound : ∀ l, l ∈ collect_letters f →
        table_lookup assignment l = some ((table_lookup assignment l).getD false) := by
      intro l hl
      have hmemL : l ∈ L := by
        rw [hL]
        unfold table_letters
        rw [mem_sort_letters]
        exact mem_union_letters l f formulas [] hf hl
      obtain ⟨b, hb⟩ := build_assignment_get_mem L bin l hmemL
      have hb2 : table_lookup assignment l = some b := hb
      rw [hb2]
      rfl
    rw [evaluateOpt_total (fun l => (table_lookup assignment l).getD false)
      (table_lookup assignment) f hbound]
    simp
  obtain ⟨values, hv, _, _⟩ := mapM_some_spec _ formulas hforall
  simp only [make_row]
  rw [← hbin, ← hassign]
  rw [show formulas.mapM (fun f => evaluateOpt (table_lookup assignment) f) = some values
    from hv]
  simp

theorem make_row_assignment (L : List Letter) (formulas : List Sentence) (k : Nat)
    (row : TruthTableRow) (h : make_row L formulas k = some row) :
    row.assignment = build_assignment L (to_bin_str k L.length) := by
  simp only [make_row] at h
  rcases hmap : formulas.mapM
      (fun f => evaluateOpt (table_lookup (build_assignment L (to_bin_str k L.length))) f)
    with _ | values
  · rw [hmap] at h
    simp at h
  · rw [hmap] at h
    have h2 : some (TruthTableRow.mk
        (build_assignment L (to_bin_str k L.length)) values) = some row := h
    exact (congrArg TruthTableRow.assignment (Option.some.inj h2)).symm

theorem generate_spec (formulas : List Sentence) :
    ∃ res, generate_truth_table formulas = some res ∧
      res.letters = table_letters formulas ∧
      res.formulas = formulas ∧
      res.rows.length = n_states (table_letters formulas) ∧
      ∀ k, k < n_states (table_letters formulas) →
        (res.rows.getD k ⟨[], []⟩).assignment =
          build_assignment (table_letters formulas)
            (to_bin_str k (table_letters formulas).length) := by
  have hrow : ∀ k ∈ List.range (n_states (table_letters formulas)),
      make_row (table_letters formulas) formulas k ≠ none :=
    fun k _ => make_row_some formulas k
  obtain ⟨rows, hrows, hlen, hget⟩ := mapM_some_spec _ _ hrow
  refine ⟨⟨table_letters formulas, formulas, rows⟩, ?_, rfl, rfl, by simp [hlen], ?_⟩
  · show (Option.map (fun rows => TruthTableResult.mk (table_letters formulas) formulas rows)
      ((List.range (n_states (table_letters formulas))).mapM
        (make_row (table_letters formulas) formulas))) = _
    rw [hrows]
    rfl
  · intro k hk
    have hk' : k < (List.range (n_states (table_letters formulas))).length := by simpa using hk
    have hgot := hget k 0 ⟨[], []⟩ hk'
    rw [List.getD_eq_getElem?_getD, List.getElem?_range hk] at hgot
    simp only [Option.getD_some] at hgot
    exact make_row_assignment _ _ _ _ hgot

theorem state_eq_of_testBit_window (n k1 k2 : Nat) (h1 : k1 < 2 ^ n) (h2 : k2 < 2 ^ n)
    (h : ∀ i, i < n → Nat.testBit k1 (n - 1 - i) = Nat.testBit k2 (n - 1 - i)) :
    k1 = k2 := by
  apply Nat.eq_of_testBit_eq
  intro j
  by_cases hj : j < n
  · have hh := h (n - 1 - j) (by omega)
    rw [show n - 1 - (n - 1 - j) = j by omega] at hh
    exact hh
  · rw [Nat.testBit_lt_two_pow (lt_of_lt_of_le h1 (Nat.pow_le_pow_right (by omega) (by omega))),
      Nat.testBit_lt_two_pow (lt_of_lt_of_le h2 (Nat.pow_le_pow_right (by omega) (by omega)))]

theorem pairwise_display_index (L : List Letter)
    (hinj : L.Pairwise (fun a b => letter_string a ≠ letter_string b)) :
    ∀ i j, i < L.length → j < L.length →
      letter_string (L.getD i ⟨"", 0⟩) = letter_string (L.getD j ⟨"", 0⟩) → i = j := by
  intro i j hi hj he
  rw [List.getD_eq_getElem?_getD, List.getElem?_eq_getElem hi] at he
  rw [List.getD_eq_getElem?_getD, List.getElem?_eq_getElem hj] at he
  simp only [Option.getD_some] at he
  rcases lt_trichotomy i j with hlt | heq | hgt
  · exact absurd he ((List.pairwise_iff_getElem.mp hinj) i j hi hj hlt)
  · exact heq
  · exact absurd he.symm ((List.pairwise_iff_getElem.mp hinj) j i hj hi hgt)

theorem n_states_eq_max (L : List Letter) : n_states L = max 1 (2 ^ L.length) := by
  unfold n_states
  by_cases h : L.length = 0
  · simp [h]
  · rw [if_neg h]
    have := Nat.two_pow_pos L.length
    omega

theorem assignment_bit (formulas : List Sentence) (res : TruthTableResult)
    (hres : generate_truth_table formulas = some res)
    (hinj : (table_letters formulas).Pairwise (fun a b => letter_string a ≠ letter_string b))
    (h32 : (table_letters formulas).length ≤ 32) :
    ∀ k i, k < res.rows.length → i < res.letters.length →
      jsMapGet ((res.rows.getD k ⟨[], []⟩).assignment)
          (letter_string (res.letters.getD i ⟨"", 0⟩))
        = some (!(Nat.testBit k (res.letters.length - 1 - i))) := by
  obtain ⟨res2, hres2, hlet, hform, hlen, hassign⟩ := generate_spec formulas
  rw [hres] at hres2
  obtain rfl : res = res2 := Option.some.inj hres2
  intro k i hk hi
  rw [hlet] at hi ⊢
  rw [hlen] at hk
  rw [hassign k hk]
  rw [build_assignment_get_inj _ _ (pairwise_display_index _ hinj) i hi]
  set L := table_letters formulas
  obtain ⟨m, hm⟩ : ∃ m, L.length = m + 1 := ⟨L.length - 1, by omega⟩
  have hk2 : k < 2 ^ (m + 1) := by
    unfold n_states at hk
    rw [if_neg (by omega)] at hk
    rwa [hm] at hk
  rw [hm]
  rw [to_bin_str_getD m k i hk2 (by omega) (by omega)]
  rw [show m + 1 - 1 - i = m - i by omega]
  rcases hb : Nat.testBit k (m - i) with _ | _ <;> simp [hb]

/-- C5 (amended): for every batch of formulas whose deduplicated, sorted
letter union has pairwise distinct display strings and at most 32 letters (so
that the uint32 truncation of the source state-to-binary conversion is the
identity; the parser produces single-uppercase ids, at most 26 of them),
generate_truth_table succeeds
and produces exactly max(1, 2^n) rows; in increasing state order the letter
at sorted position i reads the negation of bit (n-1-i) of the state (letter 0
is the most significant bit, bit 0 maps to true and bit 1 to false); the
assignments are pairwise distinct and cover every boolean combination exactly
once; row 0 assigns true to every letter and the last row assigns false. -/
theorem C5_truth_table_amended (formulas : List Sentence)
    (hinj : (table_letters formulas).Pairwise (fun a b => letter_string a ≠ letter_string b))
    (h32 : (table_letters formulas).length ≤ 32) :
    ∃ res, generate_truth_table formulas = some res ∧
      res.letters = table_letters formulas ∧
      res.rows.length = max 1 (2 ^ res.letters.length) ∧
      (∀ k i, k < res.rows.length → i < res.letters.length →
        jsMapGet ((res.rows.getD k ⟨[], []⟩).assignment)
            (letter_string (res.letters.getD i ⟨"", 0⟩))
          = some (!(Nat.testBit k (res.letters.length - 1 - i)))) ∧
      (∀ k1 k2, k1 < res.rows.length → k2 < res.rows.length → k1 ≠ k2 →
        (res.rows.getD k1 ⟨[], []⟩).assignment ≠ (res.rows.getD k2 ⟨[], []⟩).assignment) ∧
      (∀ v : List Bool, v.length = res.letters.length →
        ∃! k, k < res.rows.length ∧
          (List.range res.letters.length).map (fun i =>
            jsMapGet ((res.rows.getD k ⟨[], []⟩).assignment)
              (letter_string (res.letters.getD i ⟨"", 0⟩)))
            = v.map some) ∧
      (∀ i, i < res.letters.length →
        jsMapGet ((res.rows.getD 0 ⟨[], []⟩).assignment)
            (letter_string (res.letters.getD i ⟨"", 0⟩)) = some true ∧
        jsMapGet ((res.rows.getD (res.rows.length - 1) ⟨[], []⟩).assignment)
            (letter_string (res.letters.getD i ⟨"", 0⟩)) = some false) := by
  obtain ⟨res, hres, hlet, hform, hlen, hassign⟩ := generate_spec formulas
  have hbit := assignment_bit formulas res hres hinj h32
  set L := table_letters formulas
  have hnL : res.letters.length = L.length := by rw [hlet]
  have hrowsn : res.rows.length = n_states L := by rw [hlen]
  refine ⟨res, hres, hlet, ?_, hbit, ?_, ?_, ?_⟩
  · rw [hrowsn, hnL, n_states_eq_max]
  · -- pairwise distinct assignments
    intro k1 k2 hk1 hk2 hne he
    obtain ⟨m, hm⟩ : ∃ m, L.length = m + 1 := by
      refine ⟨L.length - 1, ?_⟩
      by_contra hz
      have hL0 : L.length = 0 := by omega
      rw [hrowsn] at hk1 hk2
      unfold n_states at hk1 hk2
      rw [if_pos hL0] at hk1 hk2
      omega
    have hpow : n_states L = 2 ^ L.length := by
      unfold n_states
      rw [if_neg (by omega)]
    apply hne
    apply state_eq_of_testBit_window res.letters.length k1 k2
      (by rw [hnL, ← hpow, ← hrowsn]; exact hk1)
      (by rw [hnL, ← hpow, ← hrowsn]; exact hk2)
    intro i hi
    have h1 := hbit k1 i hk1 (by omega)
    have h2 := hbit k2 i hk2 (by omega)
    rw [he] at h1
    rw [h1] at h2
    have h3 := Option.some.inj h2
    simpa using h3
  · -- coverage: every boolean vector appears exactly once
    intro v hv
    have hkv : state_of_vec v < 2 ^ L.length := by
      have hx := state_of_vec_lt v
      rwa [hv, hnL] at hx
    have hklt : state_of_vec v < res.rows.length := by
      rw [hrowsn, n_states_eq_max]
      exact lt_of_lt_of_le hkv (le_max_right _ _)
    have hvecbit : ∀ i, i < res.letters.length →
        Nat.testBit (state_of_vec v) (res.letters.length - 1 - i) = !(v.getD i false) := by
      intro i hi
      have hiv : i < v.length := by omega
      have hx := state_of_vec_testBit v i hiv
      rwa [hv] at hx
    have hmapfull : ∀ k, k < res.rows.length →
        ((List.range res.letters.length).map (fun i =>
          jsMapGet ((res.rows.getD k ⟨[], []⟩).assignment)
            (letter_string (res.letters.getD i ⟨"", 0⟩)))
          = v.map some
        ↔ ∀ i, i < res.letters.length →
            v.getD i false = !(Nat.testBit k (res.letters.length - 1 - i))) := by
      intro k hk
      constructor
      · intro heq i hi
        have hgi := congrArg (fun l => l[i]?) heq
        have hiv : i < v.length := by omega
        simp only [List.getElem?_map, List.getElem?_range hi,
          List.getElem?_eq_getElem hiv] at hgi
        replace hgi : some (jsMapGet ((res.rows.getD k ⟨[], []⟩).assignment)
            (letter_string (res.letters.getD i ⟨"", 0⟩))) = some (some v[i]) := hgi
        have hx := Option.some.inj hgi
        rw [hbit k i hk hi] at hx
        have hx2 := Option.some.inj hx
        rw [List.getD_eq_getElem?_getD, List.getElem?_eq_getElem hiv]
        simp only [Option.getD_some]
        exact hx2.symm
      · intro hbits
        apply List.ext_getElem
        · simp [hv]
        · intro i h1 h2
          simp only [List.getElem_map, List.getElem_range]
          have hi : i < res.letters.length := by simpa using h1
          rw [hbit k i hk hi]
          congr 1
          rw [← hbits i hi]
          have hiv : i < v.length := by omega
          rw [List.getD_eq_getElem?_getD, List.getElem?_eq_getElem hiv]
          rfl
    refine ⟨state_of_vec v, ⟨hklt, (hmapfull _ hklt).mpr ?_⟩, ?_⟩
    · intro i hi
      rw [hvecbit i hi]
      simp
    · intro k2 hk2full
      obtain ⟨hk2, hmap⟩ := hk2full
      have hbits2 := (hmapfull k2 hk2).mp hmap
      have hk2pow : k2 < 2 ^ L.length := by
        rw [hrowsn] at hk2
        rcases Nat.eq_zero_or_pos L.length with hL0 | hLpos
        · unfold n_states at hk2
          rw [if_pos hL0] at hk2
          rw [hL0]
          simpa using hk2
        · unfold n_states at hk2
          rwa [if_neg (by omega)] at hk2
      apply state_eq_of_testBit_window res.letters.length k2 (state_of_vec v)
        (by rw [hnL]; exact hk2pow) (by rw [hnL]; exact hkv)
      intro i hi
      have ha := hbits2 i hi
      have hx : Nat.testBit k2 (res.letters.length - 1 - i) = !(v.getD i false) := by
        rw [ha]
        simp
      rw [hx, hvecbit i hi]
  · -- first row all true, last row all false
    intro i hi
    have hpos : 0 < res.rows.length := by
      rw [hrowsn, n_states_eq_max]
      have := Nat.two_pow_pos L.length
      omega
    constructor
    · rw [hbit 0 i hpos hi]
      simp [Nat.zero_testBit]
    · have hiL : i < L.length := by rw [← hnL]; exact hi
      have hpow : n_states L = 2 ^ L.length := by
        unfold n_states
        rw [if_neg (by omega)]
      have hlast : res.rows.length - 1 < res.rows.length := by omega
      rw [hbit (res.rows.length - 1) i hlast hi]
      rw [hrowsn, hpow, hnL]
      rw [Nat.testBit_two_pow_sub_one]
      have hlt2 : L.length - 1 - i < L.length := by omega
      simp [hlt2]

/-- Witness for C5 (amended): the batch [A & B] has display-injective letters
and the theorem yields its 4-row table. -/
theorem C5_truth_table_amended_witness :
    (table_letters [Sentence.conjunction (.letter ⟨"A", 0⟩) (.letter ⟨"B", 0⟩)]).Pairwise
        (fun a b => letter_string a ≠ letter_string b) ∧
      (table_letters [Sentence.conjunction (.letter ⟨"A", 0⟩)
        (.letter ⟨"B", 0⟩)]).length ≤ 32 ∧
      ∃ res, generate_truth_table [Sentence.conjunction (.letter ⟨"A", 0⟩) (.letter ⟨"B", 0⟩)]
          = some res ∧ res.rows.length = max 1 (2 ^ res.letters.length) :=
  ⟨by decide, by decide, by
    obtain ⟨res, h1, h2, h3, _⟩ := C5_truth_table_amended
      [Sentence.conjunction (.letter ⟨"A", 0⟩) (.letter ⟨"B", 0⟩)] (by decide) (by decide)
    exact ⟨res, h1, h3⟩⟩

/-- C10: subformulaToCell is one batch-wide Map keyed by the compact string
whose lookups return the position of the last enumerated occurrence of each
key, so every dependency resolves through it to the last occurrence of the
dependency's compact rendering; concretely, for the batch ["(A & B) v C",
"(A & B) -> D"] the sub-formula A & B occurs at token positions (0,2) and
(1,2), the map points at (1,2), and the dependency list of formula 0's outer
disjunction names cell 1-2, a token of the other formula. -/
theorem C10_last_occurrence_wins :
    (∀ (layouts : List FormulaLayout) (key : String),
      jsMapGet (subformulaToCell layouts) key = (compact_occurrences layouts key).getLast?) ∧
    (∀ (layouts : List FormulaLayout) (sub : Sentence),
      ((getSubformulaDependencies sub).filterMap fun dep =>
        (jsMapGet (subformulaToCell layouts) (sentence_to_string_compact dep true)).map
          fun c => cell_key c.1 c.2)
        = ((getSubformulaDependencies sub).filterMap fun dep =>
          ((compact_occurrences layouts (sentence_to_string_compact dep true)).getLast?).map
            fun c => cell_key c.1 c.2)) ∧
    (0, 2, FormulaToken.value "&" (.conjunction (.letter ⟨"A", 0⟩) (.letter ⟨"B", 0⟩)) false) ∈
      token_entries
        [layoutFormula (.disjunction (.conjunction (.letter ⟨"A", 0⟩) (.letter ⟨"B", 0⟩))
          (.letter ⟨"C", 0⟩)),
         layoutFormula (.conditional (.conjunction (.letter ⟨"A", 0⟩) (.letter ⟨"B", 0⟩))
          (.letter ⟨"D", 0⟩))] ∧
    (1, 2, FormulaToken.value "&" (.conjunction (.letter ⟨"A", 0⟩) (.letter ⟨"B", 0⟩)) false) ∈
      token_entries
        [layoutFormula (.disjunction (.conjunction (.letter ⟨"A", 0⟩) (.letter ⟨"B", 0⟩))
          (.letter ⟨"C", 0⟩)),
         layoutFormula (.conditional (.conjunction (.letter ⟨"A", 0⟩) (.letter ⟨"B", 0⟩))
          (.letter ⟨"D", 0⟩))] ∧
    compact_occurrences
        [layoutFormula (.disjunction (.conjunction (.letter ⟨"A", 0⟩) (.letter ⟨"B", 0⟩))
          (.letter ⟨"C", 0⟩)),
         layoutFormula (.conditional (.conjunction (.letter ⟨"A", 0⟩) (.letter ⟨"B", 0⟩))
          (.letter ⟨"D", 0⟩))] "A&B" = [(0, 2), (1, 2)] ∧
    jsMapGet
        (subformulaToCell
          [layoutFormula (.disjunction (.conjunction (.letter ⟨"A", 0⟩) (.letter ⟨"B", 0⟩))
            (.letter ⟨"C", 0⟩)),
           layoutFormula (.conditional (.conjunction (.letter ⟨"A", 0⟩) (.letter ⟨"B", 0⟩))
            (.letter ⟨"D", 0⟩))]) "A&B" = some (1, 2) ∧
    jsMapGet
        (cellDependencies
          [layoutFormula (.disjunction (.conjunction (.letter ⟨"A", 0⟩) (.letter ⟨"B", 0⟩))
            (.letter ⟨"C", 0⟩)),
           layoutFormula (.conditional (.conjunction (.letter ⟨"A", 0⟩) (.letter ⟨"B", 0⟩))
            (.letter ⟨"D", 0⟩))]) (cell_key 0 5) = some [cell_key 1 2] := by
  refine ⟨subCell_get, fun layouts sub => ?_, by decide, by decide, by decide, by decide,
    by decide⟩
  simp only [subCell_get]


theorem pAlt_eq_some {α : Type} (x y : Option α) (v : α) :
    pAlt x y = some v ↔ x = some v ∨ (x = none ∧ y = some v) := by
  cases x <;> simp [pAlt]

theorem pTry_eq_some {α β : Type} (x : Option α) (fb : β) (g : α → Option β) (v : β) :
    pTry x fb g = some v ↔ (x = none ∧ fb = v) ∨ ∃ a, x = some a ∧ g a = some v := by
  cases x <;> simp [pTry, eq_comm]

theorem wrapAssert_some (p q : Sentence × List Char) (h : wrapAssert p = some q) : q = p := by
  obtain ⟨s, r⟩ := p
  cases s <;> simp [wrapAssert] at h <;> simp [h]

theorem pBinary_eq_some (f : Nat) (sym : List Char) (mk : Sentence → Sentence → Sentence)
    (cs : List Char) (s : Sentence) (r : List Char) :
    pBinary (f + 1) sym mk cs = some (s, r) ↔
      ∃ l rr, pSepBy f sym cs = some ([l, rr], r) ∧ s = mk l rr := by
  simp only [pBinary]
  rcases hsep : pSepBy f sym cs with _ | ⟨ss, rest⟩
  · simp
  · rcases ss with _ | ⟨a, _ | ⟨b, _ | ⟨c, tl⟩⟩⟩ <;> (try simp [Prod.ext_iff]) <;> aesop

theorem pLetter_eq_some (cs : List Char) (s : Sentence) (r : List Char) :
    pLetter cs = some (s, r) ↔
      ∃ c, cs = c :: r ∧ is_upper c = true ∧ s = .letter ⟨String.singleton c, 0⟩ := by
  cases cs with
  | nil => simp [pLetter]
  | cons c cs =>
    by_cases hc : is_upper c <;> simp [pLetter, hc, Prod.ext_iff] <;> aesop

theorem good_sentence_mk_binary :
    (∀ a b, good_sentence a = true → good_sentence b = true →
      good_sentence (Sentence.biconditional a b) = true) ∧
    (∀ a b, good_sentence a = true → good_sentence b = true →
      good_sentence (Sentence.conditional a b) = true) ∧
    (∀ a b, good_sentence a = true → good_sentence b = true →
      good_sentence (Sentence.disjunction a b) = true) ∧
    (∀ a b, good_sentence a = true → good_sentence b = true →
      good_sentence (Sentence.conjunction a b) = true) ∧
    (∀ a b, good_sentence a = true → good_sentence b = true →
      good_sentence (Sentence.xor a b) = true) ∧
    (∀ a b, good_sentence a = true → good_sentence b = true →
      good_sentence (Sentence.nand a b) = true) := by
  refine ⟨?_, ?_, ?_, ?_, ?_, ?_⟩ <;> intro a b ha hb <;> simp [good_sentence, ha, hb]

theorem parsers_good : ∀ f : Nat,
    (∀ cs s r, pSentence f cs = some (s, r) → good_sentence s = true) ∧
    (∀ sym mk cs s r,
      (∀ a b, good_sentence a = true → good_sentence b = true →
        good_sentence (mk a b) = true) →
      pBinary f sym mk cs = some (s, r) → good_sentence s = true) ∧
    (∀ sym cs ss r, pSepBy f sym cs = some (ss, r) →
      ∀ x ∈ ss, good_sentence x = true) ∧
    (∀ sym cs ss r, pSepRest f sym cs = some (ss, r) →
      ∀ x ∈ ss, good_sentence x = true) ∧
    (∀ cs s r, pFactor f cs = some (s, r) → good_sentence s = true) ∧
    (∀ cs s r, pNot f cs = some (s, r) → good_sentence s = true) ∧
    (∀ cs s r, pWrapped f cs = some (s, r) → good_sentence s = true) ∧
    (∀ op cl cs s r, pWrappedWith f op cl cs = some (s, r) → good_sentence s = true) := by
  intro f
  induction f with
  | zero =>
    refine ⟨?_, ?_, ?_, ?_, ?_, ?_, ?_, ?_⟩ <;> intros <;> simp_all [pSentence, pBinary,
      pSepBy, pSepRest, pFactor, pNot, pWrapped, pWrappedWith]
  | succ f ih =>
    obtain ⟨ihS, ihB, ihSep, ihRest, ihF, ihN, ihW, ihWW⟩ := ih
    have hB : ∀ sym mk cs s r,
        (∀ a b, good_sentence a = true → good_sentence b = true →
          good_sentence (mk a b) = true) →
        pBinary (f + 1) sym mk cs = some (s, r) → good_sentence s = true := by
      intro sym mk cs s r hmk h
      obtain ⟨l, rr, hsep, rfl⟩ := (pBinary_eq_some f sym mk cs s r).mp h
      have hgood := ihSep sym cs [l, rr] r hsep
      exact hmk l rr (hgood l (by simp)) (hgood rr (by simp))
    have hS : ∀ cs s r, pSentence (f + 1) cs = some (s, r) → good_sentence s = true := by
      intro cs s r h
      simp only [pSentence] at h
      rw [pAlt_eq_some] at h
      rcases h with h | ⟨_, h⟩
      · exact ihB _ _ _ _ _ good_sentence_mk_binary.1 h
      rw [pAlt_eq_some] at h
      rcases h with h | ⟨_, h⟩
      · exact ihB _ _ _ _ _ good_sentence_mk_binary.2.1 h
      rw [pAlt_eq_some] at h
      rcases h with h | ⟨_, h⟩
      · exact ihB _ _ _ _ _ good_sentence_mk_binary.2.2.1 h
      rw [pAlt_eq_some] at h
      rcases h with h | ⟨_, h⟩
      · exact ihB _ _ _ _ _ good_sentence_mk_binary.2.2.2.1 h
      rw [pAlt_eq_some] at h
      rcases h with h | ⟨_, h⟩
      · exact ihB _ _ _ _ _ good_sentence_mk_binary.2.2.2.2.1 h
      rw [pAlt_eq_some] at h
      rcases h with h | ⟨_, h⟩
      · exact ihB _ _ _ _ _ good_sentence_mk_binary.2.2.2.2.2 h
      · exact ihF cs s r h
    have hSep : ∀ sym cs ss r, pSepBy (f + 1) sym cs = some (ss, r) →
        ∀ x ∈ ss, good_sentence x = true := by
      intro sym cs ss r h x hx
      simp only [pSepBy] at h
      rw [pTry_eq_some] at h
      rcases h with ⟨_, heq⟩ | ⟨p, hp, h⟩
      · cases heq
        cases hx
      · rw [Option.bind_eq_some] at h
        obtain ⟨q, hq, hcons⟩ := h
        cases Option.some.inj hcons
        rcases List.mem_cons.mp hx with rfl | hx2
        · exact ihF cs p.1 p.2 hp
        · exact ihRest sym p.2 q.1 q.2 hq x hx2
    have hRest : ∀ sym cs ss r, pSepRest (f + 1) sym cs = some (ss, r) →
        ∀ x ∈ ss, good_sentence x = true := by
      intro sym cs ss r h x hx
      simp only [pSepRest] at h
      rw [pTry_eq_some] at h
      rcases h with ⟨_, heq⟩ | ⟨cs2, hcs2, h⟩
      · cases heq
        cases hx
      · rw [pTry_eq_some] at h
        rcases h with ⟨_, heq⟩ | ⟨p, hp, h⟩
        · cases heq
          cases hx
        · rw [Option.bind_eq_some] at h
          obtain ⟨q, hq, hcons⟩ := h
          cases Option.some.inj hcons
          rcases List.mem_cons.mp hx with rfl | hx2
          · exact ihF _ p.1 p.2 hp
          · exact ihRest sym p.2 q.1 q.2 hq x hx2
    have hN : ∀ cs s r, pNot (f + 1) cs = some (s, r) → good_sentence s = true := by
      intro cs s r h
      simp only [pNot, Option.bind_eq_some] at h
      obtain ⟨cs1, hcs1, p, hp, hfin⟩ := h
      cases Option.some.inj hfin
      show good_sentence p.1 = true
      exact ihF _ p.1 p.2 hp
    have hWW : ∀ op cl cs s r, pWrappedWith (f + 1) op cl cs = some (s, r) →
        good_sentence s = true := by
      intro op cl cs s r h
      simp only [pWrappedWith, Option.bind_eq_some] at h
      obtain ⟨cs1, hcs1, p, hp, cs3, hcs3, hfin⟩ := h
      cases Option.some.inj hfin
      exact ihS _ p.1 p.2 hp
    have hW : ∀ cs s r, pWrapped (f + 1) cs = some (s, r) → good_sentence s = true := by
      intro cs s r h
      simp only [pWrapped, Option.bind_eq_some] at h
      obtain ⟨p, hp, hassert⟩ := h
      cases wrapAssert_some p (s, r) hassert
      rw [pAlt_eq_some] at hp
      rcases hp with hp | ⟨_, hp⟩
      · exact ihWW _ _ _ s r hp
      · rw [pAlt_eq_some] at hp
        rcases hp with hp | ⟨_, hp⟩
        · exact ihWW _ _ _ s r hp
        · exact ihWW _ _ _ s r hp
    have hF : ∀ cs s r, pFactor (f + 1) cs = some (s, r) → good_sentence s = true := by
      intro cs s r h
      simp only [pFactor] at h
      rw [pAlt_eq_some] at h
      rcases h with h | ⟨_, h⟩
      · exact ihN cs s r h
      · rw [pAlt_eq_some] at h
        rcases h with h | ⟨_, h⟩
        · exact ihW cs s r h
        · obtain ⟨c, rfl, hc, rfl⟩ := (pLetter_eq_some _ s r).mp h
          simp [good_sentence, String.singleton, hc]
    exact ⟨hS, hB, hSep, hRest, hF, hN, hW, hWW⟩

theorem parse_sentence_good (input : String) (s : Sentence)
    (h : parse_sentence input = .ok s) : good_sentence s = true := by
  have h2 : (match pSentence (8 * (jsTrim input.data).length + 32) (jsTrim input.data) with
    | some (s, []) => Res.ok s
    | _ => (Res.err "Syntax error (not a wff)." : Res Sentence String)) = Res.ok s := h
  rcases hp : pSentence (8 * (jsTrim input.data).length + 32) (jsTrim input.data)
    with _ | ⟨s1, r1⟩
  · rw [hp] at h2
    cases h2
  · rw [hp] at h2
    rcases r1 with _ | ⟨c, rest⟩
    · cases h2
      exact (parsers_good _).1 _ s [] hp
    · cases h2

theorem is_upper_toNat (c : Char) (h : is_upper c = true) : 65 ≤ c.toNat ∧ c.toNat ≤ 90 := by
  have h2 := h
  simp only [is_upper, Bool.and_eq_true, decide_eq_true_eq] at h2
  exact ⟨h2.1, h2.2⟩

theorem upper_ne_char (c d : Char) (h : is_upper c = true)
    (hd : d.toNat < 65 ∨ 90 < d.toNat) : c ≠ d := by
  intro he
  subst he
  obtain ⟨h1, h2⟩ := is_upper_toNat c h
  omega

theorem string_eq_of_data (a b : String) (h : a.data = b.data) : a = b := by
  cases a
  cases b
  cases h
  rfl

theorem good_letter_spec (l : Letter) (h : good_sentence (.letter l) = true) :
    ∃ c, l.id.data = [c] ∧ is_upper c = true ∧ l.index = 0 := by
  simp only [good_sentence, Bool.and_eq_true, beq_iff_eq] at h
  obtain ⟨h1, h2⟩ := h
  rcases hd : l.id.data with _ | ⟨c, _ | ⟨d, tl⟩⟩ <;> rw [hd] at h1
  · cases h1
  · exact ⟨c, rfl, h1, h2⟩
  · cases h1

theorem letter_string_data (l : Letter) (h : l.index = 0) :
    (letter_string l).data = l.id.data := by
  unfold letter_string
  rw [h]
  simp [String.data_append]

theorem compact_letter_data (l : Letter) (h : l.index = 0) (tl : Bool) :
    (sentence_to_string_compact (.letter l) tl).data = l.id.data := by
  show (letter_string l).data = l.id.data
  exact letter_string_data l h

theorem compact_neg_data (s : Sentence) (tl : Bool) :
    (sentence_to_string_compact (.negation s) tl).data =
      '~' :: (sentence_to_string_compact s false).data := by
  show ("~" ++ sentence_to_string_compact s false).data = _
  simp [String.data_append]

theorem wrap_data (A o B : String) (rest : List Char) :
    ("(" ++ (A ++ o ++ B) ++ ")").data ++ rest
      = '(' :: (A.data ++ (o.data ++ (B.data ++ (')' :: rest)))) := by
  simp [String.data_append, List.append_assoc]

theorem compact_read_binary_step (g : Nat) (l r : Sentence) (op : Char)
    (mk : Sentence → Sentence → Sentence) (hop : compact_op op = some mk)
    (rest : List Char)
    (hl : compact_read g ((sentence_to_string_compact l false).data ++
        (op :: ((sentence_to_string_compact r false).data ++ (')' :: rest)))) =
      some (l, op :: ((sentence_to_string_compact r false).data ++ (')' :: rest))))
    (hr : compact_read g ((sentence_to_string_compact r false).data ++ (')' :: rest)) =
      some (r, ')' :: rest)) :
    compact_read (g + 1)
        ('(' :: ((sentence_to_string_compact l false).data ++
          (op :: ((sentence_to_string_compact r false).data ++ (')' :: rest)))))
      = some (mk l r, rest) := by
  simp only [compact_read, reduceIte, List.append_eq, hl, hop, hr]
  rw [if_neg (show ¬ ('(' : Char) = '~' from by decide)]

theorem compact_read_correct : ∀ s : Sentence, good_sentence s = true →
    ∀ (f : Nat) (rest : List Char), compact_fuel s ≤ f →
      compact_read f ((sentence_to_string_compact s false).data ++ rest) = some (s, rest) := by
  intro s
  induction s with
  | value v => intro hg; simp [good_sentence] at hg
  | letter l =>
    intro hg f rest hf
    obtain ⟨c, hid, hc, hidx⟩ := good_letter_spec l hg
    obtain ⟨g, rfl⟩ : ∃ g, f = g + 1 := ⟨f - 1, by simp [compact_fuel] at hf; omega⟩
    rw [compact_letter_data l hidx, hid]
    simp only [List.cons_append, List.nil_append, compact_read]
    rw [if_neg (upper_ne_char c '~' hc (by decide)),
      if_neg (upper_ne_char c '(' hc (by decide)), if_pos hc]
    have hsing : String.singleton c = l.id :=
      string_eq_of_data _ _ (by simp [String.singleton, hid])
    rw [hsing, show (⟨l.id, 0⟩ : Letter) = l from by cases l; simp_all]
    rfl
  | negation s ih =>
    intro hg f rest hf
    have hgs : good_sentence s = true := hg
    obtain ⟨g, rfl⟩ : ∃ g, f = g + 1 := ⟨f - 1, by simp [compact_fuel] at hf; omega⟩
    rw [compact_neg_data]
    simp only [List.cons_append, compact_read, reduceIte, List.append_eq]
    have hfg : compact_fuel s ≤ g := by simp [compact_fuel] at hf; omega
    rw [ih hgs g rest hfg]
    rfl
  | disjunction a b iha ihb =>
    intro hg f rest hf
    have hga : good_sentence a = true := (Bool.and_eq_true .. ▸ hg).1
    have hgb : good_sentence b = true := (Bool.and_eq_true .. ▸ hg).2
    obtain ⟨g, rfl⟩ : ∃ g, f = g + 1 := ⟨f - 1, by simp only [compact_fuel] at hf; omega⟩
    have hfa : compact_fuel a ≤ g := by simp only [compact_fuel] at hf; omega
    have hfb : compact_fuel b ≤ g := by simp only [compact_fuel] at hf; omega
    rw [show sentence_to_string_compact (Sentence.disjunction a b) false =
      "(" ++ (sentence_to_string_compact a false ++ "∨" ++
        sentence_to_string_compact b false) ++ ")" from rfl, wrap_data]
    exact compact_read_binary_step g a b '∨' _ rfl rest
      (iha hga g _ hfa) (ihb hgb g _ hfb)
  | conjunction a b iha ihb =>
    intro hg f rest hf
    have hga : good_sentence a = true := (Bool.and_eq_true .. ▸ hg).1
    have hgb : good_sentence b = true := (Bool.and_eq_true .. ▸ hg).2
    obtain ⟨g, rfl⟩ : ∃ g, f = g + 1 := ⟨f - 1, by simp only [compact_fuel] at hf; omega⟩
    have hfa : compact_fuel a ≤ g := by simp only [compact_fuel] at hf; omega
    have hfb : compact_fuel b ≤ g := by simp only [compact_fuel] at hf; omega
    rw [show sentence_to_string_compact (Sentence.conjunction a b) false =
      "(" ++ (sentence_to_string_compact a false ++ "&" ++
        sentence_to_string_compact b false) ++ ")" from rfl, wrap_data]
    exact compact_read_binary_step g a b '&' _ rfl rest
      (iha hga g _ hfa) (ihb hgb g _ hfb)
  | conditional a b iha ihb =>
    intro hg f rest hf
    have hga : good_sentence a = true := (Bool.and_eq_true .. ▸ hg).1
    have hgb : good_sentence b = true := (Bool.and_eq_true .. ▸ hg).2
    obtain ⟨g, rfl⟩ : ∃ g, f = g + 1 := ⟨f - 1, by simp only [compact_fuel] at hf; omega⟩
    have hfa : compact_fuel a ≤ g := by simp only [compact_fuel] at hf; omega
    have hfb : compact_fuel b ≤ g := by simp only [compact_fuel] at hf; omega
    rw [show sentence_to_string_compact (Sentence.conditional a b) false =
      "(" ++ (sentence_to_string_compact a false ++ "→" ++
        sentence_to_string_compact b false) ++ ")" from rfl, wrap_data]
    exact compact_read_binary_step g a b '→' _ rfl rest
      (iha hga g _ hfa) (ihb hgb g _ hfb)
  | biconditional a b iha ihb =>
    intro hg f rest hf
    have hga : good_sentence a = true := (Bool.and_eq_true .. ▸ hg).1
    have hgb : good_sentence b = true := (Bool.and_eq_true .. ▸ hg).2
    obtain ⟨g, rfl⟩ : ∃ g, f = g + 1 := ⟨f - 1, by simp only [compact_fuel] at hf; omega⟩
    have hfa : compact_fuel a ≤ g := by simp only [compact_fuel] at hf; omega
    have hfb : compact_fuel b ≤ g := by simp only [compact_fuel] at hf; omega
    rw [show sentence_to_string_compact (Sentence.biconditional a b) false =
      "(" ++ (sentence_to_string_compact a false ++ "↔" ++
        sentence_to_string_compact b false) ++ ")" from rfl, wrap_data]
    exact compact_read_binary_step g a b '↔' _ rfl rest
      (iha hga g _ hfa) (ihb hgb g _ hfb)
  | xor a b iha ihb =>
    intro hg f rest hf
    have hga : good_sentence a = true := (Bool.and_eq_true .. ▸ hg).1
    have hgb : good_sentence b = true := (Bool.and_eq_true .. ▸ hg).2
    obtain ⟨g, rfl⟩ : ∃ g, f = g + 1 := ⟨f - 1, by simp only [compact_fuel] at hf; omega⟩
    have hfa : compact_fuel a ≤ g := by simp only [compact_fuel] at hf; omega
    have hfb : compact_fuel b ≤ g := by simp only [compact_fuel] at hf; omega
    rw [show sentence_to_string_compact (Sentence.xor a b) false =
      "(" ++ (sentence_to_string_compact a false ++ "⊕" ++
        sentence_to_string_compact b false) ++ ")" from rfl, wrap_data]
    exact compact_read_binary_step g a b '⊕' _ rfl rest
      (iha hga g _ hfa) (ihb hgb g _ hfb)
  | nand a b iha ihb =>
    intro hg f rest hf
    have hga : good_sentence a = true := (Bool.and_eq_true .. ▸ hg).1
    have hgb : good_sentence b = true := (Bool.and_eq_true .. ▸ hg).2
    obtain ⟨g, rfl⟩ : ∃ g, f = g + 1 := ⟨f - 1, by simp only [compact_fuel] at hf; omega⟩
    have hfa : compact_fuel a ≤ g := by simp only [compact_fuel] at hf; omega
    have hfb : compact_fuel b ≤ g := by simp only [compact_fuel] at hf; omega
    rw [show sentence_to_string_compact (Sentence.nand a b) false =
      "(" ++ (sentence_to_string_compact a false ++ "|" ++
        sentence_to_string_compact b false) ++ ")" from rfl, wrap_data]
    exact compact_read_binary_step g a b '|' _ rfl rest
      (iha hga g _ hfa) (ihb hgb g _ hfb)

theorem top_data (A o B : String) :
    (A ++ o ++ B).data = A.data ++ (o.data ++ B.data) := by
  simp [String.data_append, List.append_assoc]

theorem compact_read_top_correct (s : Sentence) (hg : good_sentence s = true)
    (f : Nat) (hf : compact_fuel s ≤ f) :
    compact_read_top f (sentence_to_string_compact s true).data = some s := by
  cases s with
  | value v => simp [good_sentence] at hg
  | letter l =>
    have h := compact_read_correct (.letter l) hg f [] hf
    rw [List.append_nil] at h
    simp only [compact_read_top, show sentence_to_string_compact (Sentence.letter l) true
      = sentence_to_string_compact (Sentence.letter l) false from rfl, h]
  | negation t =>
    have h := compact_read_correct (.negation t) hg f [] hf
    rw [List.append_nil] at h
    simp only [compact_read_top, show sentence_to_string_compact (Sentence.negation t) true
      = sentence_to_string_compact (Sentence.negation t) false from rfl, h]
  | disjunction a b =>
    have hga : good_sentence a = true := (Bool.and_eq_true .. ▸ hg).1
    have hgb : good_sentence b = true := (Bool.and_eq_true .. ▸ hg).2
    have hfa : compact_fuel a ≤ f := by simp only [compact_fuel] at hf; omega
    have hfb : compact_fuel b ≤ f := by simp only [compact_fuel] at hf; omega
    have hb := compact_read_correct b hgb f [] hfb
    rw [List.append_nil] at hb
    have ha := compact_read_correct a hga f
      ('∨' :: (sentence_to_string_compact b false).data) hfa
    rw [show sentence_to_string_compact (Sentence.disjunction a b) true =
      sentence_to_string_compact a false ++ "∨" ++
        sentence_to_string_compact b false from rfl, top_data]
    have hcons : ("∨" : String).data ++ (sentence_to_string_compact b false).data
        = '∨' :: (sentence_to_string_compact b false).data := rfl
    rw [hcons]
    simp only [compact_read_top, ha,
      show compact_op '∨' = some Sentence.disjunction from rfl, hb]
  | conjunction a b =>
    have hga : good_sentence a = true := (Bool.and_eq_true .. ▸ hg).1
    have hgb : good_sentence b = true := (Bool.and_eq_true .. ▸ hg).2
    have hfa : compact_fuel a ≤ f := by simp only [compact_fuel] at hf; omega
    have hfb : compact_fuel b ≤ f := by simp only [compact_fuel] at hf; omega
    have hb := compact_read_correct b hgb f [] hfb
    rw [List.append_nil] at hb
    have ha := compact_read_correct a hga f
      ('&' :: (sentence_to_string_compact b false).data) hfa
    rw [show sentence_to_string_compact (Sentence.conjunction a b) true =
      sentence_to_string_compact a false ++ "&" ++
        sentence_to_string_compact b false from rfl, top_data]
    have hcons : ("&" : String).data ++ (sentence_to_string_compact b false).data
        = '&' :: (sentence_to_string_compact b false).data := rfl
    rw [hcons]
    simp only [compact_read_top, ha,
      show compact_op '&' = some Sentence.conjunction from rfl, hb]
  | conditional a b =>
    have hga : good_sentence a = true := (Bool.and_eq_true .. ▸ hg).1
    have hgb : good_sentence b = true := (Bool.and_eq_true .. ▸ hg).2
    have hfa : compact_fuel a ≤ f := by simp only [compact_fuel] at hf; omega
    have hfb : compact_fuel b ≤ f := by simp only [compact_fuel] at hf; omega
    have hb := compact_read_correct b hgb f [] hfb
    rw [List.append_nil] at hb
    have ha := compact_read_correct a hga f
      ('→' :: (sentence_to_string_compact b false).data) hfa
    rw [show sentence_to_string_compact (Sentence.conditional a b) true =
      sentence_to_string_compact a false ++ "→" ++
        sentence_to_string_compact b false from rfl, top_data]
    have hcons : ("→" : String).data ++ (sentence_to_string_compact b false).data
        = '→' :: (sentence_to_string_compact b false).data := rfl
    rw [hcons]
    simp only [compact_read_top, ha,
      show compact_op '→' = some Sentence.conditional from rfl, hb]
  | biconditional a b =>
    have hga : good_sentence a = true := (Bool.and_eq_true .. ▸ hg).1
    have hgb : good_sentence b = true := (Bool.and_eq_true .. ▸ hg).2
    have hfa : compact_fuel a ≤ f := by simp only [compact_fuel] at hf; omega
    have hfb : compact_fuel b ≤ f := by simp only [compact_fuel] at hf; omega
    have hb := compact_read_correct b hgb f [] hfb
    rw [List.append_nil] at hb
    have ha := compact_read_correct a hga f
      ('↔' :: (sentence_to_string_compact b false).data) hfa
    rw [show sentence_to_string_compact (Sentence.biconditional a b) true =
      sentence_to_string_compact a false ++ "↔" ++
        sentence_to_string_compact b false from rfl, top_data]
    have hcons : ("↔" : String).data ++ (sentence_to_string_compact b false).data
        = '↔' :: (sentence_to_string_compact b false).data := rfl
    rw [hcons]
    simp only [compact_read_top, ha,
      show compact_op '↔' = some Sentence.biconditional from rfl, hb]
  | xor a b =>
    have hga : good_sentence a = true := (Bool.and_eq_true .. ▸ hg).1
    have hgb : good_sentence b = true := (Bool.and_eq_true .. ▸ hg).2
    have hfa : compact_fuel a ≤ f := by simp only [compact_fuel] at hf; omega
    have hfb : compact_fuel b ≤ f := by simp only [compact_fuel] at hf; omega
    have hb := compact_read_correct b hgb f [] hfb
    rw [List.append_nil] at hb
    have ha := compact_read_correct a hga f
      ('⊕' :: (sentence_to_string_compact b false).data) hfa
    rw [show sentence_to_string_compact (Sentence.xor a b) true =
      sentence_to_string_compact a false ++ "⊕" ++
        sentence_to_string_compact b false from rfl, top_data]
    have hcons : ("⊕" : String).data ++ (sentence_to_string_compact b false).data
        = '⊕' :: (sentence_to_string_compact b false).data := rfl
    rw [hcons]
    simp only [compact_read_top, ha,
      show compact_op '⊕' = some Sentence.xor from rfl, hb]
  | nand a b =>
    have hga : good_sentence a = true := (Bool.and_eq_true .. ▸ hg).1
    have hgb : good_sentence b = true := (Bool.and_eq_true .. ▸ hg).2
    have hfa : compact_fuel a ≤ f := by simp only [compact_fuel] at hf; omega
    have hfb : compact_fuel b ≤ f := by simp only [compact_fuel] at hf; omega
    have hb := compact_read_correct b hgb f [] hfb
    rw [List.append_nil] at hb
    have ha := compact_read_correct a hga f
      ('|' :: (sentence_to_string_compact b false).data) hfa
    rw [show sentence_to_string_compact (Sentence.nand a b) true =
      sentence_to_string_compact a false ++ "|" ++
        sentence_to_string_compact b false from rfl, top_data]
    have hcons : ("|" : String).data ++ (sentence_to_string_compact b false).data
        = '|' :: (sentence_to_string_compact b false).data := rfl
    rw [hcons]
    simp only [compact_read_top, ha,
      show compact_op '|' = some Sentence.nand from rfl, hb]

/-- C2: amended. On the parser image, the compact rendering is injective:
two successfully parsed sentences have equal compact strings exactly when
they are equal as syntax trees. -/
theorem C2_compact_injective_amended (in1 in2 : String) (s1 s2 : Sentence)
    (h1 : parse_sentence in1 = Res.ok s1) (h2 : parse_sentence in2 = Res.ok s2) :
    sentence_to_string_compact s1 true = sentence_to_string_compact s2 true ↔ s1 = s2 := by
  constructor
  · intro heq
    have hg1 := parse_sentence_good in1 s1 h1
    have hg2 := parse_sentence_good in2 s2 h2
    have t1 := compact_read_top_correct s1 hg1 (max (compact_fuel s1) (compact_fuel s2))
      (le_max_left _ _)
    have t2 := compact_read_top_correct s2 hg2 (max (compact_fuel s1) (compact_fuel s2))
      (le_max_right _ _)
    rw [heq, t2] at t1
    exact (Option.some.injEq _ _ ▸ t1.symm)
  · intro h; rw [h]

theorem C2_compact_injective_amended_witness :
    parse_sentence "A & B" = Res.ok (.conjunction (.letter ⟨"A", 0⟩) (.letter ⟨"B", 0⟩)) ∧
    parse_sentence "B & A" = Res.ok (.conjunction (.letter ⟨"B", 0⟩) (.letter ⟨"A", 0⟩)) ∧
    (sentence_to_string_compact (.conjunction (.letter ⟨"A", 0⟩) (.letter ⟨"B", 0⟩)) true =
        sentence_to_string_compact (.conjunction (.letter ⟨"B", 0⟩) (.letter ⟨"A", 0⟩)) true ↔
      (Sentence.conjunction (.letter ⟨"A", 0⟩) (.letter ⟨"B", 0⟩)) =
        (Sentence.conjunction (.letter ⟨"B", 0⟩) (.letter ⟨"A", 0⟩))) :=
  ⟨by decide, by decide,
    C2_compact_injective_amended "A & B" "B & A" _ _ (by decide) (by decide)⟩


theorem pAlt_none {α : Type} (y : Option α) : pAlt none y = y := rfl

theorem pAlt_some {α : Type} (r : α) (y : Option α) : pAlt (some r) y = some r := rfl

theorem pTry_none {α β : Type} (fb : β) (g : α → Option β) :
    pTry (none : Option α) fb g = some fb := rfl

theorem pTry_some {α β : Type} (a : α) (fb : β) (g : α → Option β) :
    pTry (some a) fb g = g a := rfl

theorem pString_cons_mismatch (p : Char) (ps : List Char) (c : Char) (cs : List Char)
    (h : p ≠ c) : pString (p :: ps) (c :: cs) = none := by
  simp [pString, h]

theorem pString_nil_input (p : Char) (ps : List Char) : pString (p :: ps) [] = none := rfl

theorem pNot_fail (f : Nat) (cs : List Char) (h : pString ['~'] cs = none) :
    pNot f cs = none := by
  cases f with
  | zero => rfl
  | succ g => simp [pNot, h]

theorem pWrappedWith_fail (f : Nat) (op cl : Char) (cs : List Char)
    (h : pString [op] cs = none) : pWrappedWith f op cl cs = none := by
  cases f with
  | zero => rfl
  | succ g => simp [pWrappedWith, h]

theorem skipWs_cons_nonws (c : Char) (cs : List Char) (h : is_ws c = false) :
    skipWs (c :: cs) = c :: cs := by
  simp [skipWs, List.dropWhile, h]

theorem upper_not_ws (c : Char) (hc : is_upper c = true) : is_ws c = false := by
  obtain ⟨h1, h2⟩ := is_upper_toNat c hc
  simp only [is_ws, Bool.or_eq_false_iff, Bool.and_eq_false_iff]
  refine ⟨⟨⟨⟨⟨⟨⟨⟨⟨⟨⟨⟨⟨⟨?_, ?_⟩, ?_⟩, ?_⟩, ?_⟩, ?_⟩, ?_⟩, ?_⟩, ?_⟩, ?_⟩, ?_⟩, ?_⟩, ?_⟩, ?_⟩, ?_⟩
  all_goals first
    | exact beq_eq_false_iff_ne.mpr (by omega)
    | exact Or.inl (decide_eq_false (by omega))

theorem str_neg (t : Sentence) :
    sentence_to_string (.negation t) = "~" ++ wrap_if_needed t := by
  cases t <;> rfl

theorem str_conj (l r : Sentence) :
    sentence_to_string (.conjunction l r) =
      wrap_if_needed l ++ " & " ++ wrap_if_needed r := by
  cases l <;> cases r <;> rfl

theorem str_nand (l r : Sentence) :
    sentence_to_string (.nand l r) =
      wrap_if_needed l ++ " | " ++ wrap_if_needed r := by
  cases l <;> cases r <;> rfl

theorem wif_letter (l : Letter) : wrap_if_needed (.letter l) = letter_string l := rfl

theorem wif_neg (t : Sentence) :
    wrap_if_needed (.negation t) = sentence_to_string (.negation t) := rfl

theorem wif_conj (l r : Sentence) :
    wrap_if_needed (.conjunction l r) =
      "(" ++ sentence_to_string (.conjunction l r) ++ ")" := rfl

theorem wif_nand (l r : Sentence) :
    wrap_if_needed (.nand l r) =
      "(" ++ sentence_to_string (.nand l r) ++ ")" := rfl

theorem strdata_neg (t : Sentence) (rest : List Char) :
    (sentence_to_string (.negation t)).data ++ rest =
      '~' :: ((wrap_if_needed t).data ++ rest) := by
  rw [str_neg]
  simp [String.data_append]

theorem strdata_conj (l r : Sentence) (rest : List Char) :
    (sentence_to_string (.conjunction l r)).data ++ rest =
      (wrap_if_needed l).data ++
        (' ' :: '&' :: ' ' :: ((wrap_if_needed r).data ++ rest)) := by
  rw [str_conj]
  simp [String.data_append, List.append_assoc]

theorem strdata_nand (l r : Sentence) (rest : List Char) :
    (sentence_to_string (.nand l r)).data ++ rest =
      (wrap_if_needed l).data ++
        (' ' :: '|' :: ' ' :: ((wrap_if_needed r).data ++ rest)) := by
  rw [str_nand]
  simp [String.data_append, List.append_assoc]

theorem wifdata_conj (l r : Sentence) (rest : List Char) :
    (wrap_if_needed (.conjunction l r)).data ++ rest =
      '(' :: ((sentence_to_string (.conjunction l r)).data ++ (')' :: rest)) := by
  rw [wif_conj]
  simp [String.data_append, List.append_assoc]

theorem wifdata_nand (l r : Sentence) (rest : List Char) :
    (wrap_if_needed (.nand l r)).data ++ rest =
      '(' :: ((sentence_to_string (.nand l r)).data ++ (')' :: rest)) := by
  rw [wif_nand]
  simp [String.data_append, List.append_assoc]

theorem skipWs_ws_cons (c : Char) (cs : List Char) (h : is_ws c = true) :
    skipWs (c :: cs) = skipWs cs := by
  simp [skipWs, List.dropWhile, h]

theorem pString_nil (cs : List Char) : pString [] cs = some cs := rfl

theorem pLetter_fail (c : Char) (cs : List Char) (h : is_upper c = false) :
    pLetter (c :: cs) = none := by
  simp [pLetter, h]

theorem pWrapped_fail (f : Nat) (c : Char) (cs : List Char)
    (h1 : '(' ≠ c) (h2 : '[' ≠ c) (h3 : '\x7b' ≠ c) :
    pWrapped f (c :: cs) = none := by
  cases f with
  | zero => rfl
  | succ g =>
    have w1 := pWrappedWith_fail g '(' ')' (c :: cs) (pString_cons_mismatch _ _ _ _ h1)
    have w2 := pWrappedWith_fail g '[' ']' (c :: cs) (pString_cons_mismatch _ _ _ _ h2)
    have w3 := pWrappedWith_fail g '\x7b' '\x7d' (c :: cs) (pString_cons_mismatch _ _ _ _ h3)
    simp [pWrapped, w1, w2, w3, pAlt]

theorem pFactor_letter (f : Nat) (l : Letter) (hg : good_sentence (.letter l) = true)
    (rest : List Char) :
    pFactor (f + 1) ((wrap_if_needed (.letter l)).data ++ rest) = some (.letter l, rest) := by
  obtain ⟨c, hid, hc, hidx⟩ := good_letter_spec l hg
  have hdata : (wrap_if_needed (.letter l)).data ++ rest = c :: rest := by
    rw [wif_letter, letter_string_data l hidx, hid]
    rfl
  rw [hdata]
  have hnot := pNot_fail f (c :: rest)
    (pString_cons_mismatch _ _ _ _ (Ne.symm (upper_ne_char c '~' hc (by decide))))
  have hwr := pWrapped_fail f c rest
    (Ne.symm (upper_ne_char c '(' hc (by decide)))
    (Ne.symm (upper_ne_char c '[' hc (by decide)))
    (Ne.symm (upper_ne_char c '\x7b' hc (by decide)))
  have hlet : pLetter (c :: rest) = some (.letter ⟨String.singleton c, 0⟩, rest) := by
    simp [pLetter, hc]
  have hsc : String.singleton c = l.id :=
    string_eq_of_data _ _ (by simp [String.singleton, hid])
  simp only [pFactor, hnot, hwr, hlet, pAlt]
  rw [hsc, show (⟨l.id, 0⟩ : Letter) = l from by cases l; simp_all]

theorem pSepRest_zero (sym cs : List Char) : pSepRest 0 sym cs = none := rfl

theorem pSepRest_nosep (d : Nat) (sym cs : List Char)
    (h : pString sym (skipWs cs) = none) :
    pSepRest (d + 1) sym cs = some ([], cs) := by
  simp [pSepRest, h, pTry]

theorem pString_restok (h : Char) (t rest : List Char) (hne : h ≠ ')')
    (hr : rest_ok rest) : pString (h :: t) (skipWs rest) = none := by
  rcases hr with rfl | ⟨rest2, rfl⟩
  · rfl
  · rw [skipWs_cons_nonws _ _ (by decide)]
    exact pString_cons_mismatch _ _ _ _ hne

theorem pSepRest_stop (d : Nat) (h : Char) (t : List Char) (hne : h ≠ ')')
    (rest : List Char) (hr : rest_ok rest) :
    pSepRest (d + 1) (h :: t) rest = some ([], rest) :=
  pSepRest_nosep d _ _ (pString_restok h t rest hne hr)

theorem pSepRest_step (d : Nat) (sh : Char) (X : List Char) (hws : is_ws sh = false)
    (hskip : skipWs X = X) (r : Sentence) (rest : List Char)
    (hfac : pFactor d X = some (r, rest)) :
    pSepRest (d + 1) [sh] (' ' :: sh :: ' ' :: X) =
      (pSepRest d [sh] rest).bind fun q => some (r :: q.1, q.2) := by
  have hsk1 : skipWs (' ' :: sh :: ' ' :: X) = sh :: ' ' :: X := by
    rw [skipWs_ws_cons _ _ (by decide), skipWs_cons_nonws _ _ hws]
  have hps : pString [sh] (skipWs (' ' :: sh :: ' ' :: X)) = some (' ' :: X) := by
    rw [hsk1]
    simp [pString]
  have hsk2 : skipWs (' ' :: X) = X := by
    rw [skipWs_ws_cons _ _ (by decide), hskip]
  simp only [pSepRest, hps, pTry, hsk2, hfac]

theorem pSepRest_step_facnone (d : Nat) (sh : Char) (X : List Char) (hws : is_ws sh = false)
    (hskip : skipWs X = X) (hfac : pFactor d X = none) :
    pSepRest (d + 1) [sh] (' ' :: sh :: ' ' :: X) = some ([], ' ' :: sh :: ' ' :: X) := by
  have hsk1 : skipWs (' ' :: sh :: ' ' :: X) = sh :: ' ' :: X := by
    rw [skipWs_ws_cons _ _ (by decide), skipWs_cons_nonws _ _ hws]
  have hps : pString [sh] (skipWs (' ' :: sh :: ' ' :: X)) = some (' ' :: X) := by
    rw [hsk1]
    simp [pString]
  have hsk2 : skipWs (' ' :: X) = X := by
    rw [skipWs_ws_cons _ _ (by decide), hskip]
  simp only [pSepRest, hps, pTry, hsk2, hfac]

theorem pBinary_zero (sym : List Char) (mk : Sentence → Sentence → Sentence)
    (cs : List Char) : pBinary 0 sym mk cs = none := rfl

theorem pBinary_one (sym : List Char) (mk : Sentence → Sentence → Sentence)
    (cs : List Char) : pBinary 1 sym mk cs = none := rfl

theorem pBinary_fail0 (e : Nat) (sym : List Char) (mk : Sentence → Sentence → Sentence)
    (cs : List Char) (h : pFactor e cs = none) : pBinary (e + 2) sym mk cs = none := by
  simp [pBinary, pSepBy, h, pTry]

theorem pBinary_rest_none (e : Nat) (sym : List Char) (mk : Sentence → Sentence → Sentence)
    (cs : List Char) (p : Sentence × List Char) (hfac : pFactor e cs = some p)
    (hrest : pSepRest e sym p.2 = none) : pBinary (e + 2) sym mk cs = none := by
  simp [pBinary, pSepBy, hfac, pTry, hrest]

theorem pBinary_one_elem (e : Nat) (sym : List Char) (mk : Sentence → Sentence → Sentence)
    (cs : List Char) (p : Sentence × List Char) (hfac : pFactor e cs = some p)
    (hrest : pSepRest e sym p.2 = some ([], p.2)) : pBinary (e + 2) sym mk cs = none := by
  simp [pBinary, pSepBy, hfac, pTry, hrest]

theorem pBinary_two (e : Nat) (sym : List Char) (mk : Sentence → Sentence → Sentence)
    (cs : List Char) (p : Sentence × List Char) (r : Sentence) (rest : List Char)
    (hfac : pFactor e cs = some p)
    (hrest : pSepRest e sym p.2 = some ([r], rest)) :
    pBinary (e + 2) sym mk cs = some (mk p.1 r, rest) := by
  simp [pBinary, pSepBy, hfac, pTry, hrest]

theorem pString_septail (sh : Char) (syt : List Char) (op : Char) (X : List Char)
    (hop : is_ws op = false) (hne : sh ≠ op) :
    pString (sh :: syt) (skipWs (' ' :: op :: ' ' :: X)) = none := by
  rw [skipWs_ws_cons _ _ (by decide), skipWs_cons_nonws _ _ hop]
  exact pString_cons_mismatch _ _ _ _ hne

theorem pBinary_fail_any (m : Nat) (sh : Char) (syt : List Char)
    (mk : Sentence → Sentence → Sentence) (cs : List Char)
    (hfac : ∀ e p, e + 2 = m → pFactor e cs = some p →
      pString (sh :: syt) (skipWs p.2) = none) :
    pBinary m (sh :: syt) mk cs = none := by
  match m with
  | 0 => rfl
  | 1 => exact pBinary_one _ _ _
  | e + 2 =>
    cases h : pFactor e cs with
    | none => exact pBinary_fail0 e _ mk cs h
    | some p =>
      have hps := hfac e p rfl h
      cases e with
      | zero => exact pBinary_rest_none 0 _ mk cs p h (pSepRest_zero _ _)
      | succ d => exact pBinary_one_elem (d + 1) _ mk cs p h (pSepRest_nosep d _ _ hps)

theorem pBinary_match_any (m : Nat) (sh : Char) (mk : Sentence → Sentence → Sentence)
    (cs X rest : List Char) (l r : Sentence)
    (hws : is_ws sh = false) (hne : sh ≠ ')') (hr : rest_ok rest)
    (hskipX : skipWs X = X)
    (hfacL : ∀ e, e + 2 = m →
      pFactor e cs = none ∨ pFactor e cs = some (l, ' ' :: sh :: ' ' :: X))
    (hfacR : ∀ d, d + 3 = m → pFactor d X = none ∨ pFactor d X = some (r, rest)) :
    pBinary m [sh] mk cs = none ∨ pBinary m [sh] mk cs = some (mk l r, rest) := by
  match m with
  | 0 => exact Or.inl rfl
  | 1 => exact Or.inl (pBinary_one _ _ _)
  | e + 2 =>
    rcases hfacL e rfl with hL | hL
    · exact Or.inl (pBinary_fail0 e _ mk cs hL)
    · cases e with
      | zero => exact Or.inl (pBinary_rest_none 0 _ mk cs _ hL (pSepRest_zero _ _))
      | succ d =>
        rcases hfacR d rfl with hR | hR
        · exact Or.inl (pBinary_one_elem (d + 1) _ mk cs _ hL
            (pSepRest_step_facnone d sh X hws hskipX hR))
        · have hstep := pSepRest_step d sh X hws hskipX r rest hR
          cases d with
          | zero =>
            rw [pSepRest_zero] at hstep
            exact Or.inl (pBinary_rest_none 1 _ mk cs _ hL hstep)
          | succ d2 =>
            rw [pSepRest_stop d2 sh [] hne rest hr] at hstep
            exact Or.inr (pBinary_two (d2 + 2) _ mk cs _ r rest hL hstep)

theorem pBinary_match_ok (d : Nat) (sh : Char) (mk : Sentence → Sentence → Sentence)
    (cs X rest : List Char) (l r : Sentence)
    (hws : is_ws sh = false) (hne : sh ≠ ')') (hr : rest_ok rest)
    (hskipX : skipWs X = X)
    (hfacL : pFactor (d + 2) cs = some (l, ' ' :: sh :: ' ' :: X))
    (hfacR : pFactor (d + 1) X = some (r, rest)) :
    pBinary (d + 4) [sh] mk cs = some (mk l r, rest) := by
  have hstep := pSepRest_step (d + 1) sh X hws hskipX r rest hfacR
  rw [pSepRest_stop d sh [] hne rest hr] at hstep
  exact pBinary_two (d + 2) _ mk cs _ r rest hfacL hstep

theorem skipWs_wif (s : Sentence) (hg : good_sentence s = true)
    (hf : roundtrip_fragment s = true) (rest : List Char) :
    skipWs ((wrap_if_needed s).data ++ rest) = (wrap_if_needed s).data ++ rest := by
  cases s with
  | value v => simp [roundtrip_fragment] at hf
  | letter l =>
    obtain ⟨c, hid, hc, hidx⟩ := good_letter_spec l hg
    have hdata : (wrap_if_needed (.letter l)).data ++ rest = c :: rest := by
      rw [wif_letter, letter_string_data l hidx, hid]
      rfl
    rw [hdata]
    exact skipWs_cons_nonws c rest (upper_not_ws c hc)
  | negation t =>
    rw [wif_neg, strdata_neg]
    exact skipWs_cons_nonws _ _ (by decide)
  | conjunction l r =>
    rw [wifdata_conj]
    exact skipWs_cons_nonws _ _ (by decide)
  | nand l r =>
    rw [wifdata_nand]
    exact skipWs_cons_nonws _ _ (by decide)
  | disjunction l r => simp [roundtrip_fragment] at hf
  | conditional l r => simp [roundtrip_fragment] at hf
  | biconditional l r => simp [roundtrip_fragment] at hf
  | xor l r => simp [roundtrip_fragment] at hf

theorem skipWs_str (s : Sentence) (hg : good_sentence s = true)
    (hf : roundtrip_fragment s = true) (rest : List Char) :
    skipWs ((sentence_to_string s).data ++ rest) = (sentence_to_string s).data ++ rest := by
  cases s with
  | value v => simp [roundtrip_fragment] at hf
  | letter l => exact skipWs_wif (.letter l) hg hf rest
  | negation t => exact skipWs_wif (.negation t) hg hf rest
  | conjunction l r =>
    have hgl : good_sentence l = true := (Bool.and_eq_true .. ▸ hg).1
    have hfl : roundtrip_fragment l = true := (Bool.and_eq_true .. ▸ hf).1
    rw [strdata_conj]
    exact skipWs_wif l hgl hfl _
  | nand l r =>
    have hgl : good_sentence l = true := (Bool.and_eq_true .. ▸ hg).1
    have hfl : roundtrip_fragment l = true := (Bool.and_eq_true .. ▸ hf).1
    rw [strdata_nand]
    exact skipWs_wif l hgl hfl _
  | disjunction l r => simp [roundtrip_fragment] at hf
  | conditional l r => simp [roundtrip_fragment] at hf
  | biconditional l r => simp [roundtrip_fragment] at hf
  | xor l r => simp [roundtrip_fragment] at hf

theorem pNot_step (d : Nat) (X : List Char) :
    pNot (d + 1) ('~' :: X) =
      (pFactor d (skipWs X)).bind fun p => some (.negation p.1, p.2) := by
  simp [pNot, pString]

theorem pWrappedWith_paren (d2 : Nat) (X : List Char) :
    pWrappedWith (d2 + 1) '(' ')' ('(' :: X) =
      (pSentence d2 (skipWs X)).bind fun p =>
        (pString [')'] (skipWs p.2)).bind fun cs3 => some (p.1, cs3) := by
  simp [pWrappedWith, pString]

theorem factor_fuel_pos (s : Sentence) : 1 ≤ factor_fuel s := by
  cases s <;> simp [factor_fuel]

theorem frag_parsers : ∀ f : Nat,
    (∀ s rest, good_sentence s = true → roundtrip_fragment s = true →
      pFactor f ((wrap_if_needed s).data ++ rest) = none ∨
      pFactor f ((wrap_if_needed s).data ++ rest) = some (s, rest)) ∧
    (∀ l r rest, good_sentence (Sentence.conjunction l r) = true →
      roundtrip_fragment (Sentence.conjunction l r) = true → rest_ok rest →
      pSentence f ((sentence_to_string (Sentence.conjunction l r)).data ++ rest) = none ∨
      pSentence f ((sentence_to_string (Sentence.conjunction l r)).data ++ rest)
        = some (Sentence.conjunction l r, rest) ∨
      pSentence f ((sentence_to_string (Sentence.conjunction l r)).data ++ rest)
        = some (l, ' ' :: '&' :: ' ' :: ((wrap_if_needed r).data ++ rest))) ∧
    (∀ l r rest, good_sentence (Sentence.nand l r) = true →
      roundtrip_fragment (Sentence.nand l r) = true → rest_ok rest →
      pSentence f ((sentence_to_string (Sentence.nand l r)).data ++ rest) = none ∨
      pSentence f ((sentence_to_string (Sentence.nand l r)).data ++ rest)
        = some (Sentence.nand l r, rest) ∨
      pSentence f ((sentence_to_string (Sentence.nand l r)).data ++ rest)
        = some (l, ' ' :: '|' :: ' ' :: ((wrap_if_needed r).data ++ rest))) ∧
    (∀ s rest, good_sentence s = true → roundtrip_fragment s = true →
      factor_fuel s ≤ f →
      pFactor f ((wrap_if_needed s).data ++ rest) = some (s, rest)) ∧
    (∀ s rest, good_sentence s = true → roundtrip_fragment s = true → rest_ok rest →
      sentence_fuel s ≤ f →
      pSentence f ((sentence_to_string s).data ++ rest) = some (s, rest)) := by
  intro f
  induction f using Nat.strong_induction_on with
  | _ f IH =>
  refine ⟨?_, ?_, ?_, ?_, ?_⟩
  · -- Part A: any-fuel pFactor dichotomy
    intro s rest hg hf
    cases f with
    | zero => exact Or.inl rfl
    | succ e =>
      cases s with
      | value v => simp [roundtrip_fragment] at hf
      | disjunction l r => simp [roundtrip_fragment] at hf
      | conditional l r => simp [roundtrip_fragment] at hf
      | biconditional l r => simp [roundtrip_fragment] at hf
      | xor l r => simp [roundtrip_fragment] at hf
      | letter l => exact Or.inr (pFactor_letter e l hg rest)
      | negation t =>
        have hgt : good_sentence t = true := hg
        have hft : roundtrip_fragment t = true := hf
        have hdata : (wrap_if_needed (.negation t)).data ++ rest
            = '~' :: ((wrap_if_needed t).data ++ rest) := by rw [wif_neg, strdata_neg]
        rw [hdata]
        cases e with
        | zero =>
          have hunf : pFactor 1 ('~' :: ((wrap_if_needed t).data ++ rest))
              = pAlt (pNot 0 ('~' :: ((wrap_if_needed t).data ++ rest)))
                  (pAlt (pWrapped 0 ('~' :: ((wrap_if_needed t).data ++ rest)))
                    (pLetter ('~' :: ((wrap_if_needed t).data ++ rest)))) := rfl
          rw [hunf, show pNot 0 ('~' :: ((wrap_if_needed t).data ++ rest)) = none from rfl,
            pAlt_none,
            show pWrapped 0 ('~' :: ((wrap_if_needed t).data ++ rest)) = none from rfl,
            pAlt_none, pLetter_fail '~' _ (by decide)]
          exact Or.inl rfl
        | succ d =>
          have hskip := skipWs_wif t hgt hft rest
          have hstep := pNot_step d ((wrap_if_needed t).data ++ rest)
          rw [hskip] at hstep
          have hunf : pFactor (d + 1 + 1) ('~' :: ((wrap_if_needed t).data ++ rest))
              = pAlt (pNot (d + 1) ('~' :: ((wrap_if_needed t).data ++ rest)))
                  (pAlt (pWrapped (d + 1) ('~' :: ((wrap_if_needed t).data ++ rest)))
                    (pLetter ('~' :: ((wrap_if_needed t).data ++ rest)))) := rfl
          rcases (IH d (by omega)).1 t rest hgt hft with hA | hA
          · rw [hA, Option.none_bind] at hstep
            rw [hunf, hstep, pAlt_none,
              pWrapped_fail (d + 1) '~' _ (by decide) (by decide) (by decide),
              pAlt_none, pLetter_fail '~' _ (by decide)]
            exact Or.inl rfl
          · rw [hA, Option.some_bind] at hstep
            rw [hunf, hstep]
            exact Or.inr (pAlt_some _ _)
      | conjunction l r =>
        rw [wifdata_conj]
        have hnot := pNot_fail e ('(' :: ((sentence_to_string (Sentence.conjunction l r)).data ++ (')' :: rest)))
          (pString_cons_mismatch '~' [] '(' ((sentence_to_string (Sentence.conjunction l r)).data ++ (')' :: rest)) (by decide))
        cases e with
        | zero =>
          have hunf : pFactor 1
              ('(' :: ((sentence_to_string (Sentence.conjunction l r)).data ++ (')' :: rest)))
              = pAlt (pNot 0 ('(' :: ((sentence_to_string (Sentence.conjunction l r)).data ++ (')' :: rest)))) (pAlt (pWrapped 0 ('(' :: ((sentence_to_string (Sentence.conjunction l r)).data ++ (')' :: rest)))) (pLetter ('(' :: ((sentence_to_string (Sentence.conjunction l r)).data ++ (')' :: rest))))) := rfl
          rw [hunf, show (pNot 0 ('(' :: ((sentence_to_string (Sentence.conjunction l r)).data
              ++ (')' :: rest)))) = none from rfl, pAlt_none,
            show (pWrapped 0 ('(' :: ((sentence_to_string (Sentence.conjunction l r)).data
              ++ (')' :: rest)))) = none from rfl,
            pAlt_none, pLetter_fail '(' _ (by decide)]
          exact Or.inl rfl
        | succ d =>
          have hw2 := pWrappedWith_fail d '[' ']'
            ('(' :: ((sentence_to_string (Sentence.conjunction l r)).data ++ (')' :: rest)))
            (pString_cons_mismatch _ _ _ _ (by decide))
          have hw3 := pWrappedWith_fail d '\x7b' '\x7d'
            ('(' :: ((sentence_to_string (Sentence.conjunction l r)).data ++ (')' :: rest)))
            (pString_cons_mismatch _ _ _ _ (by decide))
          have hwunf : pWrapped (d + 1)
              ('(' :: ((sentence_to_string (Sentence.conjunction l r)).data ++ (')' :: rest)))
              = (pAlt (pWrappedWith d '(' ')'
                  ('(' :: ((sentence_to_string (Sentence.conjunction l r)).data
                    ++ (')' :: rest))))
                 (pAlt (pWrappedWith d '[' ']'
                  ('(' :: ((sentence_to_string (Sentence.conjunction l r)).data
                    ++ (')' :: rest))))
                  (pWrappedWith d '\x7b' '\x7d'
                  ('(' :: ((sentence_to_string (Sentence.conjunction l r)).data
                    ++ (')' :: rest)))))).bind wrapAssert := rfl
          have hunf : pFactor (d + 1 + 1)
              ('(' :: ((sentence_to_string (Sentence.conjunction l r)).data ++ (')' :: rest)))
              = pAlt (pNot (d + 1) ('(' :: ((sentence_to_string (Sentence.conjunction l r)).data ++ (')' :: rest)))) (pAlt (pWrapped (d + 1) ('(' :: ((sentence_to_string (Sentence.conjunction l r)).data ++ (')' :: rest)))) (pLetter ('(' :: ((sentence_to_string (Sentence.conjunction l r)).data ++ (')' :: rest))))) := rfl
          cases d with
          | zero =>
            rw [hunf, hnot, pAlt_none, hwunf,
              show (pWrappedWith 0 '(' ')'
                ('(' :: ((sentence_to_string (Sentence.conjunction l r)).data
                  ++ (')' :: rest)))) = none from rfl,
              pAlt_none, hw2, pAlt_none, hw3, Option.none_bind,
              pAlt_none, pLetter_fail '(' _ (by decide)]
            exact Or.inl rfl
          | succ d2 =>
            have hstep := pWrappedWith_paren d2
              ((sentence_to_string (Sentence.conjunction l r)).data ++ (')' :: rest))
            rw [skipWs_str (Sentence.conjunction l r) hg hf (')' :: rest)] at hstep
            rcases (IH d2 (by omega)).2.1 l r (')' :: rest) hg hf
                (Or.inr ⟨rest, rfl⟩) with hB | hB | hB
            · rw [hB, Option.none_bind] at hstep
              rw [hunf, hnot, pAlt_none, hwunf, hstep, pAlt_none, hw2, pAlt_none, hw3,
                Option.none_bind, pAlt_none, pLetter_fail '(' _ (by decide)]
              exact Or.inl rfl
            · rw [hB, Option.some_bind] at hstep
              rw [skipWs_cons_nonws ')' rest (by decide)] at hstep
              have hps : pString [')'] (')' :: rest) = some rest := by simp [pString]
              rw [hps, Option.some_bind] at hstep
              rw [hunf, hnot, pAlt_none, hwunf, hstep, pAlt_some, Option.some_bind,
                show wrapAssert (Sentence.conjunction l r, rest)
                  = some (Sentence.conjunction l r, rest) from rfl]
              exact Or.inr (pAlt_some _ _)
            · rw [hB, Option.some_bind] at hstep
              rw [skipWs_ws_cons _ _ (by decide), skipWs_cons_nonws '&' _ (by decide),
                pString_cons_mismatch ')' [] '&' _ (by decide), Option.none_bind] at hstep
              rw [hunf, hnot, pAlt_none, hwunf, hstep, pAlt_none, hw2, pAlt_none, hw3,
                Option.none_bind, pAlt_none, pLetter_fail '(' _ (by decide)]
              exact Or.inl rfl
      | nand l r =>
        rw [wifdata_nand]
        have hnot := pNot_fail e ('(' :: ((sentence_to_string (Sentence.nand l r)).data ++ (')' :: rest)))
          (pString_cons_mismatch '~' [] '(' ((sentence_to_string (Sentence.nand l r)).data ++ (')' :: rest)) (by decide))
        cases e with
        | zero =>
          have hunf : pFactor 1
              ('(' :: ((sentence_to_string (Sentence.nand l r)).data ++ (')' :: rest)))
              = pAlt (pNot 0 ('(' :: ((sentence_to_string (Sentence.nand l r)).data ++ (')' :: rest)))) (pAlt (pWrapped 0 ('(' :: ((sentence_to_string (Sentence.nand l r)).data ++ (')' :: rest)))) (pLetter ('(' :: ((sentence_to_string (Sentence.nand l r)).data ++ (')' :: rest))))) := rfl
          rw [hunf, show (pNot 0 ('(' :: ((sentence_to_string (Sentence.nand l r)).data
              ++ (')' :: rest)))) = none from rfl, pAlt_none,
            show (pWrapped 0 ('(' :: ((sentence_to_string (Sentence.nand l r)).data
              ++ (')' :: rest)))) = none from rfl,
            pAlt_none, pLetter_fail '(' _ (by decide)]
          exact Or.inl rfl
        | succ d =>
          have hw2 := pWrappedWith_fail d '[' ']'
            ('(' :: ((sentence_to_string (Sentence.nand l r)).data ++ (')' :: rest)))
            (pString_cons_mismatch _ _ _ _ (by decide))
          have hw3 := pWrappedWith_fail d '\x7b' '\x7d'
            ('(' :: ((sentence_to_string (Sentence.nand l r)).data ++ (')' :: rest)))
            (pString_cons_mismatch _ _ _ _ (by decide))
          have hwunf : pWrapped (d + 1)
              ('(' :: ((sentence_to_string (Sentence.nand l r)).data ++ (')' :: rest)))
              = (pAlt (pWrappedWith d '(' ')'
                  ('(' :: ((sentence_to_string (Sentence.nand l r)).data
                    ++ (')' :: rest))))
                 (pAlt (pWrappedWith d '[' ']'
                  ('(' :: ((sentence_to_string (Sentence.nand l r)).data
                    ++ (')' :: rest))))
                  (pWrappedWith d '\x7b' '\x7d'
                  ('(' :: ((sentence_to_string (Sentence.nand l r)).data
                    ++ (')' :: rest)))))).bind wrapAssert := rfl
          have hunf : pFactor (d + 1 + 1)
              ('(' :: ((sentence_to_string (Sentence.nand l r)).data ++ (')' :: rest)))
              = pAlt (pNot (d + 1) ('(' :: ((sentence_to_string (Sentence.nand l r)).data ++ (')' :: rest)))) (pAlt (pWrapped (d + 1) ('(' :: ((sentence_to_string (Sentence.nand l r)).data ++ (')' :: rest)))) (pLetter ('(' :: ((sentence_to_string (Sentence.nand l r)).data ++ (')' :: rest))))) := rfl
          cases d with
          | zero =>
            rw [hunf, hnot, pAlt_none, hwunf,
              show (pWrappedWith 0 '(' ')'
                ('(' :: ((sentence_to_string (Sentence.nand l r)).data
                  ++ (')' :: rest)))) = none from rfl,
              pAlt_none, hw2, pAlt_none, hw3, Option.none_bind,
              pAlt_none, pLetter_fail '(' _ (by decide)]
            exact Or.inl rfl
          | succ d2 =>
            have hstep := pWrappedWith_paren d2
              ((sentence_to_string (Sentence.nand l r)).data ++ (')' :: rest))
            rw [skipWs_str (Sentence.nand l r) hg hf (')' :: rest)] at hstep
            rcases (IH d2 (by omega)).2.2.1 l r (')' :: rest) hg hf
                (Or.inr ⟨rest, rfl⟩) with hB | hB | hB
            · rw [hB, Option.none_bind] at hstep
              rw [hunf, hnot, pAlt_none, hwunf, hstep, pAlt_none, hw2, pAlt_none, hw3,
                Option.none_bind, pAlt_none, pLetter_fail '(' _ (by decide)]
              exact Or.inl rfl
            · rw [hB, Option.some_bind] at hstep
              rw [skipWs_cons_nonws ')' rest (by decide)] at hstep
              have hps : pString [')'] (')' :: rest) = some rest := by simp [pString]
              rw [hps, Option.some_bind] at hstep
              rw [hunf, hnot, pAlt_none, hwunf, hstep, pAlt_some, Option.some_bind,
                show wrapAssert (Sentence.nand l r, rest)
                  = some (Sentence.nand l r, rest) from rfl]
              exact Or.inr (pAlt_some _ _)
            · rw [hB, Option.some_bind] at hstep
              rw [skipWs_ws_cons _ _ (by decide), skipWs_cons_nonws '|' _ (by decide),
                pString_cons_mismatch ')' [] '|' _ (by decide), Option.none_bind] at hstep
              rw [hunf, hnot, pAlt_none, hwunf, hstep, pAlt_none, hw2, pAlt_none, hw3,
                Option.none_bind, pAlt_none, pLetter_fail '(' _ (by decide)]
              exact Or.inl rfl
  · -- Part Bc: any-fuel pSentence on a conjunction rendering
    intro l r rest hg hf hr
    cases f with
    | zero => exact Or.inl rfl
    | succ m =>
      have hgl : good_sentence l = true := (Bool.and_eq_true .. ▸ hg).1
      have hgr : good_sentence r = true := (Bool.and_eq_true .. ▸ hg).2
      have hfl : roundtrip_fragment l = true := (Bool.and_eq_true .. ▸ hf).1
      have hfr : roundtrip_fragment r = true := (Bool.and_eq_true .. ▸ hf).2
      rw [strdata_conj]
      set X := (wrap_if_needed r).data ++ rest with hX
      set CS := (wrap_if_needed l).data ++ (' ' :: '&' :: ' ' :: X) with hCS
      have hfacget : ∀ e, e < m + 1 → ∀ p, pFactor e CS = some p →
          p = (l, ' ' :: '&' :: ' ' :: X) := by
        intro e he p hp
        rcases (IH e he).1 l (' ' :: '&' :: ' ' :: X) hgl hfl with h0 | h0
        · rw [h0] at hp
          exact absurd hp (by simp)
        · rw [h0] at hp
          exact (Option.some_inj.mp hp).symm
      have b1 := pBinary_fail_any m '<' ['-', '>'] Sentence.biconditional CS
        (fun e p he hp => by
          obtain rfl := hfacget e (by omega) p hp
          exact pString_septail '<' ['-', '>'] '&' X (by decide) (by decide))
      have b2 := pBinary_fail_any m '-' ['>'] Sentence.conditional CS
        (fun e p he hp => by
          obtain rfl := hfacget e (by omega) p hp
          exact pString_septail '-' ['>'] '&' X (by decide) (by decide))
      have b3 := pBinary_fail_any m 'v' [] Sentence.disjunction CS
        (fun e p he hp => by
          obtain rfl := hfacget e (by omega) p hp
          exact pString_septail 'v' [] '&' X (by decide) (by decide))
      have b5 := pBinary_fail_any m '+' [] Sentence.xor CS
        (fun e p he hp => by
          obtain rfl := hfacget e (by omega) p hp
          exact pString_septail '+' [] '&' X (by decide) (by decide))
      have b6 := pBinary_fail_any m '|' [] Sentence.nand CS
        (fun e p he hp => by
          obtain rfl := hfacget e (by omega) p hp
          exact pString_septail '|' [] '&' X (by decide) (by decide))
      have hunf : pSentence (m + 1) CS
          = pAlt (pBinary m ['<', '-', '>'] Sentence.biconditional CS)
              (pAlt (pBinary m ['-', '>'] Sentence.conditional CS)
                (pAlt (pBinary m ['v'] Sentence.disjunction CS)
                  (pAlt (pBinary m ['&'] Sentence.conjunction CS)
                    (pAlt (pBinary m ['+'] Sentence.xor CS)
                      (pAlt (pBinary m ['|'] Sentence.nand CS)
                        (pFactor m CS)))))) := rfl
      rcases pBinary_match_any m '&' Sentence.conjunction CS X rest l r
          (by decide) (by decide) hr (skipWs_wif r hgr hfr rest)
          (fun e he => (IH e (by omega)).1 l (' ' :: '&' :: ' ' :: X) hgl hfl)
          (fun d hd => (IH d (by omega)).1 r rest hgr hfr) with h4 | h4
      · rcases (IH m (by omega)).1 l (' ' :: '&' :: ' ' :: X) hgl hfl with hA | hA
        · refine Or.inl ?_
          rw [hunf, b1, pAlt_none, b2, pAlt_none, b3, pAlt_none, h4, pAlt_none,
            b5, pAlt_none, b6, pAlt_none, hA]
        · refine Or.inr (Or.inr ?_)
          rw [hunf, b1, pAlt_none, b2, pAlt_none, b3, pAlt_none, h4, pAlt_none,
            b5, pAlt_none, b6, pAlt_none, hA]
      · refine Or.inr (Or.inl ?_)
        rw [hunf, b1, pAlt_none, b2, pAlt_none, b3, pAlt_none, h4]
        exact pAlt_some _ _
  · -- Part Bn: any-fuel pSentence on a nand rendering
    intro l r rest hg hf hr
    cases f with
    | zero => exact Or.inl rfl
    | succ m =>
      have hgl : good_sentence l = true := (Bool.and_eq_true .. ▸ hg).1
      have hgr : good_sentence r = true := (Bool.and_eq_true .. ▸ hg).2
      have hfl : roundtrip_fragment l = true := (Bool.and_eq_true .. ▸ hf).1
      have hfr : roundtrip_fragment r = true := (Bool.and_eq_true .. ▸ hf).2
      rw [strdata_nand]
      set X := (wrap_if_needed r).data ++ rest with hX
      set CS := (wrap_if_needed l).data ++ (' ' :: '|' :: ' ' :: X) with hCS
      have hfacget : ∀ e, e < m + 1 → ∀ p, pFactor e CS = some p →
          p = (l, ' ' :: '|' :: ' ' :: X) := by
        intro e he p hp
        rcases (IH e he).1 l (' ' :: '|' :: ' ' :: X) hgl hfl with h0 | h0
        · rw [h0] at hp
          exact absurd hp (by simp)
        · rw [h0] at hp
          exact (Option.some_inj.mp hp).symm
      have b1 := pBinary_fail_any m '<' ['-', '>'] Sentence.biconditional CS
        (fun e p he hp => by
          obtain rfl := hfacget e (by omega) p hp
          exact pString_septail '<' ['-', '>'] '|' X (by decide) (by decide))
      have b2 := pBinary_fail_any m '-' ['>'] Sentence.conditional CS
        (fun e p he hp => by
          obtain rfl := hfacget e (by omega) p hp
          exact pString_septail '-' ['>'] '|' X (by decide) (by decide))
      have b3 := pBinary_fail_any m 'v' [] Sentence.disjunction CS
        (fun e p he hp => by
          obtain rfl := hfacget e (by omega) p hp
          exact pString_septail 'v' [] '|' X (by decide) (by decide))
      have b4 := pBinary_fail_any m '&' [] Sentence.conjunction CS
        (fun e p he hp => by
          obtain rfl := hfacget e (by omega) p hp
          exact pString_septail '&' [] '|' X (by decide) (by decide))
      have b5 := pBinary_fail_any m '+' [] Sentence.xor CS
        (fun e p he hp => by
          obtain rfl := hfacget e (by omega) p hp
          exact pString_septail '+' [] '|' X (by decide) (by decide))
      have hunf : pSentence (m + 1) CS
          = pAlt (pBinary m ['<', '-', '>'] Sentence.biconditional CS)
              (pAlt (pBinary m ['-', '>'] Sentence.conditional CS)
                (pAlt (pBinary m ['v'] Sentence.disjunction CS)
                  (pAlt (pBinary m ['&'] Sentence.conjunction CS)
                    (pAlt (pBinary m ['+'] Sentence.xor CS)
                      (pAlt (pBinary m ['|'] Sentence.nand CS)
                        (pFactor m CS)))))) := rfl
      rcases pBinary_match_any m '|' Sentence.nand CS X rest l r
          (by decide) (by decide) hr (skipWs_wif r hgr hfr rest)
          (fun e he => (IH e (by omega)).1 l (' ' :: '|' :: ' ' :: X) hgl hfl)
          (fun d hd => (IH d (by omega)).1 r rest hgr hfr) with h6 | h6
      · rcases (IH m (by omega)).1 l (' ' :: '|' :: ' ' :: X) hgl hfl with hA | hA
        · refine Or.inl ?_
          rw [hunf, b1, pAlt_none, b2, pAlt_none, b3, pAlt_none, b4, pAlt_none,
            b5, pAlt_none, h6, pAlt_none, hA]
        · refine Or.inr (Or.inr ?_)
          rw [hunf, b1, pAlt_none, b2, pAlt_none, b3, pAlt_none, b4, pAlt_none,
            b5, pAlt_none, h6, pAlt_none, hA]
      · refine Or.inr (Or.inl ?_)
        rw [hunf, b1, pAlt_none, b2, pAlt_none, b3, pAlt_none, b4, pAlt_none,
          b5, pAlt_none, h6]
        exact pAlt_some _ _
  · -- Part C: pFactor succeeds at sufficient fuel
    intro s rest hg hf hfuel
    cases s with
    | value v => simp [roundtrip_fragment] at hf
    | disjunction l r => simp [roundtrip_fragment] at hf
    | conditional l r => simp [roundtrip_fragment] at hf
    | biconditional l r => simp [roundtrip_fragment] at hf
    | xor l r => simp [roundtrip_fragment] at hf
    | letter l =>
      obtain ⟨e, rfl⟩ : ∃ e, f = e + 1 := ⟨f - 1, by simp [factor_fuel] at hfuel; omega⟩
      exact pFactor_letter e l hg rest
    | negation t =>
      have hgt : good_sentence t = true := hg
      have hft : roundtrip_fragment t = true := hf
      have hfuel2 : factor_fuel t + 2 ≤ f := by simpa [factor_fuel] using hfuel
      obtain ⟨d, rfl⟩ : ∃ d, f = d + 2 := ⟨f - 2, by omega⟩
      have hdata : (wrap_if_needed (.negation t)).data ++ rest
          = '~' :: ((wrap_if_needed t).data ++ rest) := by rw [wif_neg, strdata_neg]
      rw [hdata]
      have hstep := pNot_step d ((wrap_if_needed t).data ++ rest)
      rw [skipWs_wif t hgt hft rest,
        (IH d (by omega)).2.2.2.1 t rest hgt hft (by omega), Option.some_bind] at hstep
      have hunf : pFactor (d + 2) ('~' :: ((wrap_if_needed t).data ++ rest))
          = pAlt (pNot (d + 1) ('~' :: ((wrap_if_needed t).data ++ rest)))
              (pAlt (pWrapped (d + 1) ('~' :: ((wrap_if_needed t).data ++ rest)))
                (pLetter ('~' :: ((wrap_if_needed t).data ++ rest)))) := rfl
      rw [hunf, hstep]
      exact pAlt_some _ _
    | conjunction l r =>
      have hfuel2 : max (factor_fuel l) (factor_fuel r + 1) + 6 ≤ f := by
        simpa [factor_fuel] using hfuel
      obtain ⟨d2, rfl⟩ : ∃ d2, f = d2 + 3 := ⟨f - 3, by omega⟩
      rw [wifdata_conj]
      have hnot := pNot_fail (d2 + 2)
        ('(' :: ((sentence_to_string (Sentence.conjunction l r)).data ++ (')' :: rest)))
        (pString_cons_mismatch '~' [] '('
          ((sentence_to_string (Sentence.conjunction l r)).data ++ (')' :: rest)) (by decide))
      have hw2 := pWrappedWith_fail (d2 + 1) '[' ']'
        ('(' :: ((sentence_to_string (Sentence.conjunction l r)).data ++ (')' :: rest)))
        (pString_cons_mismatch _ _ _ _ (by decide))
      have hw3 := pWrappedWith_fail (d2 + 1) '\x7b' '\x7d'
        ('(' :: ((sentence_to_string (Sentence.conjunction l r)).data ++ (')' :: rest)))
        (pString_cons_mismatch _ _ _ _ (by decide))
      have hstep := pWrappedWith_paren d2
        ((sentence_to_string (Sentence.conjunction l r)).data ++ (')' :: rest))
      rw [skipWs_str (Sentence.conjunction l r) hg hf (')' :: rest)] at hstep
      have hD := (IH d2 (by omega)).2.2.2.2 (Sentence.conjunction l r) (')' :: rest) hg hf
        (Or.inr ⟨rest, rfl⟩) (by simp only [sentence_fuel]; omega)
      rw [hD, Option.some_bind, skipWs_cons_nonws ')' rest (by decide),
        show pString [')'] (')' :: rest) = some rest from by simp [pString],
        Option.some_bind] at hstep
      have hwunf : pWrapped (d2 + 2)
          ('(' :: ((sentence_to_string (Sentence.conjunction l r)).data ++ (')' :: rest)))
          = (pAlt (pWrappedWith (d2 + 1) '(' ')'
              ('(' :: ((sentence_to_string (Sentence.conjunction l r)).data
                ++ (')' :: rest))))
             (pAlt (pWrappedWith (d2 + 1) '[' ']'
              ('(' :: ((sentence_to_string (Sentence.conjunction l r)).data
                ++ (')' :: rest))))
              (pWrappedWith (d2 + 1) '\x7b' '\x7d'
              ('(' :: ((sentence_to_string (Sentence.conjunction l r)).data
                ++ (')' :: rest)))))).bind wrapAssert := rfl
      have hunf : pFactor (d2 + 3)
          ('(' :: ((sentence_to_string (Sentence.conjunction l r)).data ++ (')' :: rest)))
          = pAlt (pNot (d2 + 2)
              ('(' :: ((sentence_to_string (Sentence.conjunction l r)).data
                ++ (')' :: rest))))
              (pAlt (pWrapped (d2 + 2)
                ('(' :: ((sentence_to_string (Sentence.conjunction l r)).data
                  ++ (')' :: rest))))
                (pLetter ('(' :: ((sentence_to_string (Sentence.conjunction l r)).data
                  ++ (')' :: rest))))) := rfl
      rw [hunf, hnot, pAlt_none, hwunf, hstep, pAlt_some, Option.some_bind,
        show wrapAssert (Sentence.conjunction l r, rest)
          = some (Sentence.conjunction l r, rest) from rfl]
      exact pAlt_some _ _
    | nand l r =>
      have hfuel2 : max (factor_fuel l) (factor_fuel r + 1) + 6 ≤ f := by
        simpa [factor_fuel] using hfuel
      obtain ⟨d2, rfl⟩ : ∃ d2, f = d2 + 3 := ⟨f - 3, by omega⟩
      rw [wifdata_nand]
      have hnot := pNot_fail (d2 + 2)
        ('(' :: ((sentence_to_string (Sentence.nand l r)).data ++ (')' :: rest)))
        (pString_cons_mismatch '~' [] '('
          ((sentence_to_string (Sentence.nand l r)).data ++ (')' :: rest)) (by decide))
      have hw2 := pWrappedWith_fail (d2 + 1) '[' ']'
        ('(' :: ((sentence_to_string (Sentence.nand l r)).data ++ (')' :: rest)))
        (pString_cons_mismatch _ _ _ _ (by decide))
      have hw3 := pWrappedWith_fail (d2 + 1) '\x7b' '\x7d'
        ('(' :: ((sentence_to_string (Sentence.nand l r)).data ++ (')' :: rest)))
        (pString_cons_mismatch _ _ _ _ (by decide))
      have hstep := pWrappedWith_paren d2
        ((sentence_to_string (Sentence.nand l r)).data ++ (')' :: rest))
      rw [skipWs_str (Sentence.nand l r) hg hf (')' :: rest)] at hstep
      have hD := (IH d2 (by omega)).2.2.2.2 (Sentence.nand l r) (')' :: rest) hg hf
        (Or.inr ⟨rest, rfl⟩) (by simp only [sentence_fuel]; omega)
      rw [hD, Option.some_bind, skipWs_cons_nonws ')' rest (by decide),
        show pString [')'] (')' :: rest) = some rest from by simp [pString],
        Option.some_bind] at hstep
      have hwunf : pWrapped (d2 + 2)
          ('(' :: ((sentence_to_string (Sentence.nand l r)).data ++ (')' :: rest)))
          = (pAlt (pWrappedWith (d2 + 1) '(' ')'
              ('(' :: ((sentence_to_string (Sentence.nand l r)).data
                ++ (')' :: rest))))
             (pAlt (pWrappedWith (d2 + 1) '[' ']'
              ('(' :: ((sentence_to_string (Sentence.nand l r)).data
                ++ (')' :: rest))))
              (pWrappedWith (d2 + 1) '\x7b' '\x7d'
              ('(' :: ((sentence_to_string (Sentence.nand l r)).data
                ++ (')' :: rest)))))).bind wrapAssert := rfl
      have hunf : pFactor (d2 + 3)
          ('(' :: ((sentence_to_string (Sentence.nand l r)).data ++ (')' :: rest)))
          = pAlt (pNot (d2 + 2)
              ('(' :: ((sentence_to_string (Sentence.nand l r)).data
                ++ (')' :: rest))))
              (pAlt (pWrapped (d2 + 2)
                ('(' :: ((sentence_to_string (Sentence.nand l r)).data
                  ++ (')' :: rest))))
                (pLetter ('(' :: ((sentence_to_string (Sentence.nand l r)).data
                  ++ (')' :: rest))))) := rfl
      rw [hunf, hnot, pAlt_none, hwunf, hstep, pAlt_some, Option.some_bind,
        show wrapAssert (Sentence.nand l r, rest)
          = some (Sentence.nand l r, rest) from rfl]
      exact pAlt_some _ _
  · -- Part D: pSentence succeeds at sufficient fuel
    intro s rest hg hf hr hfuel
    cases s with
    | value v => simp [roundtrip_fragment] at hf
    | disjunction l r => simp [roundtrip_fragment] at hf
    | conditional l r => simp [roundtrip_fragment] at hf
    | biconditional l r => simp [roundtrip_fragment] at hf
    | xor l r => simp [roundtrip_fragment] at hf
    | letter l =>
      have hfuel2 : factor_fuel (Sentence.letter l) + 3 ≤ f := by
        simpa [sentence_fuel] using hfuel
      have hpos := factor_fuel_pos (Sentence.letter l)
      obtain ⟨m, rfl⟩ : ∃ m, f = m + 1 := ⟨f - 1, by omega⟩
      rw [show sentence_to_string (Sentence.letter l) = wrap_if_needed (Sentence.letter l)
        from rfl]
      set CS := (wrap_if_needed (Sentence.letter l)).data ++ rest with hCS
      have hfacget : ∀ e, e < m + 1 → ∀ p, pFactor e CS = some p →
          p = (Sentence.letter l, rest) := by
        intro e he p hp
        rcases (IH e he).1 (Sentence.letter l) rest hg hf with h0 | h0
        · rw [h0] at hp
          exact absurd hp (by simp)
        · rw [h0] at hp
          exact (Option.some_inj.mp hp).symm
      have b1 := pBinary_fail_any m '<' ['-', '>'] Sentence.biconditional CS
        (fun e p he hp => by
          obtain rfl := hfacget e (by omega) p hp
          exact pString_restok '<' ['-', '>'] rest (by decide) hr)
      have b2 := pBinary_fail_any m '-' ['>'] Sentence.conditional CS
        (fun e p he hp => by
          obtain rfl := hfacget e (by omega) p hp
          exact pString_restok '-' ['>'] rest (by decide) hr)
      have b3 := pBinary_fail_any m 'v' [] Sentence.disjunction CS
        (fun e p he hp => by
          obtain rfl := hfacget e (by omega) p hp
          exact pString_restok 'v' [] rest (by decide) hr)
      have b4 := pBinary_fail_any m '&' [] Sentence.conjunction CS
        (fun e p he hp => by
          obtain rfl := hfacget e (by omega) p hp
          exact pString_restok '&' [] rest (by decide) hr)
      have b5 := pBinary_fail_any m '+' [] Sentence.xor CS
        (fun e p he hp => by
          obtain rfl := hfacget e (by omega) p hp
          exact pString_restok '+' [] rest (by decide) hr)
      have b6 := pBinary_fail_any m '|' [] Sentence.nand CS
        (fun e p he hp => by
          obtain rfl := hfacget e (by omega) p hp
          exact pString_restok '|' [] rest (by decide) hr)
      have hC := (IH m (by omega)).2.2.2.1 (Sentence.letter l) rest hg hf (by omega)
      have hunf : pSentence (m + 1) CS
          = pAlt (pBinary m ['<', '-', '>'] Sentence.biconditional CS)
              (pAlt (pBinary m ['-', '>'] Sentence.conditional CS)
                (pAlt (pBinary m ['v'] Sentence.disjunction CS)
                  (pAlt (pBinary m ['&'] Sentence.conjunction CS)
                    (pAlt (pBinary m ['+'] Sentence.xor CS)
                      (pAlt (pBinary m ['|'] Sentence.nand CS)
                        (pFactor m CS)))))) := rfl
      rw [hunf, b1, pAlt_none, b2, pAlt_none, b3, pAlt_none, b4, pAlt_none,
        b5, pAlt_none, b6, pAlt_none, hC]
    | negation t =>
      have hfuel2 : factor_fuel (Sentence.negation t) + 3 ≤ f := by
        simpa [sentence_fuel] using hfuel
      have hpos := factor_fuel_pos (Sentence.negation t)
      obtain ⟨m, rfl⟩ : ∃ m, f = m + 1 := ⟨f - 1, by omega⟩
      rw [show sentence_to_string (Sentence.negation t) = wrap_if_needed (Sentence.negation t)
        from rfl]
      set CS := (wrap_if_needed (Sentence.negation t)).data ++ rest with hCS
      have hfacget : ∀ e, e < m + 1 → ∀ p, pFactor e CS = some p →
          p = (Sentence.negation t, rest) := by
        intro e he p hp
        rcases (IH e he).1 (Sentence.negation t) rest hg hf with h0 | h0
        · rw [h0] at hp
          exact absurd hp (by simp)
        · rw [h0] at hp
          exact (Option.some_inj.mp hp).symm
      have b1 := pBinary_fail_any m '<' ['-', '>'] Sentence.biconditional CS
        (fun e p he hp => by
          obtain rfl := hfacget e (by omega) p hp
          exact pString_restok '<' ['-', '>'] rest (by decide) hr)
      have b2 := pBinary_fail_any m '-' ['>'] Sentence.conditional CS
        (fun e p he hp => by
          obtain rfl := hfacget e (by omega) p hp
          exact pString_restok '-' ['>'] rest (by decide) hr)
      have b3 := pBinary_fail_any m 'v' [] Sentence.disjunction CS
        (fun e p he hp => by
          obtain rfl := hfacget e (by omega) p hp
          exact pString_restok 'v' [] rest (by decide) hr)
      have b4 := pBinary_fail_any m '&' [] Sentence.conjunction CS
        (fun e p he hp => by
          obtain rfl := hfacget e (by omega) p hp
          exact pString_restok '&' [] rest (by decide) hr)
      have b5 := pBinary_fail_any m '+' [] Sentence.xor CS
        (fun e p he hp => by
          obtain rfl := hfacget e (by omega) p hp
          exact pString_restok '+' [] rest (by decide) hr)
      have b6 := pBinary_fail_any m '|' [] Sentence.nand CS
        (fun e p he hp => by
          obtain rfl := hfacget e (by omega) p hp
          exact pString_restok '|' [] rest (by decide) hr)
      have hC := (IH m (by omega)).2.2.2.1 (Sentence.negation t) rest hg hf (by omega)
      have hunf : pSentence (m + 1) CS
          = pAlt (pBinary m ['<', '-', '>'] Sentence.biconditional CS)
              (pAlt (pBinary m ['-', '>'] Sentence.conditional CS)
                (pAlt (pBinary m ['v'] Sentence.disjunction CS)
                  (pAlt (pBinary m ['&'] Sentence.conjunction CS)
                    (pAlt (pBinary m ['+'] Sentence.xor CS)
                      (pAlt (pBinary m ['|'] Sentence.nand CS)
                        (pFactor m CS)))))) := rfl
      rw [hunf, b1, pAlt_none, b2, pAlt_none, b3, pAlt_none, b4, pAlt_none,
        b5, pAlt_none, b6, pAlt_none, hC]
    | conjunction l r =>
      have hgl : good_sentence l = true := (Bool.and_eq_true .. ▸ hg).1
      have hgr : good_sentence r = true := (Bool.and_eq_true .. ▸ hg).2
      have hfl : roundtrip_fragment l = true := (Bool.and_eq_true .. ▸ hf).1
      have hfr : roundtrip_fragment r = true := (Bool.and_eq_true .. ▸ hf).2
      have hfuel2 : max (factor_fuel l) (factor_fuel r + 1) + 3 ≤ f := by
        simpa [sentence_fuel] using hfuel
      have hal : factor_fuel l ≤ max (factor_fuel l) (factor_fuel r + 1) := le_max_left _ _
      have har : factor_fuel r + 1 ≤ max (factor_fuel l) (factor_fuel r + 1) :=
        le_max_right _ _
      have hposr := factor_fuel_pos r
      obtain ⟨d, rfl⟩ : ∃ d, f = d + 5 := ⟨f - 5, by omega⟩
      rw [strdata_conj]
      set X := (wrap_if_needed r).data ++ rest with hX
      set CS := (wrap_if_needed l).data ++ (' ' :: '&' :: ' ' :: X) with hCS
      have hfacget : ∀ e, e < d + 5 → ∀ p, pFactor e CS = some p →
          p = (l, ' ' :: '&' :: ' ' :: X) := by
        intro e he p hp
        rcases (IH e he).1 l (' ' :: '&' :: ' ' :: X) hgl hfl with h0 | h0
        · rw [h0] at hp
          exact absurd hp (by simp)
        · rw [h0] at hp
          exact (Option.some_inj.mp hp).symm
      have b1 := pBinary_fail_any (d + 4) '<' ['-', '>'] Sentence.biconditional CS
        (fun e p he hp => by
          obtain rfl := hfacget e (by omega) p hp
          exact pString_septail '<' ['-', '>'] '&' X (by decide) (by decide))
      have b2 := pBinary_fail_any (d + 4) '-' ['>'] Sentence.conditional CS
        (fun e p he hp => by
          obtain rfl := hfacget e (by omega) p hp
          exact pString_septail '-' ['>'] '&' X (by decide) (by decide))
      have b3 := pBinary_fail_any (d + 4) 'v' [] Sentence.disjunction CS
        (fun e p he hp => by
          obtain rfl := hfacget e (by omega) p hp
          exact pString_septail 'v' [] '&' X (by decide) (by decide))
      have hfacL : pFactor (d + 2) CS = some (l, ' ' :: '&' :: ' ' :: X) :=
        (IH (d + 2) (by omega)).2.2.2.1 l (' ' :: '&' :: ' ' :: X) hgl hfl (by omega)
      have hfacR : pFactor (d + 1) X = some (r, rest) :=
        (IH (d + 1) (by omega)).2.2.2.1 r rest hgr hfr (by omega)
      have b4 := pBinary_match_ok d '&' Sentence.conjunction CS X rest l r
        (by decide) (by decide) hr (skipWs_wif r hgr hfr rest) hfacL hfacR
      have hunf : pSentence (d + 5) CS
          = pAlt (pBinary (d + 4) ['<', '-', '>'] Sentence.biconditional CS)
              (pAlt (pBinary (d + 4) ['-', '>'] Sentence.conditional CS)
                (pAlt (pBinary (d + 4) ['v'] Sentence.disjunction CS)
                  (pAlt (pBinary (d + 4) ['&'] Sentence.conjunction CS)
                    (pAlt (pBinary (d + 4) ['+'] Sentence.xor CS)
                      (pAlt (pBinary (d + 4) ['|'] Sentence.nand CS)
                        (pFactor (d + 4) CS)))))) := rfl
      rw [hunf, b1, pAlt_none, b2, pAlt_none, b3, pAlt_none, b4]
      exact pAlt_some _ _
    | nand l r =>
      have hgl : good_sentence l = true := (Bool.and_eq_true .. ▸ hg).1
      have hgr : good_sentence r = true := (Bool.and_eq_true .. ▸ hg).2
      have hfl : roundtrip_fragment l = true := (Bool.and_eq_true .. ▸ hf).1
      have hfr : roundtrip_fragment r = true := (Bool.and_eq_true .. ▸ hf).2
      have hfuel2 : max (factor_fuel l) (factor_fuel r + 1) + 3 ≤ f := by
        simpa [sentence_fuel] using hfuel
      have hal : factor_fuel l ≤ max (factor_fuel l) (factor_fuel r + 1) := le_max_left _ _
      have har : factor_fuel r + 1 ≤ max (factor_fuel l) (factor_fuel r + 1) :=
        le_max_right _ _
      have hposr := factor_fuel_pos r
      obtain ⟨d, rfl⟩ : ∃ d, f = d + 5 := ⟨f - 5, by omega⟩
      rw [strdata_nand]
      set X := (wrap_if_needed r).data ++ rest with hX
      set CS := (wrap_if_needed l).data ++ (' ' :: '|' :: ' ' :: X) with hCS
      have hfacget : ∀ e, e < d + 5 → ∀ p, pFactor e CS = some p →
          p = (l, ' ' :: '|' :: ' ' :: X) := by
        intro e he p hp
        rcases (IH e he).1 l (' ' :: '|' :: ' ' :: X) hgl hfl with h0 | h0
        · rw [h0] at hp
          exact absurd hp (by simp)
        · rw [h0] at hp
          exact (Option.some_inj.mp hp).symm
      have b1 := pBinary_fail_any (d + 4) '<' ['-', '>'] Sentence.biconditional CS
        (fun e p he hp => by
          obtain rfl := hfacget e (by omega) p hp
          exact pString_septail '<' ['-', '>'] '|' X (by decide) (by decide))
      have b2 := pBinary_fail_any (d + 4) '-' ['>'] Sentence.conditional CS
        (fun e p he hp => by
          obtain rfl := hfacget e (by omega) p hp
          exact pString_septail '-' ['>'] '|' X (by decide) (by decide))
      have b3 := pBinary_fail_any (d + 4) 'v' [] Sentence.disjunction CS
        (fun e p he hp => by
          obtain rfl := hfacget e (by omega) p hp
          exact pString_septail 'v' [] '|' X (by decide) (by decide))
      have b4 := pBinary_fail_any (d + 4) '&' [] Sentence.conjunction CS
        (fun e p he hp => by
          obtain rfl := hfacget e (by omega) p hp
          exact pString_septail '&' [] '|' X (by decide) (by decide))
      have b5 := pBinary_fail_any (d + 4) '+' [] Sentence.xor CS
        (fun e p he hp => by
          obtain rfl := hfacget e (by omega) p hp
          exact pString_septail '+' [] '|' X (by decide) (by decide))
      have hfacL : pFactor (d + 2) CS = some (l, ' ' :: '|' :: ' ' :: X) :=
        (IH (d + 2) (by omega)).2.2.2.1 l (' ' :: '|' :: ' ' :: X) hgl hfl (by omega)
      have hfacR : pFactor (d + 1) X = some (r, rest) :=
        (IH (d + 1) (by omega)).2.2.2.1 r rest hgr hfr (by omega)
      have b6 := pBinary_match_ok d '|' Sentence.nand CS X rest l r
        (by decide) (by decide) hr (skipWs_wif r hgr hfr rest) hfacL hfacR
      have hunf : pSentence (d + 5) CS
          = pAlt (pBinary (d + 4) ['<', '-', '>'] Sentence.biconditional CS)
              (pAlt (pBinary (d + 4) ['-', '>'] Sentence.conditional CS)
                (pAlt (pBinary (d + 4) ['v'] Sentence.disjunction CS)
                  (pAlt (pBinary (d + 4) ['&'] Sentence.conjunction CS)
                    (pAlt (pBinary (d + 4) ['+'] Sentence.xor CS)
                      (pAlt (pBinary (d + 4) ['|'] Sentence.nand CS)
                        (pFactor (d + 4) CS)))))) := rfl
      rw [hunf, b1, pAlt_none, b2, pAlt_none, b3, pAlt_none, b4, pAlt_none,
        b5, pAlt_none, b6]
      exact pAlt_some _ _

theorem wif_last : ∀ s : Sentence, good_sentence s = true → roundtrip_fragment s = true →
    ∃ c cs, ((wrap_if_needed s).data).reverse = c :: cs ∧ is_ws c = false := by
  intro s
  induction s with
  | value v => intro hg hf; simp [roundtrip_fragment] at hf
  | disjunction l r ihl ihr => intro hg hf; simp [roundtrip_fragment] at hf
  | conditional l r ihl ihr => intro hg hf; simp [roundtrip_fragment] at hf
  | biconditional l r ihl ihr => intro hg hf; simp [roundtrip_fragment] at hf
  | xor l r ihl ihr => intro hg hf; simp [roundtrip_fragment] at hf
  | letter l =>
    intro hg hf
    obtain ⟨c, hid, hc, hidx⟩ := good_letter_spec l hg
    refine ⟨c, [], ?_, upper_not_ws c hc⟩
    rw [wif_letter, letter_string_data l hidx, hid]
    rfl
  | negation t ih =>
    intro hg hf
    obtain ⟨c, cs, hrev, hcws⟩ := ih hg hf
    refine ⟨c, cs ++ ['~'], ?_, hcws⟩
    have hd : (wrap_if_needed (.negation t)).data = '~' :: (wrap_if_needed t).data := by
      have := strdata_neg t []
      rw [List.append_nil, List.append_nil] at this
      rw [wif_neg, this]
    rw [hd]
    simp [hrev]
  | conjunction l r ihl ihr =>
    intro hg hf
    refine ⟨')', (sentence_to_string (Sentence.conjunction l r)).data.reverse ++ ['('], ?_, by decide⟩
    have hd := wifdata_conj l r []
    rw [List.append_nil] at hd
    rw [hd]
    simp [List.reverse_append]
  | nand l r ihl ihr =>
    intro hg hf
    refine ⟨')', (sentence_to_string (Sentence.nand l r)).data.reverse ++ ['('], ?_, by decide⟩
    have hd := wifdata_nand l r []
    rw [List.append_nil] at hd
    rw [hd]
    simp [List.reverse_append]

theorem str_last (s : Sentence) (hg : good_sentence s = true)
    (hf : roundtrip_fragment s = true) :
    ∃ c cs, ((sentence_to_string s).data).reverse = c :: cs ∧ is_ws c = false := by
  cases s with
  | value v => simp [roundtrip_fragment] at hf
  | disjunction l r => simp [roundtrip_fragment] at hf
  | conditional l r => simp [roundtrip_fragment] at hf
  | biconditional l r => simp [roundtrip_fragment] at hf
  | xor l r => simp [roundtrip_fragment] at hf
  | letter l => exact wif_last (.letter l) hg hf
  | negation t => exact wif_last (.negation t) hg hf
  | conjunction l r =>
    have hgr : good_sentence r = true := (Bool.and_eq_true .. ▸ hg).2
    have hfr : roundtrip_fragment r = true := (Bool.and_eq_true .. ▸ hf).2
    obtain ⟨c, cs, hrev, hcws⟩ := wif_last r hgr hfr
    have hd := strdata_conj l r []
    rw [List.append_nil, List.append_nil] at hd
    refine ⟨c, cs ++ ([' ', '&', ' '] ++ (wrap_if_needed l).data.reverse), ?_, hcws⟩
    rw [hd]
    simp [List.reverse_append, hrev]
  | nand l r =>
    have hgr : good_sentence r = true := (Bool.and_eq_true .. ▸ hg).2
    have hfr : roundtrip_fragment r = true := (Bool.and_eq_true .. ▸ hf).2
    obtain ⟨c, cs, hrev, hcws⟩ := wif_last r hgr hfr
    have hd := strdata_nand l r []
    rw [List.append_nil, List.append_nil] at hd
    refine ⟨c, cs ++ ([' ', '|', ' '] ++ (wrap_if_needed l).data.reverse), ?_, hcws⟩
    rw [hd]
    simp [List.reverse_append, hrev]

theorem jsTrim_str (s : Sentence) (hg : good_sentence s = true)
    (hf : roundtrip_fragment s = true) :
    jsTrim (sentence_to_string s).data = (sentence_to_string s).data := by
  have h1 : (sentence_to_string s).data.dropWhile is_ws = (sentence_to_string s).data := by
    have := skipWs_str s hg hf []
    rw [List.append_nil] at this
    exact this
  obtain ⟨c, cs, hrev, hcws⟩ := str_last s hg hf
  have h2 : (sentence_to_string s).data.reverse.dropWhile is_ws
      = (sentence_to_string s).data.reverse := by
    rw [hrev]
    simp [List.dropWhile, hcws]
  show (((sentence_to_string s).data.dropWhile is_ws).reverse.dropWhile is_ws).reverse
      = (sentence_to_string s).data
  rw [h1, h2, List.reverse_reverse]

theorem ffl_le_len : ∀ s : Sentence, good_sentence s = true → roundtrip_fragment s = true →
    factor_fuel s ≤ 8 * (wrap_if_needed s).data.length := by
  intro s
  induction s with
  | value v => intro hg hf; simp [roundtrip_fragment] at hf
  | disjunction l r ihl ihr => intro hg hf; simp [roundtrip_fragment] at hf
  | conditional l r ihl ihr => intro hg hf; simp [roundtrip_fragment] at hf
  | biconditional l r ihl ihr => intro hg hf; simp [roundtrip_fragment] at hf
  | xor l r ihl ihr => intro hg hf; simp [roundtrip_fragment] at hf
  | letter l =>
    intro hg hf
    obtain ⟨c, hid, hc, hidx⟩ := good_letter_spec l hg
    have hlen : (wrap_if_needed (.letter l)).data.length = 1 := by
      rw [wif_letter, letter_string_data l hidx, hid]
      rfl
    rw [hlen]
    simp [factor_fuel]
  | negation t ih =>
    intro hg hf
    have hit := ih hg hf
    have hd : (wrap_if_needed (.negation t)).data = '~' :: (wrap_if_needed t).data := by
      have := strdata_neg t []
      rw [List.append_nil, List.append_nil] at this
      rw [wif_neg, this]
    rw [hd]
    simp only [factor_fuel, List.length_cons]
    omega
  | conjunction l r ihl ihr =>
    intro hg hf
    have hgl : good_sentence l = true := (Bool.and_eq_true .. ▸ hg).1
    have hgr : good_sentence r = true := (Bool.and_eq_true .. ▸ hg).2
    have hfl : roundtrip_fragment l = true := (Bool.and_eq_true .. ▸ hf).1
    have hfr : roundtrip_fragment r = true := (Bool.and_eq_true .. ▸ hf).2
    have hil := ihl hgl hfl
    have hir := ihr hgr hfr
    have hd := wifdata_conj l r []
    rw [List.append_nil] at hd
    have hs := strdata_conj l r []
    rw [List.append_nil] at hs
    have hlen1 := congrArg List.length hd
    have hlen2 := congrArg List.length hs
    simp only [List.length_cons, List.length_append, List.length_nil] at hlen1 hlen2
    simp only [factor_fuel]
    omega
  | nand l r ihl ihr =>
    intro hg hf
    have hgl : good_sentence l = true := (Bool.and_eq_true .. ▸ hg).1
    have hgr : good_sentence r = true := (Bool.and_eq_true .. ▸ hg).2
    have hfl : roundtrip_fragment l = true := (Bool.and_eq_true .. ▸ hf).1
    have hfr : roundtrip_fragment r = true := (Bool.and_eq_true .. ▸ hf).2
    have hil := ihl hgl hfl
    have hir := ihr hgr hfr
    have hd := wifdata_nand l r []
    rw [List.append_nil] at hd
    have hs := strdata_nand l r []
    rw [List.append_nil] at hs
    have hlen1 := congrArg List.length hd
    have hlen2 := congrArg List.length hs
    simp only [List.length_cons, List.length_append, List.length_nil] at hlen1 hlen2
    simp only [factor_fuel]
    omega

theorem sfl_le_len (s : Sentence) (hg : good_sentence s = true)
    (hf : roundtrip_fragment s = true) :
    sentence_fuel s ≤ 8 * (sentence_to_string s).data.length + 32 := by
  cases s with
  | value v => simp [roundtrip_fragment] at hf
  | disjunction l r => simp [roundtrip_fragment] at hf
  | conditional l r => simp [roundtrip_fragment] at hf
  | biconditional l r => simp [roundtrip_fragment] at hf
  | xor l r => simp [roundtrip_fragment] at hf
  | letter l =>
    have := ffl_le_len (.letter l) hg hf
    rw [show sentence_to_string (Sentence.letter l) = wrap_if_needed (Sentence.letter l)
      from rfl]
    simp only [sentence_fuel]
    omega
  | negation t =>
    have := ffl_le_len (.negation t) hg hf
    rw [show sentence_to_string (Sentence.negation t) = wrap_if_needed (Sentence.negation t)
      from rfl]
    simp only [sentence_fuel]
    omega
  | conjunction l r =>
    have hb := ffl_le_len (.conjunction l r) hg hf
    have hd := wifdata_conj l r []
    rw [List.append_nil] at hd
    have hlen1 := congrArg List.length hd
    simp only [List.length_cons, List.length_append, List.length_nil] at hlen1
    simp only [factor_fuel] at hb
    simp only [sentence_fuel]
    omega
  | nand l r =>
    have hb := ffl_le_len (.nand l r) hg hf
    have hd := wifdata_nand l r []
    rw [List.append_nil] at hd
    have hlen1 := congrArg List.length hd
    simp only [List.length_cons, List.length_append, List.length_nil] at hlen1
    simp only [factor_fuel] at hb
    simp only [sentence_fuel]
    omega

/-- C1: amended. The round trip holds exactly on the fragment whose display
symbols are also parser input symbols (letters, ~, &, |): re-parsing the
spaced rendering of any parsed Sentence in that fragment succeeds and returns
the very same Sentence, so in particular it evaluates identically under every
assignment. -/
theorem C1_roundtrip_amended (input : String) (s : Sentence)
    (h : parse_sentence input = Res.ok s) (hfrag : roundtrip_fragment s = true) :
    parse_sentence (sentence_to_string s) = Res.ok s := by
  have hg := parse_sentence_good input s h
  have ht : jsTrim (sentence_to_string s).data = (sentence_to_string s).data :=
    jsTrim_str s hg hfrag
  have hD := (frag_parsers (8 * (sentence_to_string s).data.length + 32)).2.2.2.2
    s [] hg hfrag (Or.inl rfl) (sfl_le_len s hg hfrag)
  rw [List.append_nil] at hD
  show (match pSentence (8 * (jsTrim (sentence_to_string s).data).length + 32)
      (jsTrim (sentence_to_string s).data) with
    | some (s, []) => Res.ok s
    | _ => Res.err "Syntax error (not a wff).") = Res.ok s
  rw [ht, hD]

theorem C1_roundtrip_amended_witness :
    parse_sentence "A & B"
      = Res.ok (.conjunction (.letter ⟨"A", 0⟩) (.letter ⟨"B", 0⟩)) ∧
    roundtrip_fragment (.conjunction (.letter ⟨"A", 0⟩) (.letter ⟨"B", 0⟩)) = true ∧
    parse_sentence (sentence_to_string
        (.conjunction (.letter ⟨"A", 0⟩) (.letter ⟨"B", 0⟩)))
      = Res.ok (.conjunction (.letter ⟨"A", 0⟩) (.letter ⟨"B", 0⟩)) :=
  ⟨by decide, by decide, C1_roundtrip_amended "A & B" _ (by decide) (by decide)⟩

end TTG
